import Mathlib

/-!
# iptables-web: firewall codec and remote execution

A shallow embedding of the rule encoder / decoder and of the rule management
of `internal/service/iptables.go`, of the dump parser of
`internal/service/rules_view.go`, of the command execution of `internal/ssh`
(privilege strategies, command lines, exit codes, transactions, capability
cache and probe, batches) and of the sealing of credentials of
`internal/crypto`, with the properties stated for them.

Go strings are modelled as lists of Unicode code points (`Str`), that is, as
valid UTF-8 text; positions in a string count code points.  Go maps are
modelled as functions from keys to values, a missing key giving `none` (or
the zero value).  Go `int` values are natural numbers: the counters of the
parsers never reach the limits of the machine type.  A run-time panic is
modelled by `none`.  The lines of a text are those a `bufio.Scanner` yields.
-/

namespace IptablesWeb

/-! ## Strings -/

/-- A Go string, as the list of its code points. -/
abbrev Str := List Char

/-- The Go function `unicode.IsSpace`. -/
def isSpace (c : Char) : Bool :=
  c = '\t' || c = '\n' || c = '\x0b' || c = '\x0c' || c = '\r' || c = ' ' ||
  c.toNat = 0x85 || c.toNat = 0xA0 || c.toNat = 0x1680 ||
  (0x2000 ≤ c.toNat && c.toNat ≤ 0x200A) ||
  c.toNat = 0x2028 || c.toNat = 0x2029 || c.toNat = 0x202F ||
  c.toNat = 0x205F || c.toNat = 0x3000

/-- The Go function `strings.TrimSpace`. -/
def trimSpace (s : Str) : Str :=
  ((s.dropWhile isSpace).reverse.dropWhile isSpace).reverse

/-- Worker of `fields`: `cur` is the field being read. -/
def fieldsAux : Str → Str → List Str
  | [], cur => if cur = [] then [] else [cur]
  | c :: cs, cur =>
    if isSpace c then
      if cur = [] then fieldsAux cs [] else cur :: fieldsAux cs []
    else fieldsAux cs (cur ++ [c])

/-- The Go function `strings.Fields`. -/
def fields (s : Str) : List Str := fieldsAux s []

/-- The Go function `strings.HasPrefix`. -/
def hasPrefix (s p : Str) : Bool := p.isPrefixOf s

/-- The Go function `strings.TrimPrefix`. -/
def trimPrefix (s p : Str) : Str := if hasPrefix s p then s.drop p.length else s

/-- The Go function `strings.Index`; `none` stands for `-1`. -/
def index : Str → Str → Option Nat
  | [], p => if p = [] then some 0 else none
  | c :: cs, p =>
    if p.isPrefixOf (c :: cs) then some 0 else (index cs p).map (· + 1)

/-- The Go function `strings.Contains`. -/
def contains (s p : Str) : Bool := (index s p).isSome

/-- The Go function `strings.IndexByte` at an ASCII byte. -/
def indexByte : Str → Char → Option Nat
  | [], _ => none
  | c :: cs, q => if c = q then some 0 else (indexByte cs q).map (· + 1)

/-- Worker of `split`: `cur` is the piece being read. -/
def splitAux (sep : Char) : Str → Str → List Str
  | [], cur => [cur]
  | c :: cs, cur => if c = sep then cur :: splitAux sep cs [] else splitAux sep cs (cur ++ [c])

/-- The Go function `strings.Split` at a separator of one character. -/
def split (s : Str) (sep : Char) : List Str := splitAux sep s []

/-- The Go function `strings.Join`. -/
def join (elems : List Str) (sep : Str) : Str := sep.intercalate elems

/-! ## Data model (`internal/service/iptables.go`) -/

/-- The Go struct `Chain`. -/
structure Chain where
  Name : Str
  Policy : Str
  Builtin : Bool
  deriving DecidableEq, Repr

/-- The Go struct `Rule`. -/
structure Rule where
  ID : Str
  Num : Nat
  Chain : Str
  Table : Str
  Family : Str
  Protocol : Str
  SourceIP : Str
  SourcePort : Str
  DestIP : Str
  DestPort : Str
  Action : Str
  State : List Str
  Interface : Str
  ToPort : Str
  ToSource : Str
  Comment : Str
  Spec : Str
  deriving DecidableEq, Repr

/-- The Go struct `RuleInput`. -/
structure RuleInput where
  Num : Option Int := none
  Protocol : Str := []
  SourceIP : Str := []
  SourcePort : Str := []
  DestIP : Str := []
  DestPort : Str := []
  Action : Str := []
  State : List Str := []
  Interface : Str := []
  ToPort : Str := []
  ToSource : Str := []
  Comment : Str := []
  deriving DecidableEq, Repr

/-! ## Encoder -/

/-- The Go function `buildIptablesArgs`. -/
def buildIptablesArgs (r : RuleInput) : List Str :=
  let args : List Str := []
  let args :=
    if r.Protocol ≠ [] ∧ r.Protocol ≠ "all".toList then
      args ++ ["-p".toList, r.Protocol]
    else args
  let args :=
    if r.SourceIP ≠ [] then args ++ ["-s".toList, r.SourceIP] else args
  let args :=
    if r.SourcePort ≠ [] ∧ r.Protocol ≠ [] ∧ r.Protocol ≠ "all".toList then
      args ++ ["--sport".toList, r.SourcePort]
    else args
  let args :=
    if r.DestIP ≠ [] then args ++ ["-d".toList, r.DestIP] else args
  let args :=
    if r.DestPort ≠ [] ∧ r.Protocol ≠ [] ∧ r.Protocol ≠ "all".toList then
      args ++ ["--dport".toList, r.DestPort]
    else args
  let args :=
    if r.State.length > 0 then
      args ++ ["-m".toList, "conntrack".toList, "--ctstate".toList, join r.State ",".toList]
    else args
  let args :=
    if r.Interface ≠ [] then args ++ ["-i".toList, r.Interface] else args
  let args :=
    if r.Action ≠ [] then
      let args := args ++ ["-j".toList, r.Action]
      let args :=
        if r.Action = "DNAT".toList ∧ (r.ToSource ≠ [] ∨ r.ToPort ≠ []) then
          let dest := r.ToSource
          let dest :=
            if r.ToPort ≠ [] then
              if dest = [] then ":".toList ++ r.ToPort
              else dest ++ ":".toList ++ r.ToPort
            else dest
          if dest ≠ [] then args ++ ["--to-destination".toList, dest] else args
        else args
      let args :=
        if r.Action = "SNAT".toList ∧ r.ToSource ≠ [] then
          args ++ ["--to-source".toList, r.ToSource]
        else args
      let args :=
        if r.Action = "REDIRECT".toList ∧ r.ToPort ≠ [] then
          args ++ ["--to-ports".toList, r.ToPort]
        else args
      args
    else args
  let args :=
    if r.Comment ≠ [] then
      args ++ ["-m".toList, "comment".toList, "--comment".toList, r.Comment]
    else args
  args

/-- An argument group that is emitted exactly when its condition holds. -/
def emitIf (c : Prop) [Decidable c] (seg : List Str) : List Str := if c then seg else []

/-- The emission order of the encoder as the specification words it: the
concatenation of nine optional argument groups. -/
def encodeSpec (r : RuleInput) : List Str :=
  emitIf (r.Protocol ≠ [] ∧ r.Protocol ≠ "all".toList) ["-p".toList, r.Protocol]
  ++ emitIf (r.SourceIP ≠ []) ["-s".toList, r.SourceIP]
  ++ emitIf (r.SourcePort ≠ [] ∧ (r.Protocol ≠ [] ∧ r.Protocol ≠ "all".toList))
      ["--sport".toList, r.SourcePort]
  ++ emitIf (r.DestIP ≠ []) ["-d".toList, r.DestIP]
  ++ emitIf (r.DestPort ≠ [] ∧ (r.Protocol ≠ [] ∧ r.Protocol ≠ "all".toList))
      ["--dport".toList, r.DestPort]
  ++ emitIf (r.State ≠ [])
      ["-m".toList, "conntrack".toList, "--ctstate".toList, join r.State ",".toList]
  ++ emitIf (r.Interface ≠ []) ["-i".toList, r.Interface]
  ++ emitIf (r.Action ≠ []) ["-j".toList, r.Action]
  ++ emitIf (r.Action = "DNAT".toList ∧ (r.ToSource ≠ [] ∨ r.ToPort ≠ []))
      ["--to-destination".toList,
        r.ToSource ++ (if r.ToPort ≠ [] then ":".toList ++ r.ToPort else [])]
  ++ emitIf (r.Action = "SNAT".toList ∧ r.ToSource ≠ []) ["--to-source".toList, r.ToSource]
  ++ emitIf (r.Action = "REDIRECT".toList ∧ r.ToPort ≠ []) ["--to-ports".toList, r.ToPort]
  ++ emitIf (r.Comment ≠ []) ["-m".toList, "comment".toList, "--comment".toList, r.Comment]

/-! ## Decoder -/

/-- The ten results of the Go function `parseRuleSpec`. -/
structure Projection where
  protocol : Str := []
  sourceIP : Str := []
  sourcePort : Str := []
  destIP : Str := []
  destPort : Str := []
  action : Str := []
  iface : Str := []
  toPort : Str := []
  toSource : Str := []
  state : List Str := []
  deriving DecidableEq, Repr

/-- One round of the `switch` of `parseRuleSpec` at a token `t` that has a
successor `v`: the updated results when `t` is one of the options (the loop
then skips `v`), `none` when no `case` applies. -/
def applyOption (t v : Str) (p : Projection) : Option Projection :=
  if t = "-p".toList then some { p with protocol := v }
  else if t = "-s".toList then some { p with sourceIP := v }
  else if t = "--sport".toList ∨ t = "--source-port".toList then some { p with sourcePort := v }
  else if t = "-d".toList then some { p with destIP := v }
  else if t = "--dport".toList ∨ t = "--destination-port".toList then some { p with destPort := v }
  else if t = "-j".toList then some { p with action := v }
  else if t = "-i".toList then some { p with iface := v }
  else if t = "--ctstate".toList then some { p with state := split v ',' }
  else if t = "--to-destination".toList then
    if contains v ":".toList then
      let q := split v ':'
      let p := { p with toSource := q.headD [] }
      if q.length > 1 then some { p with toPort := q.getD 1 [] } else some p
    else some { p with toSource := v }
  else if t = "--to-source".toList then some { p with toSource := v }
  else if t = "--to-ports".toList then some { p with toPort := v }
  else none

/-- The `for` loop of `parseRuleSpec` over the tokens that are left.  A last
token changes nothing: every `case` asks for a successor. -/
def parseRuleSpecLoop : List Str → Projection → Projection
  | [], p => p
  | [_], p => p
  | t :: v :: rest, p =>
    match applyOption t v p with
    | some p' => parseRuleSpecLoop rest p'
    | none => parseRuleSpecLoop (v :: rest) p

/-- The Go function `parseRuleSpec`. -/
def parseRuleSpec (spec : Str) : Projection :=
  let p := parseRuleSpecLoop (fields spec) {}
  if p.protocol = [] then { p with protocol := "all".toList } else p

/-- The double quote and the single quote. -/
def dquote : Char := Char.ofNat 34

/-- The single quote. -/
def squote : Char := Char.ofNat 39

/-- The Go function `parseComment`. -/
def parseComment (spec : Str) : Str :=
  match index spec "--comment".toList with
  | none => []
  | some i =>
    let s := trimSpace (spec.drop (i + "--comment".toList.length))
    match s with
    | [] => []
    | c :: s' =>
      if c = dquote ∨ c = squote then
        match indexByte s' c with
        | some j => s'.take j
        | none => s'
      else
        match fields s with
        | f :: _ => f
        | [] => []

/-! ## Line scanner -/

/-- The Go constant `bufio.MaxScanTokenSize`. -/
def maxScanTokenSize : Nat := 64 * 1024

/-- The length of a string in bytes (UTF-8). -/
def byteLen (s : Str) : Nat := (s.map Char.utf8Size).sum

/-- The Go function `dropCR` of `bufio`. -/
def dropCR (s : Str) : Str := if s.getLast? = some '\r' then s.dropLast else s

/-- The lines a `bufio.Scanner` with the default split function and buffer
yields on a text: the pieces between line feeds, without a final empty
piece, each without one trailing carriage return; the scan ends before
the first line that does not fit the buffer of `maxScanTokenSize` bytes. -/
def scanLines (text : Str) : List Str :=
  let pieces := split text '\n'
  let pieces := if pieces.getLast? = some [] then pieces.dropLast else pieces
  (pieces.takeWhile (fun l => byteLen l < maxScanTokenSize)).map dropCR

/-! ## `parseTable` -/

/-- The local variables of `parseTable`. -/
structure TableState where
  chains : List Chain := []
  rules : List Rule := []
  inTable : Bool := false
  ruleIndex : Str → Nat := fun _ => 0

/-- The decimal text of a number, as `%d` prints it. -/
def decimal (n : Nat) : Str := Nat.toDigits 10 n

/-- One round of the scanning loop of `parseTable`. -/
def parseTableLine (table : Str) (st : TableState) (text : Str) : TableState :=
  let line := trimSpace text
  if line = [] ∨ hasPrefix line "#".toList then st
  else if hasPrefix line "*".toList then
    let cur := trimPrefix line "*".toList
    { st with inTable := decide (cur = table) }
  else if !st.inTable then st
  else if line = "COMMIT".toList then { st with inTable := false }
  else if hasPrefix line ":".toList then
    let rest := trimPrefix line ":".toList
    match fields rest with
    | [] => st
    | name :: ps =>
      let policy := match ps with
        | [] => "-".toList
        | q :: _ => q
      { st with chains := st.chains ++
          [{ Name := name, Policy := policy, Builtin := decide (policy ≠ "-".toList) }] }
  else if hasPrefix line "-A ".toList then
    let rest := trimSpace (trimPrefix line "-A ".toList)
    match fields rest with
    | [] => st
    | chain :: _ =>
      let spec := trimSpace (rest.drop chain.length)
      let num := st.ruleIndex chain + 1
      let comment := parseComment spec
      let p := parseRuleSpec spec
      { st with
        ruleIndex := Function.update st.ruleIndex chain num
        rules := st.rules ++
          [{ ID := chain ++ ":".toList ++ decimal num
             Num := num
             Chain := chain
             Table := table
             Family := []
             Protocol := p.protocol
             SourceIP := p.sourceIP
             SourcePort := p.sourcePort
             DestIP := p.destIP
             DestPort := p.destPort
             Action := p.action
             State := p.state
             Interface := p.iface
             ToPort := p.toPort
             ToSource := p.toSource
             Comment := comment
             Spec := spec }] }
  else st

/-- The scanning loop of `parseTable` over the lines of the dump. -/
def parseTableLines (table : Str) (lines : List Str) (st : TableState) : TableState :=
  lines.foldl (parseTableLine table) st

/-- The Go function `parseTable`. -/
def parseTable (dump table : Str) : List Chain × List Rule :=
  let st := parseTableLines table (scanLines dump) {}
  (st.chains, st.rules)

/-! ## Regular expressions of `rules_view.go`

The two patterns are anchored at both ends and are sequences of literal
characters and of greedy repetitions of a character class.  `matchItems`
is the backtracking (leftmost-first) matcher of such a sequence: a
repetition takes as many characters as it can and gives them back one by one
while the rest of the pattern fails. -/

/-- An item of a pattern: a literal character, or a greedy repetition of a
character class, of at least `min` characters, that is a capture group or
not. -/
inductive Item where
  | lit (c : Char)
  | rep (cls : Char → Bool) (min : Nat) (capture : Bool)

/-- A greedy repetition of the class `cls` followed by the continuation `k`,
which receives the characters taken and the rest of the text. -/
def matchRep (cls : Char → Bool) (min : Nat) (k : Str → Str → Option (List Str)) :
    Str → Str → Option (List Str)
  | taken, [] => if min ≤ taken.length then k taken [] else none
  | taken, x :: xs =>
    if cls x then
      match matchRep cls min k (taken ++ [x]) xs with
      | some r => some r
      | none => if min ≤ taken.length then k taken (x :: xs) else none
    else if min ≤ taken.length then k taken (x :: xs) else none

/-- The submatches of a text against a pattern `^items$`, `none` when the
text does not match. -/
def matchItems : List Item → Str → Option (List Str)
  | [], s => if s = [] then some [] else none
  | Item.lit c :: items, s =>
    match s with
    | [] => none
    | x :: xs => if x = c then matchItems items xs else none
  | Item.rep cls min capture :: items, s =>
    matchRep cls min
      (fun taken rest =>
        (matchItems items rest).map (fun caps => if capture then taken :: caps else caps))
      [] s

/-- The class `\s` of Go regular expressions. -/
def reSpace (c : Char) : Bool :=
  c = '\t' || c = '\n' || c = '\x0c' || c = '\r' || c = ' '

/-- The class `[A-Za-z-]`. -/
def rePolicyChar (c : Char) : Bool :=
  ('A'.toNat ≤ c.toNat && c.toNat ≤ 'Z'.toNat) || ('a'.toNat ≤ c.toNat && c.toNat ≤ 'z'.toNat)
    || c = '-'

/-- The pattern `^:([^ ]+)\s+([A-Za-z-]+)\s+\[([^\]]*)\]$`. -/
def reChain : List Item :=
  [Item.lit ':', Item.rep (fun c => c ≠ ' ') 1 true, Item.rep reSpace 1 false,
   Item.rep rePolicyChar 1 true, Item.rep reSpace 1 false, Item.lit '[',
   Item.rep (fun c => c ≠ ']') 0 true, Item.lit ']']

/-- The pattern `^-A\s+(\S+)\s+(.*)$`. -/
def reRule : List Item :=
  [Item.lit '-', Item.lit 'A', Item.rep reSpace 1 false,
   Item.rep (fun c => !reSpace c) 1 true, Item.rep reSpace 1 false,
   Item.rep (fun c => c ≠ '\n') 0 true]

/-! ## `parseIptablesSave` (`internal/service/rules_view.go`) -/

/-- The Go struct `RuleView`. -/
structure RuleView where
  Num : Nat
  Raw : Str
  deriving DecidableEq, Repr

/-- The Go struct `ChainView`. -/
structure ChainView where
  Order : Nat
  Name : Str
  Policy : Str
  Counters : Str
  Rules : List RuleView
  deriving DecidableEq, Repr

/-- The Go struct `RulesView`; a table that is no key of the map gives `none`. -/
structure RulesView where
  Tables : Str → Option (List ChainView)

/-- The known tables. -/
def knownTables : List Str :=
  ["raw".toList, "mangle".toList, "nat".toList, "filter".toList, "security".toList]

/-- The local variables of `parseIptablesSave`.  In `index` a table that is
no key gives `none`, which is the nil map that Go reads there. -/
structure SaveState where
  out : Str → Option (List ChainView)
  curTable : Str
  index : Str → Option (Str → Option Nat)

/-- The variables of `parseIptablesSave` before the loop. -/
def SaveState.init : SaveState where
  out := fun t => if t ∈ knownTables then some [] else none
  curTable := []
  index := fun t => if t ∈ knownTables then some (fun _ => none) else none

/-- The body of the chain branch of `parseIptablesSave` once the pattern has
matched: the chain is appended to the current table and indexed. -/
def declareChain (st : SaveState) (name policy counters : Str) : SaveState :=
  let cur := (st.out st.curTable).getD []
  let cv : ChainView :=
    { Order := cur.length
      Name := name
      Policy := if policy ≠ "-".toList then policy else []
      Counters := if counters ≠ [] then "[".toList ++ counters ++ "]".toList else []
      Rules := [] }
  let out := Function.update st.out st.curTable (some (cur ++ [cv]))
  -- `if index[curTable] == nil`: a missing inner map is created empty
  let m : Str → Option Nat := (st.index st.curTable).getD (fun _ => none)
  { st with
    out := out
    index := Function.update st.index st.curTable
      (some (Function.update m name (some ((cur ++ [cv]).length - 1)))) }

/-- The body of the rule branch of `parseIptablesSave` once the pattern has
matched.  The write `index[curTable][chain] = ...` into a nil inner map and an
index out of range are panics. -/
def appendRule (st : SaveState) (chain line : Str) : Option SaveState :=
  let created : Option ((Str → Option (List ChainView)) × (Str → Option (Str → Option Nat))) :=
    match (st.index st.curTable).bind (fun m => m chain) with
    | some _ => some (st.out, st.index)
    | none =>
      let cur := (st.out st.curTable).getD []
      let cv : ChainView :=
        { Order := cur.length, Name := chain, Policy := [], Counters := [], Rules := [] }
      let out := Function.update st.out st.curTable (some (cur ++ [cv]))
      match st.index st.curTable with
      | none => none
      | some m =>
        some (out, Function.update st.index st.curTable
          (some (Function.update m chain (some ((cur ++ [cv]).length - 1)))))
  match created with
  | none => none
  | some (out, index) =>
    let ci := ((index st.curTable).bind (fun m => m chain)).getD 0
    let chains := (out st.curTable).getD []
    match chains.get? ci with
    | none => none
    | some c =>
      let rules := c.Rules
      let rules := rules ++ [{ Num := rules.length + 1, Raw := line }]
      some { st with
        out := Function.update out st.curTable (some (chains.set ci { c with Rules := rules }))
        index := index }

/-- One round of the scanning loop of `parseIptablesSave`; `none` is a panic. -/
def parseSaveLine (st : SaveState) (text : Str) : Option SaveState :=
  let line := trimSpace text
  if line = [] ∨ hasPrefix line "#".toList then some st
  else if hasPrefix line "*".toList then
    some { st with curTable := trimPrefix line "*".toList }
  else if line = "COMMIT".toList then some { st with curTable := [] }
  else if st.curTable = [] then some st
  else if hasPrefix line ":".toList then
    match matchItems reChain line with
    | some [name, policy, counters] => some (declareChain st name policy counters)
    | _ => some st
  else if hasPrefix line "-A ".toList then
    match matchItems reRule line with
    | some (chain :: _) => appendRule st chain line
    | _ => some st
  else some st

/-- The scanning loop of `parseIptablesSave` over the lines of the text. -/
def parseSaveLines : List Str → SaveState → Option SaveState
  | [], st => some st
  | l :: ls, st =>
    match parseSaveLine st l with
    | none => none
    | some st' => parseSaveLines ls st'

/-- The Go function `parseIptablesSave`; `none` is a panic. -/
def parseIptablesSave (text : Str) : Option RulesView :=
  (parseSaveLines (scanLines text) SaveState.init).map (fun st => { Tables := st.out })

/-! ## The sections of a dump, as the specification describes them -/

/-- The lines of a dump that count: trimmed of surrounding white space,
without the blank lines and the `#` comments. -/
def significant (lines : List Str) : List Str :=
  (lines.map trimSpace).filter (fun l => decide (l ≠ []) && decide (l.head? ≠ some '#'))

/-- The lines that stand inside a section of `table`: the lines after a
header `*table`, up to the next `COMMIT` or the next header.  `inside` tells
whether the first line is inside such a section already. -/
def sectionLines (table : Str) : Bool → List Str → List Str
  | _, [] => []
  | inside, l :: ls =>
    match l with
    | '*' :: name => sectionLines table (decide (name = table)) ls
    | _ =>
      if inside then
        if l = "COMMIT".toList then sectionLines table false ls
        else l :: sectionLines table true ls
      else sectionLines table false ls

/-- A line that is neither blank, nor a comment, nor a table header, nor
`COMMIT`: a line that belongs to the section in which it stands. -/
def plainLine (l : Str) : Bool :=
  decide (l ≠ []) && decide (l.head? ≠ some '#') && decide (l.head? ≠ some '*')
    && decide (l ≠ "COMMIT".toList)

/-- A chain declaration `:<name> <policy> [<counters>]`, as the chain pattern
accepts it. -/
def isDecl (l : Str) : Bool :=
  decide (l.head? = some ':') &&
    (match matchItems reChain l with
      | some [_, _, _] => true
      | _ => false)

/-- The chain of a rule line `-A <chain> <spec>`. -/
def ruleChain (l : Str) : Option Str :=
  if hasPrefix l "-A ".toList then (matchItems reRule l).bind List.head? else none

/-- The chain that a line of a section names: the name of a declaration
`:<name> <policy> [<counters>]`, or the chain of a rule line. -/
def introducedChain (l : Str) : Option Str :=
  match l with
  | ':' :: _ => (matchItems reChain l).bind List.head?
  | _ => ruleChain l

/-- A line that opens or closes a section: a header `*<table>` or `COMMIT`. -/
def marker (l : Str) : Bool :=
  decide (l.head? = some '*') || decide (l = "COMMIT".toList)

/-- The table whose section is open after the given lines, when `cur` was
open before them: the name of the last header `*<table>`, unless a `COMMIT`
follows it. -/
def tableAfter (cur : Str) (lines : List Str) : Str :=
  match (significant lines).reverse.find? marker with
  | some ('*' :: name) => name
  | some _ => []
  | none => cur

/-- The table whose section is open after the given lines of a dump; empty
when none is. -/
def openTable (lines : List Str) : Str := tableAfter [] lines

/-- A dump with two chain declarations. -/
def sampleDeclDump : Str :=
  "*filter\n:INPUT ACCEPT [0:0]\n:LOGDROP - [12:34]\nCOMMIT\n".toList

/-- The chains of table `filter` in the view of `sampleDeclDump`. -/
def sampleDeclChains : List ChainView :=
  [{ Order := 0, Name := "INPUT".toList, Policy := "ACCEPT".toList, Counters := "[0:0]".toList,
     Rules := [] },
   { Order := 1, Name := "LOGDROP".toList, Policy := [], Counters := "[12:34]".toList,
     Rules := [] }]

/-! ## Texts made of words -/

/-- The words of a list, each followed by one space. -/
def spaced : List Str → Str
  | [] => []
  | t :: ts => t ++ ' ' :: spaced ts

/-- A word: a text that is not empty and holds no white space. -/
def isWord (t : Str) : Prop := t ≠ [] ∧ ∀ c ∈ t, isSpace c = false

/-! ## Rules that are read back -/

/-- The argument groups of the encoder for a rule whose action is none of
`DNAT`, `SNAT`, `REDIRECT`, without the comment group. -/
def coreArgs (r : RuleInput) : List Str :=
  emitIf (r.Protocol ≠ [] ∧ r.Protocol ≠ "all".toList) ["-p".toList, r.Protocol]
  ++ (emitIf (r.SourceIP ≠ []) ["-s".toList, r.SourceIP]
  ++ (emitIf (r.SourcePort ≠ [] ∧ (r.Protocol ≠ [] ∧ r.Protocol ≠ "all".toList))
      ["--sport".toList, r.SourcePort]
  ++ (emitIf (r.DestIP ≠ []) ["-d".toList, r.DestIP]
  ++ (emitIf (r.DestPort ≠ [] ∧ (r.Protocol ≠ [] ∧ r.Protocol ≠ "all".toList))
      ["--dport".toList, r.DestPort]
  ++ (emitIf (r.State ≠ [])
      ["-m".toList, "conntrack".toList, "--ctstate".toList, join r.State ",".toList]
  ++ (emitIf (r.Interface ≠ []) ["-i".toList, r.Interface]
  ++ emitIf (r.Action ≠ []) ["-j".toList, r.Action]))))))

/-- The structured rules that the decoder reads back from their encoding:
the action is no NAT target, the protocol is given, ports come with a
protocol other than `all`, the values hold no white space, the values other
than the comment do not hold the text `--comment`, the state names hold no
comma and are not the single empty name, and the comment starts with no
quote. -/
structure Decodable (r : RuleInput) : Prop where
  action : r.Action ≠ "DNAT".toList ∧ r.Action ≠ "SNAT".toList ∧ r.Action ≠ "REDIRECT".toList
  protocol : r.Protocol ≠ []
  ports : r.Protocol = "all".toList → r.SourcePort = [] ∧ r.DestPort = []
  words : ∀ v ∈ [r.Protocol, r.SourceIP, r.SourcePort, r.DestIP, r.DestPort,
      join r.State ",".toList, r.Interface, r.Action, r.Comment], ∀ c ∈ v, isSpace c = false
  plain : ∀ v ∈ [r.Protocol, r.SourceIP, r.SourcePort, r.DestIP, r.DestPort,
      join r.State ",".toList, r.Interface, r.Action], index v "--comment".toList = none
  state : r.State ≠ [[]] ∧ ∀ s ∈ r.State, ',' ∉ s
  quote : r.Comment.head? ≠ some dquote ∧ r.Comment.head? ≠ some squote

/-- A rule with every decoded field set. -/
def sampleRule : RuleInput :=
  { Protocol := "tcp".toList, SourceIP := "10.0.0.0/8".toList, SourcePort := "1024:65535".toList,
    DestIP := "192.168.1.1".toList, DestPort := "22".toList, Action := "ACCEPT".toList,
    State := ["NEW".toList, "ESTABLISHED".toList], Interface := "eth0".toList,
    Comment := "ssh-in".toList }

/-! ## Rule lines without a known option -/

/-- The Go function `strings.ToLower`, over the case mapping `lower` of single
characters (the Go function `unicode.ToLower`). -/
def toLower (lower : Char → Char) (s : Str) : Str := s.map lower

/-- The case mapping on ASCII: the letters `A` to `Z` go to `a` to `z`, every
other character is left alone. -/
def asciiLower (c : Char) : Char :=
  if 65 ≤ c.toNat ∧ c.toNat ≤ 90 then Char.ofNat (c.toNat + 32) else c

/-- The Go function `looksLikeRequireTTY`. -/
def looksLikeRequireTTY (lower : Char → Char) (stderr : Str) : Bool :=
  let s := toLower lower stderr
  contains s "no tty".toList ||
    contains s "a terminal is required".toList ||
    contains s "you must have a tty".toList ||
    contains s "requiretty".toList ||
    contains s "需要 tty".toList

/-- The Go function `looksLikeSudoReadFromTTY`. -/
def looksLikeSudoReadFromTTY (lower : Char → Char) (stderr : Str) : Bool :=
  let s := toLower lower stderr
  contains s "not a tty".toList ||
    contains s "no tty present".toList ||
    contains s "unable to allocate pty".toList

/-- The Go function `needsSudoPassword`. -/
def needsSudoPassword (lower : Char → Char) (stderr : Str) : Bool :=
  let s := toLower lower (trimSpace stderr)
  if s = [] then false
  else if ["需要密码".toList, "password is required".toList, "a password is required".toList,
      "sudo: a password is required".toList, "password:".toList, "sudo: password for".toList,
      "authentication failure".toList, "sorry, you must have a tty".toList].any
        (fun p => contains s p) then true
  else if contains s "sudo:".toList &&
      (contains s "password".toList || contains s "需要".toList) then true
  else false

/-- The need-password lexicon as the specification words it: the text,
compared without regard to case, contains one of the seven patterns, or
contains both `sudo:` and one of `password` / `需要`. -/
def needPasswordLexicon (lower : Char → Char) (e : Str) : Bool :=
  let s := toLower lower e
  ["password is required".toList, "a password is required".toList,
    "sudo: a password is required".toList, "password:".toList, "sudo: password for".toList,
    "authentication failure".toList, "需要密码".toList].any (fun p => contains s p) ||
  (contains s "sudo:".toList && (contains s "password".toList || contains s "需要".toList))

/-- The Go function `strings.ReplaceAll` at an old text of one character. -/
def replaceAll : Str → Char → Str → Str
  | [], _, _ => []
  | c :: cs, old, new => (if c = old then new else [c]) ++ replaceAll cs old new

/-- The Go function `shellEscape`. -/
def shellEscape (s : Str) : Str :=
  [squote] ++ replaceAll s squote [squote, dquote, squote, dquote, squote] ++ [squote]

/-- The Go function `pathWrap`. -/
def pathWrap (cmd : Str) : Str :=
  "sh -lc 'PATH=/usr/sbin:/sbin:/usr/local/sbin:$PATH; ".toList ++ cmd ++ "'".toList

/-- The Go function `firstNonEmpty`. -/
def firstNonEmpty (a b : Str) : Str := if trimSpace a ≠ [] then a else b

/-- The Go function `sort.Strings`: ascending in the byte order of strings,
which on UTF-8 text is the lexicographic order of the code points. -/
def sortStrings (l : List Str) : List Str := l.insertionSort (fun a b => a ≤ b)

/-- The backslash. -/
def backslash : Char := Char.ofNat 92

/-- The Go table `lowerhex` at the lowest four bits of `n`. -/
def lowerhex (n : Nat) : Char := "0123456789abcdef".toList.getD (n % 16) '0'

/-- The `k` lowest hexadecimal digits of `n`, the highest first. -/
def hexDigits (n : Nat) : Nat → Str
  | 0 => []
  | k + 1 => lowerhex (n / 16 ^ k) :: hexDigits n k

/-- The Go function `strconv.IsPrint`; `printable` is its table beyond
Latin-1. -/
def isPrint (printable : Char → Bool) (c : Char) : Bool :=
  if c.toNat ≤ 0xFF then
    (0x20 ≤ c.toNat && c.toNat ≤ 0x7E) || (0xA1 ≤ c.toNat && c.toNat != 0xAD)
  else printable c

/-- The Go function `appendEscapedRune` of `strconv` for the double quote, as
`%q` uses it. -/
def appendEscapedRune (printable : Char → Bool) (c : Char) : Str :=
  if c = dquote ∨ c = backslash then [backslash, c]
  else if isPrint printable c then [c]
  else if c.toNat = 7 then [backslash, 'a']
  else if c.toNat = 8 then [backslash, 'b']
  else if c.toNat = 12 then [backslash, 'f']
  else if c.toNat = 10 then [backslash, 'n']
  else if c.toNat = 13 then [backslash, 'r']
  else if c.toNat = 9 then [backslash, 't']
  else if c.toNat = 11 then [backslash, 'v']
  else if c.toNat < 0x20 ∨ c.toNat = 0x7F then backslash :: 'x' :: hexDigits c.toNat 2
  else if c.toNat < 0x10000 then backslash :: 'u' :: hexDigits c.toNat 4
  else backslash :: 'U' :: hexDigits c.toNat 8

/-- The characters of a text, each escaped as `%q` does. -/
def escapeRunes (printable : Char → Bool) : Str → Str
  | [] => []
  | c :: cs => appendEscapedRune printable c ++ escapeRunes printable cs

/-- The Go function `strconv.Quote`, the verb `%q` of `fmt` on a string. -/
def strconvQuote (printable : Char → Bool) (s : Str) : Str :=
  [dquote] ++ escapeRunes printable s ++ [dquote]

/-! ## Remote execution: commands and sessions (`internal/ssh`)

The remote host and the SSH library are modelled by the answers they give
(`Remote`), threaded through an explicit state of the world.  A function that
runs commands returns, next to its result, the session runs it made, in
order. -/

/-- A Go error value, as far as the package tells errors apart: an
`*ssh.ExitError` with the exit status of the remote command, or an error of
another type; both with the text of `Error()`. -/
inductive GoError where
  | exitError (status : Int) (msg : Str)
  | other (msg : Str)
  deriving DecidableEq, Repr

/-- The Go method `Error` of an error. -/
def GoError.Error : GoError → Str
  | .exitError _ msg => msg
  | .other msg => msg

/-- The Go struct `Command`.  The map `Env` is the list of its entries, the
keys pairwise distinct, in the order in which `range` happens to yield them. -/
structure Command where
  Raw : Str := []
  Args : List Str := []
  Stdin : Str := []
  PTY : Bool := false
  Shell : Bool := false
  Timeout : Int := 0
  Env : List (Str × Str) := []
  WorkDir : Str := []
  deriving DecidableEq, Repr

/-- The Go struct `Result`. -/
structure Result where
  HostIP : Str := []
  Stdout : Str := []
  Stderr : Str := []
  Err : Option GoError := none
  Code : Int := 0
  Spent : Nat := 0
  Strategy : Str := []
  deriving DecidableEq, Repr

/-- The Go struct `Capabilities`, without the time stamp of the cache. -/
structure Capabilities where
  SudoNoPass : Bool := false
  RequireTTY : Bool := false
  IptablesPath : Str := []
  deriving DecidableEq, Repr

/-- The value `env[k]` of a map: the zero value when the key is missing. -/
def envGet (env : List (Str × Str)) (k : Str) : Str := (env.lookup k).getD []

/-- The Go function `envWrap`. -/
def envWrap (env : List (Str × Str)) (cmd : Str) : Str :=
  let keys := sortStrings (env.map Prod.fst)
  let pairs := keys.map (fun k => k ++ "=".toList ++ shellEscape (envGet env k))
  join pairs " ".toList ++ " ".toList ++ cmd

/-- The command line `runCmd` that `lowLevelRun` builds and runs. -/
def runCmd (cmd : Command) : Str :=
  let r := cmd.Raw
  let r := if cmd.Shell then pathWrap r else r
  let r := if cmd.WorkDir ≠ [] then
    "cd ".toList ++ shellEscape cmd.WorkDir ++ " && ".toList ++ r else r
  if cmd.Env.length > 0 then envWrap cmd.Env r else r

/-- The Go function `exitCode`. -/
def exitCode : Option GoError → Int
  | none => 0
  | some (.exitError status _) => status
  | some (.other _) => -1

/-- A run of a command line on a session: the line given to `Run`, whether a
PTY was requested for the session, and the text fed to its standard input. -/
structure SessionRun where
  line : Str
  pty : Bool
  stdin : Str
  deriving DecidableEq, Repr

/-- What a session run yields: the two output buffers, the error `e` that the
`select` of `lowLevelRun` receives (that of `Run`, or that of the context when
it ends first), and the time spent. -/
structure RunOutcome where
  stdout : Str := []
  stderr : Str := []
  err : Option GoError := none
  spent : Nat := 0
  deriving DecidableEq, Repr

/-- The answers of the remote side in a state `W` of the world. -/
structure Remote (W : Type) where
  getOrConnect : W → Option GoError × W
  close : W → W
  newSession : W → Option GoError × W
  requestPty : W → Option GoError × W
  run : W → SessionRun → RunOutcome × W

/-- The Go method `lowLevelRun`. -/
def lowLevelRun {W : Type} (R : Remote W) (hostIP : Str) (w : W) (cmd : Command) :
    Result × List SessionRun × W :=
  let opened : Option GoError × W :=
    match R.newSession w with
    | (none, w1) => (none, w1)
    | (some err, w1) =>
      match R.getOrConnect (R.close w1) with
      | (none, w2) => R.newSession w2
      | (some _, w2) => (some err, w2)
  match opened with
  | (some err, w1) => ({ HostIP := hostIP, Err := some err, Code := -1 }, [], w1)
  | (none, w1) =>
    let pty : Option GoError × W := if cmd.PTY then R.requestPty w1 else (none, w1)
    match pty with
    | (some err, w2) =>
      ({ HostIP := hostIP, Err := some (.other ("request pty: ".toList ++ err.Error)),
         Code := -1 }, [], w2)
    | (none, w2) =>
      let sr : SessionRun := { line := runCmd cmd, pty := cmd.PTY, stdin := cmd.Stdin }
      let o := R.run w2 sr
      ({ HostIP := hostIP, Stdout := o.1.stdout, Stderr := o.1.stderr, Err := o.1.err,
         Code := exitCode o.1.err, Spent := o.1.spent }, [sr], o.2)

/-- The command of the first attempt of the sudo ladder. -/
def sudoFirst (cmd : Command) : Command := { cmd with Raw := "sudo -n ".toList ++ cmd.Raw }

/-- The command of the password attempt of the sudo ladder, after a first
attempt with the given error output. -/
def sudoSecond (lower : Char → Char) (cap : Capabilities) (userPass : Str) (stderr : Str)
    (cmd : Command) : Command :=
  let c2 := { cmd with Raw := "sudo -S -p '' ".toList ++ cmd.Raw }
  let c2 := if cmd.Stdin ≠ [] then { c2 with Stdin := cmd.Stdin ++ "\n".toList } else c2
  let c2 := { c2 with Stdin := c2.Stdin ++ (userPass ++ "\n".toList) }
  if cmd.PTY || cap.RequireTTY || looksLikeRequireTTY lower stderr ||
      looksLikeSudoReadFromTTY lower stderr then { c2 with PTY := true } else c2

/-- The sudo ladder: the body of `SudoStrategy.Exec` once the connection
stands and `ProbeCapabilities` has answered `cap`; `userPass` is the opened
password of the host. -/
def sudoLadder {W : Type} (lower : Char → Char) (R : Remote W) (hostIP : Str)
    (cap : Capabilities) (userPass : Str) (w : W) (cmd : Command) :
    Result × List SessionRun × W :=
  let a1 := lowLevelRun R hostIP w (sudoFirst cmd)
  let r1 : Result := { a1.1 with Strategy := "sudo".toList }
  if r1.Err.isNone then (r1, a1.2.1, a1.2.2)
  else if cap.SudoNoPass && !needsSudoPassword lower r1.Stderr then (r1, a1.2.1, a1.2.2)
  else if !needsSudoPassword lower r1.Stderr && !looksLikeRequireTTY lower r1.Stderr &&
      !looksLikeSudoReadFromTTY lower r1.Stderr then (r1, a1.2.1, a1.2.2)
  else
    let a2 := lowLevelRun R hostIP a1.2.2 (sudoSecond lower cap userPass r1.Stderr cmd)
    ({ a2.1 with Strategy := "sudo".toList }, a1.2.1 ++ a2.2.1, a2.2.2)

/-- The Go method `SudoStrategy.Exec`, with `cap` the answer of
`ProbeCapabilities`. -/
def SudoStrategy.Exec {W : Type} (lower : Char → Char) (R : Remote W) (hostIP : Str)
    (cap : Capabilities) (userPass : Str) (w : W) (cmd : Command) :
    Result × List SessionRun × W :=
  match R.getOrConnect w with
  | (some err, w1) =>
    ({ HostIP := hostIP, Err := some err, Code := -1, Strategy := "sudo".toList }, [], w1)
  | (none, w1) => sudoLadder lower R hostIP cap userPass w1 cmd

/-- The command that `UserSuStrategy.Exec` hands to `lowLevelRun`. -/
def suCommand (printable : Char → Bool) (rootUser rootPass : Str) (cmd : Command) : Command :=
  let w := { cmd with PTY := true }
  let raw := if cmd.Shell then pathWrap cmd.Raw else cmd.Raw
  let w := { w with Raw := "su - ".toList ++ firstNonEmpty rootUser "root".toList
    ++ " -c ".toList ++ strconvQuote printable raw }
  let w := if cmd.Stdin ≠ [] then { w with Stdin := cmd.Stdin ++ "\n".toList } else w
  { w with Stdin := w.Stdin ++ (rootPass ++ "\n".toList) }

/-- The Go method `UserSuStrategy.Exec`; `rootUser` is the field of the host,
`rootPass` its opened root password. -/
def UserSuStrategy.Exec {W : Type} (printable : Char → Bool) (R : Remote W) (hostIP : Str)
    (rootUser rootPass : Str) (w : W) (cmd : Command) : Result × List SessionRun × W :=
  match R.getOrConnect w with
  | (some err, w1) =>
    ({ HostIP := hostIP, Err := some err, Code := -1, Strategy := "user-su".toList }, [], w1)
  | (none, w1) =>
    let a := lowLevelRun R hostIP w1 (suCommand printable rootUser rootPass cmd)
    ({ a.1 with Strategy := "user-su".toList }, a.2.1, a.2.2)

/-- A remote side that accepts every connection, session and PTY request and
answers the runs from a list of outcomes, one after the other. -/
def scripted : Remote (List RunOutcome) where
  getOrConnect := fun w => (none, w)
  close := fun w => w
  newSession := fun w => (none, w)
  requestPty := fun w => (none, w)
  run := fun w _ => (w.headD {}, w.tail)

/-- The first attempt of the sudo ladder: the run of `sudo -n <cmd>`. -/
def sudoAttempt1 {W : Type} (R : Remote W) (hostIP : Str) (w : W) (cmd : Command) :
    Result × List SessionRun × W :=
  lowLevelRun R hostIP w (sudoFirst cmd)

/-- The password attempt of the sudo ladder: the run of `sudo -S -p '' <cmd>`
in the world that the first attempt leaves. -/
def sudoAttempt2 {W : Type} (lower : Char → Char) (R : Remote W) (hostIP : Str)
    (cap : Capabilities) (userPass : Str) (w : W) (cmd : Command) :
    Result × List SessionRun × W :=
  lowLevelRun R hostIP (sudoAttempt1 R hostIP w cmd).2.2
    (sudoSecond lower cap userPass (sudoAttempt1 R hostIP w cmd).1.Stderr cmd)

/-! ## Transactions (`internal/ssh/txn.go`)

`Client.Exec` is modelled by the answers it gives to the commands it is
handed (`exec`), threaded through the state of the world; a function that
executes commands returns them, in order, next to its result.  A method with
a pointer receiver returns the transaction it leaves. -/

/-- The Go option `WithStdin`. -/
def WithStdin (s : Str) (c : Command) : Command := { c with Stdin := s }

/-- The Go option `WithShell`. -/
def WithShell (v : Bool) (c : Command) : Command := { c with Shell := v }

/-- The Go function `buildCommand`. -/
def buildCommand (raw : Str) (opts : List (Command → Command)) : Command :=
  let cmd := opts.foldl (fun c o => o c) { Raw := raw }
  if cmd.Raw = [] ∧ cmd.Args.length > 0 then { cmd with Raw := join cmd.Args " ".toList }
  else cmd

/-- The Go struct `Txn`, without its client. -/
structure Txn where
  v6 : Bool
  backup : Str
  active : Bool
  deriving DecidableEq, Repr

/-- The Go method `Client.IptablesRestore`: the output and the error, the
commands executed, the world.  `tailText` is the Go function `tail`, which
cuts the error output at a byte position. -/
def IptablesRestore {W : Type} (exec : W → Command → Result × W) (tailText : Str → Str)
    (v6 : Bool) (content : Str) (w : W) : (Str × Option GoError) × List Command × W :=
  let bin := if v6 then "/usr/sbin/ip6tables-restore".toList
    else "/usr/sbin/iptables-restore".toList
  let cmd := buildCommand bin [WithShell true, WithStdin content]
  let r := exec w cmd
  match r.1.Err with
  | some err =>
    (([], some (.other (bin ++ ": ".toList ++ err.Error ++ " ".toList
      ++ tailText r.1.Stderr))), [cmd], r.2)
  | none => ((r.1.Stdout, none), [cmd], r.2)

/-- The Go method `Txn.Commit`. -/
def Txn.Commit (t : Txn) : Txn := { t with active := false }

/-- The Go method `Txn.Rollback`: the error, the transaction it leaves, the
commands executed, the world. -/
def Txn.Rollback {W : Type} (exec : W → Command → Result × W) (tailText : Str → Str)
    (t : Txn) (w : W) : Option GoError × Txn × List Command × W :=
  if !t.active then (none, t, [], w)
  else
    let r := IptablesRestore exec tailText t.v6 t.backup w
    (r.1.2, t, r.2.1, r.2.2)

/-- The Go method `Txn.ExecInTxn`: the result and the error, the transaction
it leaves, the commands executed, the world. -/
def Txn.ExecInTxn {W : Type} (exec : W → Command → Result × W) (tailText : Str → Str)
    (t : Txn) (w : W) (raw : Str) (opts : List (Command → Command)) :
    (Result × Option GoError) × Txn × List Command × W :=
  if !t.active then (({}, some (.other "txn not active".toList)), t, [], w)
  else
    let r := exec w (buildCommand raw opts)
    match r.1.Err with
    | some err =>
      let rb := Txn.Rollback exec tailText t r.2
      ((r.1, some err), rb.2.1, buildCommand raw opts :: rb.2.2.1, rb.2.2.2)
    | none => ((r.1, none), t, [buildCommand raw opts], r.2)

/-- A client that answers the commands from a list of results, one after the
other. -/
def scriptedExec (w : List Result) (_ : Command) : Result × List Result := (w.headD {}, w.tail)

/-! ## Rule ids (`parseRuleNum`) -/

/-- The value of a decimal digit; `none` for another character. -/
def digitVal (c : Char) : Option Nat :=
  if 48 ≤ c.toNat ∧ c.toNat ≤ 57 then some (c.toNat - 48) else none

/-- The number that a text of decimal digits denotes, read after the digits
of `acc`; `none` when a character is not a digit. -/
def parseDigits : Str → Nat → Option Nat
  | [], acc => some acc
  | c :: cs, acc =>
    match digitVal c with
    | some d => parseDigits cs (acc * 10 + d)
    | none => none

/-- The Go function `strconv.Atoi` with `int` of 64 bits: an optional sign and
at least one decimal digit, the value within the range of `int`; `none` stands
for an error. -/
def atoi (s : Str) : Option Int :=
  let digits := if s.head? = some '+' ∨ s.head? = some '-' then s.drop 1 else s
  if digits = [] then none
  else
    match parseDigits digits 0 with
    | none => none
    | some n =>
      let v : Int := if s.head? = some '-' then -(n : Int) else (n : Int)
      if -(2 : Int) ^ 63 ≤ v ∧ v < (2 : Int) ^ 63 then some v else none

/-- The Go function `strings.LastIndex`; `none` stands for `-1`. -/
def lastIndex : Str → Str → Option Nat
  | [], p => if p = [] then some 0 else none
  | c :: cs, p =>
    match lastIndex cs p with
    | some i => some (i + 1)
    | none => if p.isPrefixOf (c :: cs) then some 0 else none

/-- The Go function `parseRuleNum`; `none` stands for an error. -/
def parseRuleNum (id : Str) : Option Int :=
  match atoi id with
  | some n => some n
  | none =>
    match lastIndex id ":".toList with
    | some i => atoi (id.drop (i + 1))
    | none => none

/-! ## Shell words

The reading of a fragment of a command line by the quoting rules of the POSIX
shell, as the specification words them: text between single quotes is literal;
between double quotes a single quote is literal (and so is every character but
the double quote, the dollar sign, the backquote and the backslash); outside
quotes a character that is not special to the shell stands for itself. -/

/-- Where the reader stands: outside quotes, between single quotes, between
double quotes. -/
inductive Quoting where
  | plain
  | single
  | double
  deriving DecidableEq, Repr

/-- The characters that are special to the shell outside quotes (the quotes
apart): white space, operators, expansions and patterns. -/
def shellSpecial (c : Char) : Bool :=
  isSpace c || "|&;<>()$*?[#~=%".toList.contains c || c = backslash || c.toNat = 96

/-- The word read from a fragment in a given state, after the characters
`acc`; `none` when the fragment is not one word of quoted and plain text: it
ends inside quotes, or holds a special character where it is not literal. -/
def shellWord : Quoting → Str → Str → Option Str
  | .plain, [], acc => some acc
  | .single, [], _ => none
  | .double, [], _ => none
  | .plain, c :: cs, acc =>
    if c = squote then shellWord .single cs acc
    else if c = dquote then shellWord .double cs acc
    else if shellSpecial c then none
    else shellWord .plain cs (acc ++ [c])
  | .single, c :: cs, acc =>
    if c = squote then shellWord .plain cs acc else shellWord .single cs (acc ++ [c])
  | .double, c :: cs, acc =>
    if c = dquote then shellWord .plain cs acc
    else if c.toNat = 36 ∨ c.toNat = 96 ∨ c = backslash then none
    else shellWord .double cs (acc ++ [c])

/-- The text that a fragment denotes when it is one shell word. -/
def shellRead (s : Str) : Option Str := if s = [] then none else shellWord .plain s []

/-! ## Transactions: the snapshot (`internal/ssh/txn.go`, `internal/ssh/iptables.go`) -/

/-- The Go method `Client.IptablesSave`: the dump and the error, the commands
executed, the world. -/
def IptablesSave {W : Type} (exec : W → Command → Result × W) (tailText : Str → Str)
    (v6 : Bool) (w : W) : (Str × Option GoError) × List Command × W :=
  let bin := if v6 then "/usr/sbin/ip6tables-save".toList else "/usr/sbin/iptables-save".toList
  let cmd := buildCommand bin [WithShell true]
  let r := exec w cmd
  match r.1.Err with
  | some err =>
    (([], some (.other (bin ++ ": ".toList ++ err.Error ++ " ".toList
      ++ tailText r.1.Stderr))), [cmd], r.2)
  | none => ((r.1.Stdout, none), [cmd], r.2)

/-- The Go method `Client.BeginIptablesTxn`: the transaction or the error,
the commands executed, the world. -/
def BeginIptablesTxn {W : Type} (exec : W → Command → Result × W) (tailText : Str → Str)
    (v6 : Bool) (w : W) : (Option Txn × Option GoError) × List Command × W :=
  let r := IptablesSave exec tailText v6 w
  match r.1.2 with
  | some err => ((none, some err), r.2.1, r.2.2)
  | none => ((some { v6 := v6, backup := r.1.1, active := true }, none), r.2.1, r.2.2)

/-- The command of the restore that a transaction issues. -/
def restoreCommand (t : Txn) : Command :=
  buildCommand (if t.v6 then "/usr/sbin/ip6tables-restore".toList
      else "/usr/sbin/iptables-restore".toList)
    [WithShell true, WithStdin t.backup]

/-! ## The capability cache (`internal/ssh/capabilities.go`)

Times are instants in nanoseconds on the monotonic clock, durations their
differences; they stay within the range of `int64`.  The lock of the cache
makes `Get` and `Set` atomic. -/

/-- The Go struct `CapCache`: the entries, each with its time stamp
`DetectedAt`, and the time to live. -/
structure CapCache where
  items : Str → Option (Capabilities × Int)
  ttl : Int

/-- The Go function `NewCapCache`. -/
def NewCapCache (ttl : Int) : CapCache := { items := fun _ => none, ttl := ttl }

/-- The Go method `CapCache.Get`, called at the instant `now`. -/
def CapCache.Get (cc : CapCache) (now : Int) (key : Str) : Capabilities × Bool :=
  match cc.items key with
  | none => ({}, false)
  | some (cap, detectedAt) =>
    if cc.ttl > 0 ∧ now - detectedAt > cc.ttl then ({}, false) else (cap, true)

/-- The Go method `CapCache.Set`, called at the instant `now`. -/
def CapCache.Set (cc : CapCache) (now : Int) (key : Str) (cap : Capabilities) : CapCache :=
  { cc with items := Function.update cc.items key (some (cap, now)) }

/-- A run of calls of `Set`, each with its key, its value and its instant. -/
def CapCache.setAll (cc : CapCache) (ops : List (Str × Capabilities × Int)) : CapCache :=
  ops.foldl (fun c o => c.Set o.2.2 o.1 o.2.1) cc

/-! ## Sealed credentials (`internal/crypto/secret.go`)

A plaintext is a Go string, that is a string of bytes; no text operation is
applied to it.  AES-GCM and base64 belong to the Go library: they are the
parameter `CryptoLib`, and what the library promises of them is `Lawful`. -/

/-- A string of bytes. -/
abbrev Bytes := List (Fin 256)

/-- The functions of the Go library that `Seal` and `Open` call: the sealing
and the opening of the AEAD made of a key (`aead.Seal`, `aead.Open` with no
additional data; `none` stands for an error) and the standard base64 encoding
(`EncodeToString`, `DecodeString`). -/
structure CryptoLib where
  aeadSeal : (key nonce plain : Bytes) → Bytes
  aeadOpen : (key nonce sealed : Bytes) → Option Bytes
  encodeToString : Bytes → Str
  decodeString : Str → Option Bytes

/-- What the library promises: the AEAD of a valid key opens what it has
sealed under the same nonce of the standard size; decoding inverts encoding;
the encoding of a string of bytes that is not empty is not empty. -/
structure CryptoLib.Lawful (L : CryptoLib) : Prop where
  open_seal : ∀ key nonce plain : Bytes,
    (key.length = 16 ∨ key.length = 24 ∨ key.length = 32) → nonce.length = 12 →
    L.aeadOpen key nonce (L.aeadSeal key nonce plain) = some plain
  decode_encode : ∀ b : Bytes, L.decodeString (L.encodeToString b) = some b
  encode_ne_nil : ∀ b : Bytes, b ≠ [] → L.encodeToString b ≠ []

/-- Whether `aes.NewCipher` accepts the key: its length is 16, 24 or 32. -/
def keyAccepted (key : Bytes) : Bool :=
  key.length = 16 || key.length = 24 || key.length = 32

/-- The nonce size of the standard GCM, `aead.NonceSize()`. -/
def nonceSize : Nat := 12

/-- The Go function `Seal` under the package key `key`; `drawn` is what
`io.ReadFull(rand.Reader, nonce)` yields: the bytes of the nonce, or `none` for
an error.  `none` stands for an error. -/
def Seal (L : CryptoLib) (key : Bytes) (drawn : Option Bytes) (plain : Bytes) : Option Str :=
  if plain = [] then some []
  else if !keyAccepted key then none
  else
    match drawn with
    | none => none
    | some nonce => some (L.encodeToString (nonce ++ L.aeadSeal key nonce plain))

/-- The Go function `Open` under the package key `key`; `none` stands for an
error. -/
def Open (L : CryptoLib) (key : Bytes) (cipherB64 : Str) : Option Bytes :=
  if cipherB64 = [] then some []
  else
    match L.decodeString cipherB64 with
    | none => none
    | some raw =>
      if !keyAccepted key then none
      else if raw.length < nonceSize then none
      else L.aeadOpen key (raw.take nonceSize) (raw.drop nonceSize)

/-- A library for examples: the AEAD leaves the bytes as they are, the
encoding writes each byte as the character of that code. -/
def plainLib : CryptoLib where
  aeadSeal := fun _ _ plain => plain
  aeadOpen := fun _ _ sealed => some sealed
  encodeToString := fun b => b.map (fun n => Char.ofNat n.val)
  decodeString := fun s => some (s.map (fun c => Fin.ofNat c.toNat))

/-! ## Rule management: the command line (`internal/service/iptables.go`, `internal/ssh/iptables.go`)

The family is given by the flag that `boolFamily` computes from it. -/

/-- Worker of `replaceAllText`: `skip` characters of a match are still to be
passed over. -/
def replaceAllAux (old new : Str) : Nat → Str → Str
  | _, [] => []
  | skip + 1, _ :: cs => replaceAllAux old new skip cs
  | 0, c :: cs =>
    if old.isPrefixOf (c :: cs) then new ++ replaceAllAux old new (old.length - 1) cs
    else c :: replaceAllAux old new 0 cs

/-- The Go function `strings.ReplaceAll` at an old text that is not empty. -/
def replaceAllText (s old new : Str) : Str := replaceAllAux old new 0 s

/-- The Go function `strconv.Itoa`. -/
def itoa (n : Int) : Str := if n < 0 then '-' :: decimal n.natAbs else decimal n.natAbs

/-- The binary `bin` of `Client.Iptables`. -/
def iptablesBin (cap : Capabilities) (v6 : Bool) : Str :=
  if v6 then replaceAllText cap.IptablesPath "iptables".toList "ip6tables".toList
  else cap.IptablesPath

/-- The command line `full` of `Client.Iptables`. -/
def iptablesLine (cap : Capabilities) (v6 : Bool) (table : Str) (args : List Str) : Str :=
  iptablesBin cap v6 ++ " -t ".toList ++ table ++ " ".toList ++ join args " ".toList

/-- The arguments that `CreateRule` puts before those of the encoder. -/
def placement (chainName : Str) (num : Option Int) : List Str :=
  match num with
  | some n => if n > 0 then ["-I".toList, chainName, itoa n] else ["-A".toList, chainName]
  | none => ["-A".toList, chainName]

/-- The position at which `UpdateRule` inserts the replacement of the rule at
`num`: the num of the replacement when it has one above zero, else `num`. -/
def insertPosition (num : Int) (own : Option Int) : Int :=
  match own with
  | some k => if k > 0 then k else num
  | none => num

/-! ## The client and its capability probe (`Client.Exec`, `ProbeCapabilities`)

`Client.Exec`, the strategy of the host and `ProbeCapabilities` call one
another.  The model counts the depth of the calls of `Client.Exec`: with fuel
`n` a call that needs more than `n` nested calls yields `none`.  A call that
yields `none` for every fuel does not return. -/

/-- The strategies of `StrategyByHost`. -/
inductive Strategy where
  | root
  | sudo
  | userSu
  deriving DecidableEq, Repr

/-- The Go methods `Name` of the strategies. -/
def Strategy.Name : Strategy → Str
  | .root => "root".toList
  | .sudo => "sudo".toList
  | .userSu => "user-su".toList

/-- The Go function `normalize`. -/
def normalize (lower : Char → Char) (s : Str) : Str := toLower lower (trimSpace s)

/-- The Go function `StrategyByHost`, on the login method of the host. -/
def StrategyByHost (lower : Char → Char) (loginMethod : Str) : Strategy :=
  if normalize lower loginMethod = "root".toList then .root
  else if normalize lower loginMethod = "sudo".toList then .sudo
  else if normalize lower loginMethod = "user".toList then .userSu
  else .sudo

/-- The fields of the host that the client reads; the two passwords are the
opened ones. -/
structure HostConfig where
  IP : Str := []
  LoginMethod : Str := []
  userPass : Str := []
  RootUser : Str := []
  rootPass : Str := []
  deriving DecidableEq, Repr

/-- The state of a client: the world of its connection and its capability
cache (`none` for the nil pointer). -/
structure ClientState (W : Type) where
  world : W
  cache : Option CapCache

/-- The Go option `WithTimeout`, the duration in nanoseconds. -/
def WithTimeout (d : Int) (c : Command) : Command := { c with Timeout := d }

/-- The Go function `trim1stLine`. -/
def trim1stLine (s : Str) : Str := trimSpace ((split (trimSpace s) '\n').headD [])

/-- The Go method `RootStrategy.Exec`. -/
def RootStrategy.Exec {W : Type} (R : Remote W) (hostIP : Str) (w : W) (cmd : Command) :
    Result × List SessionRun × W :=
  match R.getOrConnect w with
  | (some err, w1) =>
    ({ HostIP := hostIP, Err := some err, Code := -1, Strategy := "root".toList }, [], w1)
  | (none, w1) =>
    let a := lowLevelRun R hostIP w1 cmd
    ({ a.1 with Strategy := "root".toList }, a.2.1, a.2.2)

/-- The capabilities that `ProbeCapabilities` makes of the results of its two
probe commands. -/
def probedCapabilities (lower : Char → Char) (r r2 : Result) : Capabilities :=
  let cap : Capabilities := { IptablesPath := "/usr/sbin/iptables".toList }
  let cap :=
    if r.Err.isNone then { cap with SudoNoPass := true }
    else if looksLikeRequireTTY lower r.Stderr then
      { cap with SudoNoPass := false, RequireTTY := true }
    else { cap with SudoNoPass := false }
  if r2.Err.isNone then
    if trim1stLine r2.Stdout ≠ [] then { cap with IptablesPath := trim1stLine r2.Stdout }
    else cap
  else cap

/-- The first probe command of `ProbeCapabilities`. -/
def probeSudo : Command :=
  buildCommand "sudo -n true".toList [WithShell true, WithTimeout 5000000000]

/-- The second probe command of `ProbeCapabilities`. -/
def probePath : Command :=
  buildCommand "command -v iptables || which iptables".toList
    [WithShell true, WithTimeout 5000000000]

/-- The Go method `Client.Exec` on a built command, with the strategy of the
host and, for the sudo strategy, `ProbeCapabilities` in it; `now` reads the
clock.  The result, the session runs and the state of the client; `none` when
the calls nest deeper than the fuel. -/
def Client.Exec {W : Type} (lower : Char → Char) (printable : Char → Bool) (R : Remote W)
    (now : W → Int) (host : HostConfig) :
    Nat → ClientState W → Command → Option (Result × List SessionRun × ClientState W)
  | 0, _, _ => none
  | fuel + 1, st, cmd =>
    match StrategyByHost lower host.LoginMethod with
    | .root =>
      let a := RootStrategy.Exec R host.IP st.world cmd
      some ({ a.1 with HostIP := host.IP, Strategy := Strategy.root.Name }, a.2.1,
        { world := a.2.2, cache := st.cache })
    | .userSu =>
      let a := UserSuStrategy.Exec printable R host.IP host.RootUser host.rootPass st.world cmd
      some ({ a.1 with HostIP := host.IP, Strategy := Strategy.userSu.Name }, a.2.1,
        { world := a.2.2, cache := st.cache })
    | .sudo =>
      match R.getOrConnect st.world with
      | (some err, w1) =>
        some ({ HostIP := host.IP, Err := some err, Code := -1, Strategy := Strategy.sudo.Name },
          [], { world := w1, cache := st.cache })
      | (none, w1) =>
        let hit : Option Capabilities :=
          match st.cache with
          | none => none
          | some cc => if (cc.Get (now w1) host.IP).2 then some (cc.Get (now w1) host.IP).1
            else none
        let probed : Option (Capabilities × List SessionRun × ClientState W) :=
          match hit with
          | some cap => some (cap, [], { world := w1, cache := st.cache })
          | none =>
            match Client.Exec lower printable R now host fuel
                { world := w1, cache := st.cache } probeSudo with
            | none => none
            | some (r, t1, st1) =>
              match Client.Exec lower printable R now host fuel st1 probePath with
              | none => none
              | some (r2, t2, st2) =>
                some (probedCapabilities lower r r2, t1 ++ t2,
                  { world := st2.world,
                    cache := st2.cache.map (fun cc =>
                      cc.Set (now st2.world) host.IP (probedCapabilities lower r r2)) })
        match probed with
        | none => none
        | some (cap, tp, st') =>
          let a := sudoLadder lower R host.IP cap host.userPass st'.world cmd
          some ({ a.1 with HostIP := host.IP, Strategy := Strategy.sudo.Name }, tp ++ a.2.1,
            { world := a.2.2, cache := st'.cache })

/-! ## Rule management on a host (`internal/service/iptables.go`, `internal/ssh/iptables.go`)

The service makes a client of its own for every call (`sshClient`), without
a connection and without a capability cache, and runs its commands through
`Client.Iptables`, which probes the capabilities of the host and then calls
`Client.Exec`.  A function returns, next to its error, the commands that
`Client.Iptables` has handed to `Client.Exec`, in order, and the session runs
made; `none` when the calls of `Client.Exec` nest deeper than the fuel. -/

/-- The Go method `Client.ProbeCapabilities`; `fuel` bounds the depth of the
calls of `Client.Exec` that it makes.  The sudo branch of `Client.Exec` holds
the same steps. -/
def Client.ProbeCapabilities {W : Type} (lower : Char → Char) (printable : Char → Bool)
    (R : Remote W) (now : W → Int) (host : HostConfig) (fuel : Nat) (st : ClientState W) :
    Option (Capabilities × List SessionRun × ClientState W) :=
  let hit : Option Capabilities :=
    match st.cache with
    | none => none
    | some cc => if (cc.Get (now st.world) host.IP).2 then some (cc.Get (now st.world) host.IP).1
      else none
  match hit with
  | some cap => some (cap, [], st)
  | none =>
    match Client.Exec lower printable R now host fuel st probeSudo with
    | none => none
    | some (r, t1, st1) =>
      match Client.Exec lower printable R now host fuel st1 probePath with
      | none => none
      | some (r2, t2, st2) =>
        some (probedCapabilities lower r r2, t1 ++ t2,
          { world := st2.world,
            cache := st2.cache.map (fun cc =>
              cc.Set (now st2.world) host.IP (probedCapabilities lower r r2)) })

/-- The Go method `Host.Normalize`, on the fields that the client reads. -/
def HostConfig.Normalize (lower : Char → Char) (h : HostConfig) : HostConfig :=
  { h with LoginMethod := toLower lower (trimSpace h.LoginMethod) }

/-- What the service finds outside of it, in a state `W` of the world: the
host that the repository gives for the id (`getHost`, with its error), the
remote side, the clock, the tables of the Go library, the Go function `tail`,
and the error of `parseRuleNum` for an id that it rejects. -/
structure Backend (W : Type) where
  getHost : W → Option GoError × HostConfig × W
  remote : Remote W
  now : W → Int
  lower : Char → Char
  printable : Char → Bool
  tailText : Str → Str
  idError : Str → GoError

/-- The Go method `IptablesService.sshClient`: the error of the repository,
or the normalized host with the client that `New` makes of it, which has no
capability cache. -/
def Backend.sshClient {W : Type} (B : Backend W) (w : W) :
    Option GoError × HostConfig × ClientState W :=
  match B.getHost w with
  | (some err, h, w1) => (some err, h, { world := w1, cache := none })
  | (none, h, w1) => (none, h.Normalize B.lower, { world := w1, cache := none })

/-- The Go method `Client.Iptables` of the client of `host`: the output and
the error, the command handed to `Client.Exec`, the session runs, the state of
the client. -/
def Client.Iptables {W : Type} (B : Backend W) (host : HostConfig) (fuel : Nat) (v6 : Bool)
    (table : Str) (args : List Str) (st : ClientState W) :
    Option ((Str × Option GoError) × List Command × List SessionRun × ClientState W) :=
  match Client.ProbeCapabilities B.lower B.printable B.remote B.now host fuel st with
  | none => none
  | some (cap, tp, st1) =>
    let full := iptablesLine cap v6 table args
    let cmd := buildCommand full [WithShell true]
    match Client.Exec B.lower B.printable B.remote B.now host fuel st1 cmd with
    | none => none
    | some (r, t, st2) =>
      match r.Err with
      | some err =>
        some (([], some (.other (full ++ ": ".toList ++ err.Error ++ " ".toList
          ++ B.tailText r.Stderr))), [cmd], tp ++ t, st2)
      | none => some ((r.Stdout, none), [cmd], tp ++ t, st2)

/-- The Go method `IptablesService.CreateRule`. -/
def CreateRule {W : Type} (B : Backend W) (fuel : Nat) (v6 : Bool) (table chainName : Str)
    (r : RuleInput) (w : W) : Option (Option GoError × List Command × List SessionRun × W) :=
  match B.sshClient w with
  | (some err, _, st) => some (some err, [], [], st.world)
  | (none, host, st) =>
    let args := placement chainName r.Num ++ buildIptablesArgs r
    match Client.Iptables B host fuel v6 table args st with
    | none => none
    | some out => some (out.1.2, out.2.1, out.2.2.1, out.2.2.2.world)

/-- The Go method `IptablesService.UpdateRule`. -/
def UpdateRule {W : Type} (B : Backend W) (fuel : Nat) (v6 : Bool)
    (table chainName ruleID : Str) (r : RuleInput) (w : W) :
    Option (Option GoError × List Command × List SessionRun × W) :=
  match parseRuleNum ruleID with
  | none => some (some (B.idError ruleID), [], [], w)
  | some num =>
    match B.sshClient w with
    | (some err, _, st) => some (some err, [], [], st.world)
    | (none, host, st) =>
      match Client.Iptables B host fuel v6 table ["-D".toList, chainName, itoa num] st with
      | none => none
      | some del =>
        match del.1.2 with
        | some err => some (some err, del.2.1, del.2.2.1, del.2.2.2.world)
        | none =>
          let n := insertPosition num r.Num
          match CreateRule B fuel v6 table chainName { r with Num := some n }
              del.2.2.2.world with
          | none => none
          | some ins => some (ins.1, del.2.1 ++ ins.2.1, del.2.2.1 ++ ins.2.2.1, ins.2.2.2)

/-- A backend whose repository gives a host with the login method `method`,
behind a remote side that accepts every connection and answers the runs from
a list of outcomes. -/
def scriptedBackend (method : Str) : Backend (List RunOutcome) where
  getHost := fun w => (none, { IP := "10.0.0.1".toList, LoginMethod := method }, w)
  remote := scripted
  now := fun _ => 0
  lower := asciiLower
  printable := fun _ => true
  tailText := fun s => s
  idError := fun id => .other ("invalid rule id: ".toList ++ id)

/-! ## Batches (`ExecutorPool.ExecBatch`)

The goroutines of `ExecBatch` are modelled by a step relation: each step is
one atomic action of one goroutine (or the end of the context), and a run of
`ExecBatch` is a sequence of steps from the initial state.  A goroutine gets
its result when `Client.Exec` of the client that `New` makes of its host (no
capability cache) returns one.  `ExecBatch` returns when every goroutine is
done. -/

/-- The Go function `NewExecutorPool`: the worker count of the pool. -/
def NewExecutorPool (workers : Int) : Nat := if workers ≤ 0 then 8 else workers.toNat

/-- Where a goroutine of `ExecBatch` stands: at the `select`; past the send
on `sem`, with `Client.Exec` in flight; past the append of its result, before
the deferred receive from `sem`; done. -/
inductive Phase where
  | waiting
  | running
  | appended
  | done
  deriving DecidableEq, Repr

/-- The state of a run of `ExecBatch`: the goroutines, one per host (the host
and the phase), the number of values in the channel `sem`, the results
appended to `out`, and whether the context is done. -/
structure BatchState where
  gs : List (HostConfig × Phase)
  sem : Nat
  out : List Result
  ctxDone : Bool

/-- The state in which `ExecBatch` starts its goroutines. -/
def batchInit (hosts : List HostConfig) (ctxDone : Bool) : BatchState :=
  { gs := hosts.map (fun h => (h, Phase.waiting)), sem := 0, out := [], ctxDone := ctxDone }

/-- One step of a run of `ExecBatch` of the command `cmd` with a channel `sem`
of capacity `workers`: a goroutine sends on `sem` (there is room), or takes the
branch of the done context and appends the error result, or gets the result
that `Client.Exec` returns on the new client of its host, in some state `w` of
the world and at some depth of calls, and appends it, or receives from `sem`
and ends; or the context ends. -/
inductive BatchStep {W : Type} (lower : Char → Char) (printable : Char → Bool) (R : Remote W)
    (now : W → Int) (cmd : Command) (workers : Nat) (ctxErr : GoError) :
    BatchState → BatchState → Prop where
  | acquire (pre post : List (HostConfig × Phase)) (h : HostConfig) (sem : Nat)
      (out : List Result) (c : Bool) : sem < workers →
      BatchStep lower printable R now cmd workers ctxErr
        { gs := pre ++ (h, Phase.waiting) :: post, sem := sem, out := out, ctxDone := c }
        { gs := pre ++ (h, Phase.running) :: post, sem := sem + 1, out := out, ctxDone := c }
  | cancel (pre post : List (HostConfig × Phase)) (h : HostConfig) (sem : Nat)
      (out : List Result) :
      BatchStep lower printable R now cmd workers ctxErr
        { gs := pre ++ (h, Phase.waiting) :: post, sem := sem, out := out, ctxDone := true }
        { gs := pre ++ (h, Phase.done) :: post, sem := sem,
          out := out ++ [{ HostIP := h.IP, Err := some ctxErr, Code := -1 }], ctxDone := true }
  | finish (pre post : List (HostConfig × Phase)) (h : HostConfig) (sem : Nat)
      (out : List Result) (c : Bool) (fuel : Nat) (w : W) (res : Result)
      (t : List SessionRun) (st' : ClientState W) :
      Client.Exec lower printable R now h fuel { world := w, cache := none } cmd
        = some (res, t, st') →
      BatchStep lower printable R now cmd workers ctxErr
        { gs := pre ++ (h, Phase.running) :: post, sem := sem, out := out, ctxDone := c }
        { gs := pre ++ (h, Phase.appended) :: post, sem := sem, out := out ++ [res],
          ctxDone := c }
  | release (pre post : List (HostConfig × Phase)) (h : HostConfig) (sem : Nat)
      (out : List Result) (c : Bool) :
      BatchStep lower printable R now cmd workers ctxErr
        { gs := pre ++ (h, Phase.appended) :: post, sem := sem, out := out, ctxDone := c }
        { gs := pre ++ (h, Phase.done) :: post, sem := sem - 1, out := out, ctxDone := c }
  | ctxEnd (gs : List (HostConfig × Phase)) (sem : Nat) (out : List Result) :
      BatchStep lower printable R now cmd workers ctxErr
        { gs := gs, sem := sem, out := out, ctxDone := false }
        { gs := gs, sem := sem, out := out, ctxDone := true }

/-- The number of commands in flight: the goroutines inside `Client.Exec`. -/
def inFlight (gs : List (HostConfig × Phase)) : Nat :=
  (gs.filter (fun g => decide (g.2 = Phase.running))).length

/-- The number of goroutines that hold a place in `sem`. -/
def holders (gs : List (HostConfig × Phase)) : Nat :=
  (gs.filter (fun g => decide (g.2 = Phase.running) || decide (g.2 = Phase.appended))).length

/-- The addresses of the hosts whose goroutine has appended its result. -/
def reported (gs : List (HostConfig × Phase)) : List Str :=
  (gs.filter (fun g => decide (g.2 = Phase.appended) || decide (g.2 = Phase.done))).map
    (fun g => g.1.IP)

/-- Whether every goroutine is done: `wg.Wait` returns. -/
def allDone (gs : List (HostConfig × Phase)) : Bool :=
  gs.all (fun g => decide (g.2 = Phase.done))

/-- The steps that a goroutine has still to make. -/
def Phase.weight : Phase → Nat
  | .waiting => 3
  | .running => 2
  | .appended => 1
  | .done => 0

/-- The steps that a run can still make: those of its goroutines, and the end
of the context. -/
def BatchState.weight (s : BatchState) : Nat :=
  (s.gs.map (fun g => g.2.weight)).sum + (if s.ctxDone then 0 else 1)

/-- The invariant of a run of `ExecBatch` over `hosts` with `workers` places
in `sem`. -/
def BatchInv (workers : Nat) (hosts : List HostConfig) (s : BatchState) : Prop :=
  s.gs.map Prod.fst = hosts ∧ s.sem = holders s.gs ∧ s.sem ≤ workers ∧
    (s.out.map (fun r => r.HostIP)).Perm (reported s.gs)

/-- The invariant of a run of `ExecBatch` on the goroutines of the hosts with
the sudo strategy: such a goroutine waits at the `select`, or is inside
`Client.Exec`, or has taken the branch of the done context. -/
def SudoInv (lower : Char → Char) (s : BatchState) : Prop :=
  ∀ g ∈ s.gs, StrategyByHost lower g.1.LoginMethod = .sudo →
    g.2 = Phase.waiting ∨ g.2 = Phase.running ∨ (g.2 = Phase.done ∧ s.ctxDone = true)

/-! ## The chains of a table in the order of the dump, as the specification describes them -/

/-- The numbering invariant of the loop of `parseTable`. -/
def NumInv (st : TableState) : Prop :=
  (∀ c : Str, (st.rules.filter (fun r => r.Chain = c)).map (·.Num) = List.range' 1 (st.ruleIndex c)) ∧
  ∀ r ∈ st.rules, r.ID = r.Chain ++ ":".toList ++ decimal r.Num

/-- The kinds of a (trimmed) line in a round of `parseIptablesSave`, with
the result of the round. -/
inductive LineKind (st : SaveState) (line : Str) : Option SaveState → Prop where
  | skip : (line = [] ∨ line.head? = some '#') → LineKind st line (some st)
  | header (name : Str) : line = '*' :: name →
      LineKind st line (some { st with curTable := name })
  | commit : line = "COMMIT".toList → LineKind st line (some { st with curTable := [] })
  | outside : plainLine line = true → st.curTable = [] → LineKind st line (some st)
  | other : plainLine line = true → st.curTable ≠ [] → isDecl line = false →
      ruleChain line = none → LineKind st line (some st)
  | chain (name policy counters : Str) : plainLine line = true → st.curTable ≠ [] →
      introducedChain line = some name → isDecl line = true →
      LineKind st line (some (declareChain st name policy counters))
  | rule (chain : Str) : plainLine line = true → st.curTable ≠ [] →
      introducedChain line = some chain → ruleChain line = some chain → isDecl line = false →
      LineKind st line (appendRule st chain line)

/-- What a line adds to the lines of the sections of table `T`. -/
def contrib (T : Str) (st : SaveState) (line : Str) : List Str :=
  if plainLine line = true ∧ st.curTable = T then [line] else []

/-- The invariant of the loop of `parseIptablesSave` for a table `T`, where
`acc` is the list of the lines of the sections of `T` read so far: the chains
carry their positions, the rules their ranks, the rules of a chain are rule
lines of that chain in the order of the dump, the chains are named in the
order of the dump, and the index points to chains of the indexed name. -/
structure SaveInv (T : Str) (st : SaveState) (acc : List Str) : Prop where
  outEmpty : st.out [] = none
  chainOk : ∀ (i : Nat) (c : ChainView), ((st.out T).getD [])[i]? = some c →
    c.Order = i ∧ (∀ (j : Nat) (r : RuleView), c.Rules[j]? = some r → r.Num = j + 1) ∧
    List.Sublist (c.Rules.map (·.Raw)) (acc.filter (fun l => decide (ruleChain l = some c.Name)))
  namesOk : List.Sublist (((st.out T).getD []).map (·.Name)) (acc.filterMap introducedChain)
  indexOk : ∀ (m : Str → Option Nat) (C : Str) (i : Nat), st.index T = some m → m C = some i →
    (∃ l ∈ acc, introducedChain l = some C) ∧
    ∃ c, ((st.out T).getD [])[i]? = some c ∧ c.Name = C

/-- The invariant of the loop of `parseIptablesSave` on the keys of the output
map, for a table `T`, where `acc` is the list of the lines of the sections of
`T` read so far: a known table is a key, and another table is a key exactly
when a chain declaration stands in its sections. -/
structure TablesInv (T : Str) (st : SaveState) (acc : List Str) : Prop where
  known : T ∈ knownTables → (st.out T).isSome = true
  fwd : ((st.out T).isSome = true ∨ (st.index T).isSome = true) →
    T ∈ knownTables ∨ ∃ l ∈ acc, isDecl l = true
  bwd : (∃ l ∈ acc, isDecl l = true) → (st.out T).isSome = true

/-- A chain view that keeps the data of another and continues its rules. -/
def ChainExtends (c c' : ChainView) : Prop :=
  c'.Order = c.Order ∧ c'.Name = c.Name ∧ c'.Policy = c.Policy ∧ c'.Counters = c.Counters ∧
    c.Rules <+: c'.Rules

/-- A chain list that keeps the chains of another at their positions. -/
def Extends (cs cs' : List ChainView) : Prop :=
  ∀ (i : Nat) (c : ChainView), cs[i]? = some c → ∃ c', cs'[i]? = some c' ∧ ChainExtends c c'

/-- The encoder emits the argument groups of `encodeSpec`. -/
theorem buildIptablesArgs_spec (r : RuleInput) : buildIptablesArgs r = encodeSpec r := by
  have key : ∀ (c : Prop) [Decidable c] (a s : List Str),
      (if c then a ++ s else a) = a ++ emitIf c s := by
    intro c _ a s
    by_cases h : c <;> simp [emitIf, h]
  have key4 : ∀ (c : Prop) [Decidable c] (a x y z w : List Str),
      (if c then a ++ x ++ y ++ z ++ w else a) = a ++ emitIf c (x ++ y ++ z ++ w) := by
    intro c _ a x y z w
    by_cases h : c <;> simp [emitIf, h]
  have hlen : (r.State.length > 0) ↔ r.State ≠ [] := by
    cases r.State <;> simp
  simp only [buildIptablesArgs, encodeSpec, key, key4, hlen]
  simp only [List.nil_append, List.append_assoc]
  congr 7
  have hD : ("DNAT".toList : Str) ≠ [] := by decide
  have hS : ("SNAT".toList : Str) ≠ [] := by decide
  have hR : ("REDIRECT".toList : Str) ≠ [] := by decide
  have hc : (":".toList : Str) = [':'] := by decide
  by_cases hA : r.Action = []
  · simp [hA, emitIf, hD.symm, hS.symm, hR.symm]
  · by_cases hP : r.ToPort = [] <;> by_cases hT : r.ToSource = [] <;>
      by_cases hD : r.Action = "DNAT".toList <;>
      simp [hA, hP, hT, hD, emitIf, hc]

/-- C1: for every structured rule `buildIptablesArgs` returns exactly the
concatenation, in the fixed order, of the optional argument groups of the
specification, and the DNAT rule {tcp, destPort 80, toSource 10.0.0.5,
toPort 8080} encodes to
`-p tcp --dport 80 -j DNAT --to-destination 10.0.0.5:8080`. -/
theorem buildIptablesArgs_eq_encodeSpec :
    (∀ r : RuleInput, buildIptablesArgs r = encodeSpec r) ∧
    buildIptablesArgs
        { Protocol := "tcp".toList, DestPort := "80".toList, Action := "DNAT".toList,
          ToSource := "10.0.0.5".toList, ToPort := "8080".toList }
      = ["-p".toList, "tcp".toList, "--dport".toList, "80".toList, "-j".toList,
         "DNAT".toList, "--to-destination".toList, "10.0.0.5:8080".toList] := by
  exact ⟨buildIptablesArgs_spec, by decide⟩

/-! ### Rule numbering of `parseTable` -/

/-- A round of `parseTable` either leaves the rules and the counters alone or
appends one rule, numbered by the advanced counter of its chain. -/
theorem parseTableLine_rules (table : Str) (st : TableState) (text : Str) :
    ((parseTableLine table st text).rules = st.rules ∧
      (parseTableLine table st text).ruleIndex = st.ruleIndex) ∨
    ∃ r : Rule, r.ID = r.Chain ++ ":".toList ++ decimal r.Num ∧
      r.Num = st.ruleIndex r.Chain + 1 ∧
      (parseTableLine table st text).rules = st.rules ++ [r] ∧
      (parseTableLine table st text).ruleIndex = Function.update st.ruleIndex r.Chain r.Num := by
  unfold parseTableLine
  simp only []
  split_ifs
  all_goals first
    | exact Or.inl ⟨rfl, rfl⟩
    | (split
       · exact Or.inl ⟨rfl, rfl⟩
       · first
         | exact Or.inl ⟨rfl, rfl⟩
         | exact Or.inr ⟨_, rfl, rfl, rfl, rfl⟩)

theorem numInv_step (table : Str) (st : TableState) (text : Str) (h : NumInv st) :
    NumInv (parseTableLine table st text) := by
  rcases parseTableLine_rules table st text with ⟨h1, h2⟩ | ⟨r, hid, hnum, h1, h2⟩
  · rw [NumInv, h1, h2]; exact h
  · rw [NumInv, h1, h2]
    refine ⟨fun c => ?_, ?_⟩
    · rw [List.filter_append, List.map_append, h.1 c]
      by_cases hc : r.Chain = c
      · subst hc
        have hcc : List.range' 1 (st.ruleIndex r.Chain + 1)
            = List.range' 1 (st.ruleIndex r.Chain) ++ [1 + st.ruleIndex r.Chain] := by
          rw [List.range'_concat]; simp
        simp only [List.filter_cons, decide_True, if_true, List.filter_nil, List.map_cons,
          List.map_nil, Function.update_same, hnum, hcc]
        simp [Nat.add_comm]
      · simp [hc, Function.update_noteq (Ne.symm hc)]
    · intro r' hr'
      rcases List.mem_append.1 hr' with hr' | hr'
      · exact h.2 r' hr'
      · rw [List.mem_singleton.1 hr']; exact hid

theorem numInv_lines (table : Str) (lines : List Str) (st : TableState) (h : NumInv st) :
    NumInv (parseTableLines table lines st) := by
  induction lines generalizing st with
  | nil => exact h
  | cons l ls ih => exact ih _ (numInv_step table st l h)

/-- C3: for every dump, table and chain name `c`, the rules of `parseTable`
whose chain is `c` carry, in output order, the nums `1, 2, ..., k`, and the id
of each is `c`, a colon, and the num in decimal. -/
theorem parseTable_nums_dense (dump table c : Str) :
    (((parseTable dump table).2.filter (fun r => r.Chain = c)).map (·.Num)
        = List.range' 1 ((parseTable dump table).2.filter (fun r => r.Chain = c)).length) ∧
    ∀ r ∈ (parseTable dump table).2.filter (fun r => r.Chain = c),
        r.ID = c ++ ":".toList ++ decimal r.Num := by
  have h : NumInv (parseTableLines table (scanLines dump) {}) :=
    numInv_lines table _ _ ⟨fun c => by simp, by simp⟩
  refine ⟨?_, ?_⟩
  · have h1 := h.1 c
    have h2 := congrArg List.length h1
    simp only [List.length_map, List.length_range'] at h2
    simp only [parseTable]
    rw [h2]; exact h1
  · intro r hr
    simp only [parseTable, List.mem_filter, decide_eq_true_eq] at hr
    have := h.2 r hr.1
    rw [hr.2] at this
    exact this

/-! ### The branches of a round of `parseTable` -/

theorem hasPrefix_singleton (l : Str) (c : Char) :
    hasPrefix l [c] = decide (l.head? = some c) := by
  cases l with
  | nil => simp [hasPrefix]
  | cons a t =>
    by_cases h : a = c
    · simp [hasPrefix, List.isPrefixOf, h]
    · have h' : ¬ c = a := fun e => h e.symm
      simp [hasPrefix, List.isPrefixOf, h, h']

theorem sectionLines_cons_plain (table : Str) (inside : Bool) (c : Char) (rest : Str)
    (ls : List Str) (h : c ≠ '*') :
    sectionLines table inside ((c :: rest) :: ls)
      = if inside then
          if c :: rest = "COMMIT".toList then sectionLines table false ls
          else (c :: rest) :: sectionLines table true ls
        else sectionLines table false ls := by
  have hne : ∀ name : List Char, c :: rest = '*' :: name → False :=
    fun name hn => h (List.cons.inj hn).1
  cases inside <;> (rw [sectionLines]; exact hne)

theorem matchRep_run (cls : Char → Bool) (min : Nat) (k : Str → Str → Option (List Str))
    (run rest : Str) (hrun : ∀ c ∈ run, cls c = true)
    (hrest : ∀ x xs, rest = x :: xs → cls x = false) :
    ∀ taken : Str, min ≤ (taken ++ run).length → (k (taken ++ run) rest).isSome = true →
      matchRep cls min k taken (run ++ rest) = k (taken ++ run) rest := by
  induction run with
  | nil =>
    intro taken hmin _
    simp only [List.append_nil, List.nil_append] at hmin ⊢
    rcases rest with _ | ⟨x, xs⟩
    · rw [matchRep, if_pos hmin]
    · rw [matchRep, if_neg (by rw [hrest x xs rfl]; simp), if_pos hmin]
  | cons c run ih =>
    intro taken hmin hk
    have hc : cls c = true := hrun c (List.mem_cons_self _ _)
    have e : taken ++ c :: run = (taken ++ [c]) ++ run := by simp
    have ih' := ih (fun d hd => hrun d (List.mem_cons_of_mem _ hd)) (taken ++ [c])
      (by rw [← e]; exact hmin) (by rw [← e]; exact hk)
    rw [List.cons_append, matchRep, if_pos hc, ih', ← e]
    rcases hv : k (taken ++ c :: run) rest with _ | r
    · rw [hv] at hk; simp at hk
    · rfl

theorem matchItems_rep (cls : Char → Bool) (min : Nat) (cap : Bool) (items : List Item)
    (run rest : Str) (caps : List Str) (hrun : ∀ c ∈ run, cls c = true)
    (hrest : ∀ x xs, rest = x :: xs → cls x = false) (hmin : min ≤ run.length)
    (hk : matchItems items rest = some caps) :
    matchItems (Item.rep cls min cap :: items) (run ++ rest)
      = some (if cap then run :: caps else caps) := by
  rw [matchItems, matchRep_run cls min _ run rest hrun hrest [] (by simpa using hmin)]
  · simp [hk]
  · simp [hk]

theorem matchItems_lit (c : Char) (items : List Item) (s : Str) :
    matchItems (Item.lit c :: items) (c :: s) = matchItems items s := by
  rw [matchItems]
  simp

/-- The chain pattern on a declaration `:<name> <policy> [<counters>]`. -/
theorem matchItems_reChain (name w1 policy ws2 ctr : Str)
    (hname : name ≠ []) (hname' : ∀ c ∈ name, c ≠ ' ')
    (hw1 : ∀ c ∈ w1, reSpace c = true)
    (hpol : policy ≠ []) (hpol' : ∀ c ∈ policy, rePolicyChar c = true)
    (hws2 : ws2 ≠ []) (hws2' : ∀ c ∈ ws2, reSpace c = true)
    (hctr : ∀ c ∈ ctr, c ≠ ']') :
    matchItems reChain (':' :: (name ++ ' ' :: w1 ++ policy ++ ws2 ++ '[' :: (ctr ++ [']'])))
      = some [name, policy, ctr] := by
  have hpos : ∀ l : Str, l ≠ [] → 1 ≤ l.length := by
    intro l hl
    cases l with
    | nil => exact absurd rfl hl
    | cons a t => simp
  have e0 : matchItems [Item.lit ']'] [']'] = some [] := by decide
  have e1 := matchItems_rep (fun c => decide (c ≠ ']')) 0 true [Item.lit ']'] ctr [']'] []
    (fun c hc => by simpa using hctr c hc)
    (fun x xs h => by cases h; decide) (Nat.zero_le _) e0
  have e2 : matchItems [Item.lit '[', Item.rep (fun c => decide (c ≠ ']')) 0 true, Item.lit ']']
      ('[' :: (ctr ++ [']'])) = some [ctr] := by
    rw [matchItems_lit, e1]; rfl
  have e3 := matchItems_rep reSpace 1 false _ ws2 ('[' :: (ctr ++ [']'])) [ctr] hws2'
    (fun x xs h => by cases h; decide) (hpos ws2 hws2) e2
  have hps : ∀ x : Char, reSpace x = true → rePolicyChar x = false := by
    intro x hx
    simp only [reSpace, Bool.or_eq_true, decide_eq_true_eq] at hx
    rcases hx with (((h | h) | h) | h) | h <;> subst h <;> decide
  have hsp : ∀ x : Char, rePolicyChar x = true → reSpace x = false := by
    intro x hx
    cases hr : reSpace x
    · rfl
    · rw [hps x hr] at hx; exact absurd hx (by decide)
  have e4 := matchItems_rep rePolicyChar 1 true _ policy (ws2 ++ '[' :: (ctr ++ [']'])) [ctr] hpol'
    (fun x xs h => by
      cases ws2 with
      | nil => exact absurd rfl hws2
      | cons a t =>
        cases h
        exact hps _ (hws2' _ (List.mem_cons_self _ _)))
    (hpos policy hpol) e3
  have e5 := matchItems_rep reSpace 1 false _ (' ' :: w1) (policy ++ (ws2 ++ '[' :: (ctr ++ [']'])))
    [policy, ctr]
    (fun c hc => by
      rcases List.mem_cons.1 hc with h | h
      · subst h; decide
      · exact hw1 c h)
    (fun x xs h => by
      cases policy with
      | nil => exact absurd rfl hpol
      | cons a t =>
        cases h
        exact hsp _ (hpol' _ (List.mem_cons_self _ _)))
    (by simp) e4
  have e6 := matchItems_rep (fun c => decide (c ≠ ' ')) 1 true _ name
    ((' ' :: w1) ++ (policy ++ (ws2 ++ '[' :: (ctr ++ [']'])))) [policy, ctr]
    (fun c hc => by simpa using hname' c hc)
    (fun x xs h => by cases h; decide) (hpos name hname) e5
  unfold reChain
  rw [matchItems_lit]
  simp only [if_true, Bool.false_eq_true, if_false, List.append_assoc, List.cons_append] at e6 ⊢
  exact e6

theorem fieldsAux_word (w rest : Str) (hw : ∀ c ∈ w, isSpace c = false) :
    ∀ cur : Str, fieldsAux (w ++ rest) cur = fieldsAux rest (cur ++ w) := by
  induction w with
  | nil => intro cur; simp
  | cons c w ih =>
    intro cur
    rw [List.cons_append, fieldsAux, if_neg (by rw [hw c (List.mem_cons_self _ _)]; simp),
      ih (fun d hd => hw d (List.mem_cons_of_mem _ hd))]
    simp

theorem fields_spaced (toks : List Str) (last : Str) (htoks : ∀ t ∈ toks, isWord t)
    (hlast : ∀ c ∈ last, isSpace c = false) :
    fields (spaced toks ++ last) = toks ++ (if last = [] then [] else [last]) := by
  unfold fields
  induction toks with
  | nil =>
    have := fieldsAux_word last [] hlast []
    rw [List.append_nil] at this
    simp only [spaced, List.nil_append, this, fieldsAux]
  | cons t toks ih =>
    obtain ⟨hne, hws⟩ := htoks t (List.mem_cons_self _ _)
    have e : spaced (t :: toks) ++ last = t ++ (' ' :: (spaced toks ++ last)) := by
      simp [spaced]
    rw [e, fieldsAux_word t _ hws [], List.nil_append, fieldsAux, if_pos (by decide),
      if_neg hne, ih (fun u hu => htoks u (List.mem_cons_of_mem _ hu))]
    rfl

theorem join_concat_space (toks : List Str) (last : Str) :
    join (toks ++ [last]) " ".toList = spaced toks ++ last := by
  unfold join
  induction toks with
  | nil => simp [spaced, List.intercalate]
  | cons t toks ih =>
    have e : ∀ (x : Str) (xs : List Str), xs ≠ [] →
        " ".toList.intercalate (x :: xs) = x ++ ' ' :: " ".toList.intercalate xs := by
      intro x xs hxs
      cases xs with
      | nil => exact absurd rfl hxs
      | cons y ys => simp [List.intercalate, List.intersperse]
    rw [List.cons_append, e t _ (by simp), ih]
    simp [spaced]

/-! ### `split` at the first separators -/

theorem splitAux_head (sep : Char) (s : Str) :
    ∀ cur : Str, (splitAux sep s cur).headD [] = cur ++ s.takeWhile (fun c => decide (c ≠ sep)) := by
  induction s with
  | nil => intro cur; simp [splitAux]
  | cons c cs ih =>
    intro cur
    rw [splitAux]
    by_cases hc : c = sep
    · rw [if_pos hc]
      simp [hc]
    · rw [if_neg hc, ih]
      simp [hc]

theorem splitAux_second (sep : Char) (s : Str) :
    ∀ cur : Str, (splitAux sep s cur).getD 1 []
      = ((s.dropWhile (fun c => decide (c ≠ sep))).drop 1).takeWhile (fun c => decide (c ≠ sep)) := by
  induction s with
  | nil => intro cur; simp [splitAux]
  | cons c cs ih =>
    intro cur
    rw [splitAux]
    by_cases hc : c = sep
    · rw [if_pos hc]
      have := splitAux_head sep cs []
      rw [List.nil_append] at this
      rw [List.dropWhile_cons_of_neg (by simp [hc])]
      simp only [List.drop_succ_cons, List.drop_zero, ← this]
      cases splitAux sep cs [] <;> rfl
    · rw [if_neg hc, ih, List.dropWhile_cons_of_pos (by simp [hc])]

theorem intercalate_cons_cons (sep x y : Str) (ys : List Str) :
    sep.intercalate (x :: y :: ys) = x ++ (sep ++ sep.intercalate (y :: ys)) := by
  simp [List.intercalate, List.intersperse]

theorem splitAux_word (sep : Char) (w rest : Str) (hw : sep ∉ w) :
    ∀ cur : Str, splitAux sep (w ++ rest) cur = splitAux sep rest (cur ++ w) := by
  induction w with
  | nil => intro cur; simp
  | cons c w ih =>
    intro cur
    have hc : ¬ c = sep := fun e => hw (by simp [e])
    rw [List.cons_append, splitAux, if_neg hc, ih (fun h => hw (List.mem_cons_of_mem _ h))]
    simp

theorem splitAux_intercalate (sep : Char) (elems : List Str) :
    ∀ (first cur : Str), (∀ e ∈ first :: elems, sep ∉ e) →
      splitAux sep ([sep].intercalate (first :: elems)) cur = (cur ++ first) :: elems := by
  induction elems with
  | nil =>
    intro first cur h
    have e : [sep].intercalate [first] = first := by simp [List.intercalate]
    have := splitAux_word sep first [] (h first (List.mem_cons_self _ _)) cur
    rw [List.append_nil] at this
    rw [e, this, splitAux]
  | cons e es ih =>
    intro first cur h
    rw [intercalate_cons_cons, splitAux_word sep first _ (h first (List.mem_cons_self _ _)),
      List.singleton_append, splitAux, if_pos rfl,
      ih e [] (fun x hx => h x (List.mem_cons_of_mem _ hx))]
    rfl

/-- Splitting a joined list gives the list back. -/
theorem split_join (sep : Char) (elems : List Str) (hne : elems ≠ [])
    (h : ∀ e ∈ elems, sep ∉ e) : split (join elems [sep]) sep = elems := by
  cases elems with
  | nil => exact absurd rfl hne
  | cons first rest =>
    unfold split join
    rw [splitAux_intercalate sep rest first [] h]
    rfl

/-! ### `parseIptablesSave` on unknown tables -/

/-- C5: a rule line in the section of a table outside the known set makes
`parseIptablesSave` panic (write into a nil inner map of `index`). -/
theorem parseIptablesSave_panics_unknown_table :
    parseIptablesSave "*foo\n-A X -j ACCEPT\n".toList = none :=
  Option.isNone_iff_eq_none.mp (by decide)

/-! ### The rounds of `parseIptablesSave` -/

theorem parseSaveLine_kind (st : SaveState) (text : Str) :
    LineKind st (trimSpace text) (parseSaveLine st text) := by
  unfold parseSaveLine
  simp only []
  generalize trimSpace text = line
  rcases line with _ | ⟨c, rest⟩
  · rw [if_pos (Or.inl rfl)]
    exact LineKind.skip (Or.inl rfl)
  · have hP : ∀ q : Char, hasPrefix (c :: rest) [q] = decide (c = q) := by
      intro q
      rw [hasPrefix_singleton]
      simp
    by_cases h1 : c = '#'
    · rw [if_pos (Or.inr (by rw [show "#".toList = ['#'] from rfl, hP]; simp [h1]))]
      exact LineKind.skip (Or.inr (by simp [h1]))
    · rw [if_neg (by rw [show "#".toList = ['#'] from rfl, hP]; simp [h1])]
      by_cases h2 : c = '*'
      · rw [if_pos (by rw [show "*".toList = ['*'] from rfl, hP]; simp [h2])]
        subst h2
        have : trimPrefix ('*' :: rest) "*".toList = rest := by simp [trimPrefix, hasPrefix]
        rw [this]
        exact LineKind.header rest rfl
      · rw [if_neg (by rw [show "*".toList = ['*'] from rfl, hP]; simp [h2])]
        by_cases h3 : c :: rest = "COMMIT".toList
        · rw [if_pos h3]
          exact LineKind.commit h3
        · rw [if_neg h3]
          have hpl : plainLine (c :: rest) = true := by
            unfold plainLine
            rw [decide_eq_true h3]
            simp [h1, h2]
          by_cases h4 : st.curTable = []
          · rw [if_pos h4]
            exact LineKind.outside hpl h4
          · rw [if_neg h4]
            by_cases h5 : c = ':'
            · rw [if_pos (by rw [show ":".toList = [':'] from rfl, hP]; simp [h5])]
              subst h5
              split
              · next name policy counters hm =>
                exact LineKind.chain name policy counters hpl h4 (by simp [introducedChain, hm])
                  (by simp [isDecl, hm])
              · next hno =>
                refine LineKind.other hpl h4 ?_ (by simp [ruleChain, hasPrefix])
                unfold isDecl
                split
                · next n q c hm => exact absurd hm (hno n q c)
                · simp
            · rw [if_neg (by rw [show ":".toList = [':'] from rfl, hP]; simp [h5])]
              have hnd : isDecl (c :: rest) = false := by simp [isDecl, h5]
              by_cases h6 : hasPrefix (c :: rest) "-A ".toList = true
              · rw [if_pos h6]
                split
                · next chain caps hm =>
                  have hr : ruleChain (c :: rest) = some chain := by
                    unfold ruleChain
                    rw [if_pos h6, hm]
                    rfl
                  refine LineKind.rule chain hpl h4 ?_ hr hnd
                  rw [introducedChain]
                  · exact hr
                  · intro r hr'
                    exact h5 (List.cons.inj hr').1
                · next hno =>
                  refine LineKind.other hpl h4 hnd ?_
                  unfold ruleChain
                  rw [if_pos h6]
                  rcases hm : matchItems reRule (c :: rest) with _ | ⟨_ | ⟨chain, caps⟩⟩
                  · rfl
                  · rfl
                  · exact absurd hm (hno chain caps)
              · rw [if_neg h6]
                exact LineKind.other hpl h4 hnd (by unfold ruleChain; rw [if_neg h6])

theorem declareChain_other (st : SaveState) (name policy counters T : Str)
    (h : T ≠ st.curTable) :
    (declareChain st name policy counters).out T = st.out T ∧
    (declareChain st name policy counters).index T = st.index T := by
  simp [declareChain, Function.update_noteq h]

theorem declareChain_out (st : SaveState) (name policy counters : Str) :
    (declareChain st name policy counters).out st.curTable
      = some ((st.out st.curTable).getD [] ++
          [{ Order := ((st.out st.curTable).getD []).length
             Name := name
             Policy := if policy ≠ "-".toList then policy else []
             Counters := if counters ≠ [] then "[".toList ++ counters ++ "]".toList else []
             Rules := [] }]) := by
  simp [declareChain]

theorem declareChain_index (st : SaveState) (name policy counters : Str) :
    (declareChain st name policy counters).index st.curTable
      = some (Function.update ((st.index st.curTable).getD (fun _ => none)) name
          (some ((st.out st.curTable).getD []).length)) := by
  simp [declareChain]

theorem appendRule_effect (st st' : SaveState) (chain line : Str)
    (h : appendRule st chain line = some st') :
    st'.curTable = st.curTable ∧
    (∀ T, T ≠ st.curTable → st'.out T = st.out T ∧ st'.index T = st.index T) ∧
    ∃ m, st.index st.curTable = some m ∧
      ((∃ ci c, m chain = some ci ∧ ((st.out st.curTable).getD []).get? ci = some c ∧
          st'.out st.curTable = some (((st.out st.curTable).getD []).set ci
            { c with Rules := c.Rules ++ [{ Num := c.Rules.length + 1, Raw := line }] }) ∧
          st'.index = st.index) ∨
       (m chain = none ∧
          st'.out st.curTable = some ((st.out st.curTable).getD [] ++
            [{ Order := ((st.out st.curTable).getD []).length, Name := chain, Policy := [],
               Counters := [], Rules := [{ Num := 1, Raw := line }] }]) ∧
          st'.index st.curTable
            = some (Function.update m chain (some ((st.out st.curTable).getD []).length)))) := by
  unfold appendRule at h
  simp only [] at h
  rcases hidx : st.index st.curTable with _ | m
  · rw [hidx] at h
    simp at h
  · rw [hidx] at h
    simp only [Option.some_bind] at h
    rcases hm : m chain with _ | ci
    · rw [hm] at h
      simp only [Function.update_same, Option.some_bind, Option.getD_some, List.length_append,
        List.length_singleton, Nat.add_sub_cancel] at h
      generalize hcs : (st.out st.curTable).getD [] = cs at h ⊢
      have hget : ∀ cv : ChainView, (cs ++ [cv]).get? cs.length = some cv := by
        intro cv
        simp [List.getElem?_append_right]
      have hset : ∀ cv cv' : ChainView, (cs ++ [cv]).set cs.length cv' = cs ++ [cv'] := by
        intro cv cv'
        simp [List.set_append_right]
      rw [hget] at h
      simp only [Option.some.injEq, hset] at h
      subst h
      refine ⟨rfl, fun T hT => ⟨by simp [Function.update_noteq hT], by
        simp [Function.update_noteq hT]⟩, m, rfl, Or.inr ⟨hm, by simp, by simp⟩⟩
    · rw [hm] at h
      simp only [hidx, Option.some_bind, hm, Option.getD_some] at h
      rcases hc : ((st.out st.curTable).getD []).get? ci with _ | c
      · rw [hc] at h; simp at h
      · rw [hc] at h
        simp only [Option.some.injEq] at h
        subst h
        refine ⟨rfl, fun T hT => ⟨by simp [Function.update_noteq hT], rfl⟩, m, rfl, Or.inl ?_⟩
        exact ⟨ci, c, hm, hc, by simp, rfl⟩

theorem plainLine_cons (c : Char) (rest : Str) (h : plainLine (c :: rest) = true) :
    c ≠ '#' ∧ c ≠ '*' ∧ c :: rest ≠ "COMMIT".toList := by
  unfold plainLine at h
  simp only [Bool.and_eq_true, decide_eq_true_eq] at h
  refine ⟨fun e => h.1.1.2 (by simp [e]), fun e => h.1.2 (by simp [e]), h.2⟩

theorem plainLine_significant (l : Str) (h : plainLine l = true) :
    (decide (l ≠ []) && decide (l.head? ≠ some '#')) = true := by
  unfold plainLine at h
  simp only [Bool.and_eq_true] at h ⊢
  exact h.1.1

theorem lineKind_curTable (st st' : SaveState) (line : Str) (hp : plainLine line = true)
    (hk : LineKind st line (some st')) : st'.curTable = st.curTable := by
  generalize hr : some st' = r at hk
  cases hk with
  | skip h => cases hr; rfl
  | header name h =>
    subst h
    simp [plainLine] at hp
  | commit h =>
    subst h
    simp [plainLine] at hp
  | outside _ _ => cases hr; rfl
  | other _ _ _ _ => cases hr; rfl
  | chain name policy counters _ _ _ _ => cases hr; rfl
  | rule chain _ _ _ _ _ => exact (appendRule_effect _ _ _ _ hr.symm).1

theorem sectionLines_kind (T : Str) (hT : T ≠ []) (st st' : SaveState) (line : Str)
    (rest : List Str) (hk : LineKind st line (some st')) :
    sectionLines T (decide (st.curTable = T))
        (if (decide (line ≠ []) && decide (line.head? ≠ some '#')) = true
          then line :: rest else rest)
      = contrib T st line ++ sectionLines T (decide (st'.curTable = T)) rest := by
  by_cases hp : plainLine line = true
  · have hcur := lineKind_curTable st st' line hp hk
    rw [if_pos (plainLine_significant line hp), hcur]
    rcases line with _ | ⟨c, cs⟩
    · simp [plainLine] at hp
    · obtain ⟨_, h2, h3⟩ := plainLine_cons c cs hp
      rw [sectionLines_cons_plain T _ c cs rest h2, if_neg h3]
      by_cases hc : st.curTable = T
      · simp [contrib, hp, hc]
      · simp [contrib, hc]
  · have hcontrib : contrib T st line = [] := by simp [contrib, hp]
    rw [hcontrib, List.nil_append]
    generalize hr : some st' = r at hk
    cases hk with
    | skip h =>
      cases hr
      rcases h with h | h
      · subst h; simp
      · have : (decide (line ≠ []) && decide (line.head? ≠ some '#')) = false := by simp [h]
        rw [this]; simp
    | header name h =>
      cases hr
      subst h
      simp [sectionLines]
    | commit h =>
      cases hr
      subst h
      have hT' : ¬ ([] : Str) = T := fun e => hT e.symm
      cases hd : decide (st.curTable = T) <;> simp [sectionLines, hT']
    | outside h _ => exact absurd h hp
    | other h _ _ _ => exact absurd h hp
    | chain _ _ _ h _ _ _ => exact absurd h hp
    | rule _ h _ _ _ _ => exact absurd h hp

theorem significant_cons (text : Str) (ls : List Str) :
    significant (text :: ls)
      = if (decide (trimSpace text ≠ []) && decide ((trimSpace text).head? ≠ some '#')) = true
        then trimSpace text :: significant ls else significant ls := by
  simp only [significant, List.map_cons, List.filter_cons]

/-- Induction over the rounds of `parseIptablesSave`, along the lines of the
sections of a table `T`. -/
theorem parseSaveLines_induct (T : Str) (hT : T ≠ []) (P : SaveState → List Str → Prop)
    (hstep : ∀ st acc line st', P st acc → LineKind st line (some st') →
      P st' (acc ++ contrib T st line)) :
    ∀ (lines : List Str) (st : SaveState) (acc : List Str) (st' : SaveState),
      P st acc → parseSaveLines lines st = some st' →
      P st' (acc ++ sectionLines T (decide (st.curTable = T)) (significant lines)) := by
  intro lines
  induction lines with
  | nil =>
    intro st acc st' hP h
    simp only [parseSaveLines, Option.some.injEq] at h
    subst h
    simpa [significant, sectionLines] using hP
  | cons l ls ih =>
    intro st acc st' hP h
    rw [parseSaveLines] at h
    rcases h1 : parseSaveLine st l with _ | st1
    · rw [h1] at h; simp at h
    · rw [h1] at h
      simp only [] at h
      have hk := parseSaveLine_kind st l
      rw [h1] at hk
      have := ih st1 (acc ++ contrib T st (trimSpace l)) st' (hstep st acc _ st1 hP hk) h
      rw [significant_cons, sectionLines_kind T hT st st1 (trimSpace l) (significant ls) hk,
        ← List.append_assoc]
      exact this

/-! ### The invariant of `parseIptablesSave` -/

theorem saveInv_unchanged (T : Str) (st st' : SaveState) (acc extra : List Str)
    (h : SaveInv T st acc) (h0 : st'.out [] = none) (h1 : st'.out T = st.out T)
    (h2 : st'.index T = st.index T) : SaveInv T st' (acc ++ extra) where
  outEmpty := h0
  chainOk := by
    intro i c hc
    rw [h1] at hc
    obtain ⟨a, b, d⟩ := h.chainOk i c hc
    refine ⟨a, b, d.trans ?_⟩
    rw [List.filter_append]
    exact List.sublist_append_left _ _
  namesOk := by
    rw [h1, List.filterMap_append]
    exact h.namesOk.trans (List.sublist_append_left _ _)
  indexOk := by
    intro m C i hm hC
    rw [h2] at hm
    obtain ⟨⟨l, hl, hl'⟩, b⟩ := h.indexOk m C i hm hC
    rw [h1]
    exact ⟨⟨l, List.mem_append_left _ hl, hl'⟩, b⟩

theorem saveInv_append (T : Str) (st st' : SaveState) (acc : List Str) (line : Str)
    (cv : ChainView) (h : SaveInv T st acc) (h0 : st'.out [] = none)
    (h1 : st'.out T = some ((st.out T).getD [] ++ [cv]))
    (hord : cv.Order = ((st.out T).getD []).length)
    (hrules : cv.Rules = [] ∨ cv.Rules = [{ Num := 1, Raw := line }])
    (hrc : cv.Rules ≠ [] → ruleChain line = some cv.Name)
    (hintro : introducedChain line = some cv.Name)
    (hidx : ∀ (m' : Str → Option Nat) (C : Str) (i : Nat), st'.index T = some m' →
      m' C = some i → (C = cv.Name ∧ i = ((st.out T).getD []).length) ∨
        ∃ m, st.index T = some m ∧ m C = some i) :
    SaveInv T st' (acc ++ [line]) where
  outEmpty := h0
  chainOk := by
    intro i c hc
    rw [h1, Option.getD_some] at hc
    by_cases hi : i < ((st.out T).getD []).length
    · rw [List.getElem?_append_left hi] at hc
      obtain ⟨a, b, d⟩ := h.chainOk i c hc
      refine ⟨a, b, d.trans ?_⟩
      rw [List.filter_append]
      exact List.sublist_append_left _ _
    · rw [List.getElem?_append_right (Nat.le_of_not_lt hi)] at hc
      have hi0 : i - ((st.out T).getD []).length = 0 := by
        by_contra hne
        rw [List.getElem?_eq_none (by simp; omega)] at hc
        exact Option.noConfusion hc
      rw [hi0] at hc
      simp only [List.getElem?_cons_zero, Option.some.injEq] at hc
      subst hc
      refine ⟨by omega, ?_, ?_⟩
      · intro j r hr
        rcases hrules with e | e
        · rw [e] at hr; simp at hr
        · rw [e] at hr
          rcases j with _ | j
          · simp at hr; subst hr; rfl
          · simp at hr
      · rcases hrules with e | e
        · rw [e]; simp
        · have := hrc (by rw [e]; simp)
          rw [e, List.filter_append]
          simp [this]
  namesOk := by
    rw [h1, Option.getD_some, List.map_append, List.filterMap_append]
    simp only [List.map_cons, List.map_nil, List.filterMap_cons, hintro, List.filterMap_nil]
    exact List.Sublist.append h.namesOk (List.Sublist.refl _)
  indexOk := by
    intro m' C i hm' hC
    rw [h1, Option.getD_some]
    rcases hidx m' C i hm' hC with ⟨e1, e2⟩ | ⟨m, hm, hmC⟩
    · subst e1 e2
      exact ⟨⟨line, by simp, hintro⟩, cv, by simp, rfl⟩
    · obtain ⟨⟨l, hl, hl'⟩, c, hc, hcn⟩ := h.indexOk m C i hm hmC
      refine ⟨⟨l, List.mem_append_left _ hl, hl'⟩, c, ?_, hcn⟩
      have hi : i < ((st.out T).getD []).length := by
        by_contra hne
        rw [List.getElem?_eq_none (Nat.le_of_not_lt hne)] at hc
        exact Option.noConfusion hc
      rw [List.getElem?_append_left hi]
      exact hc

theorem saveInv_set (T : Str) (st st' : SaveState) (acc : List Str) (line : Str)
    (ci : Nat) (c : ChainView) (h : SaveInv T st acc) (h0 : st'.out [] = none)
    (hc : ((st.out T).getD [])[ci]? = some c)
    (h1 : st'.out T = some (((st.out T).getD []).set ci
      { c with Rules := c.Rules ++ [{ Num := c.Rules.length + 1, Raw := line }] }))
    (h2 : st'.index T = st.index T)
    (hrc : ruleChain line = some c.Name) :
    SaveInv T st' (acc ++ [line]) where
  outEmpty := h0
  chainOk := by
    intro i c' hc'
    rw [h1, Option.getD_some] at hc'
    by_cases hi : ci = i
    · subst hi
      have hlt : ci < ((st.out T).getD []).length := by
        by_contra hne
        rw [List.getElem?_eq_none (Nat.le_of_not_lt hne)] at hc
        exact Option.noConfusion hc
      rw [List.getElem?_set_self hlt] at hc'
      simp only [Option.some.injEq] at hc'
      subst hc'
      obtain ⟨a, b, d⟩ := h.chainOk ci c hc
      refine ⟨a, ?_, ?_⟩
      · intro j r hr
        by_cases hj : j < c.Rules.length
        · rw [List.getElem?_append_left hj] at hr
          exact b j r hr
        · rw [List.getElem?_append_right (Nat.le_of_not_lt hj)] at hr
          have hj0 : j - c.Rules.length = 0 := by
            by_contra hne
            rw [List.getElem?_eq_none (by simp; omega)] at hr
            exact Option.noConfusion hr
          rw [hj0] at hr
          simp only [List.getElem?_cons_zero, Option.some.injEq] at hr
          subst hr
          simp only
          omega
      · simp only [List.map_append, List.map_cons, List.map_nil, List.filter_append]
        refine List.Sublist.append d ?_
        simp [hrc]
    · rw [List.getElem?_set_ne hi] at hc'
      obtain ⟨a, b, d⟩ := h.chainOk i c' hc'
      refine ⟨a, b, d.trans ?_⟩
      rw [List.filter_append]
      exact List.sublist_append_left _ _
  namesOk := by
    rw [h1, Option.getD_some, List.filterMap_append]
    have hmap : (((st.out T).getD []).set ci
        { c with Rules := c.Rules ++ [{ Num := c.Rules.length + 1, Raw := line }] }).map (·.Name)
        = ((st.out T).getD []).map (·.Name) := by
      rw [List.map_set]
      apply List.ext_getElem?
      intro n
      by_cases hn : ci = n
      · subst hn
        by_cases hlt : ci < (((st.out T).getD []).map (·.Name)).length
        · rw [List.getElem?_set_self hlt, List.getElem?_map, hc]
          rfl
        · rw [List.getElem?_eq_none (by simpa using hlt), List.getElem?_eq_none (by simpa using hlt)]
      · rw [List.getElem?_set_ne hn]
    rw [hmap]
    exact h.namesOk.trans (List.sublist_append_left _ _)
  indexOk := by
    intro m C i hm hC
    rw [h2] at hm
    obtain ⟨⟨l, hl, hl'⟩, c0, hc0, hcn⟩ := h.indexOk m C i hm hC
    refine ⟨⟨l, List.mem_append_left _ hl, hl'⟩, ?_⟩
    rw [h1, Option.getD_some]
    by_cases hi : ci = i
    · subst hi
      have hlt : ci < ((st.out T).getD []).length := by
        by_contra hne
        rw [List.getElem?_eq_none (Nat.le_of_not_lt hne)] at hc
        exact Option.noConfusion hc
      rw [List.getElem?_set_self hlt]
      rw [hc] at hc0
      simp only [Option.some.injEq] at hc0
      subst hc0
      exact ⟨_, rfl, hcn⟩
    · rw [List.getElem?_set_ne hi]
      exact ⟨c0, hc0, hcn⟩

theorem saveInv_step (T : Str) (st : SaveState) (acc : List Str) (line : Str)
    (st' : SaveState) (h : SaveInv T st acc) (hk : LineKind st line (some st')) :
    SaveInv T st' (acc ++ contrib T st line) := by
  generalize hr : some st' = r at hk
  cases hk with
  | skip _ => cases hr; exact saveInv_unchanged T st st acc _ h h.outEmpty rfl rfl
  | header name _ => cases hr; exact saveInv_unchanged T st _ acc _ h h.outEmpty rfl rfl
  | commit _ => cases hr; exact saveInv_unchanged T st _ acc _ h h.outEmpty rfl rfl
  | outside _ _ => cases hr; exact saveInv_unchanged T st st acc _ h h.outEmpty rfl rfl
  | other _ _ _ _ => cases hr; exact saveInv_unchanged T st st acc _ h h.outEmpty rfl rfl
  | chain name policy counters hp hne hin _ =>
    cases hr
    have h0 : (declareChain st name policy counters).out [] = none := by
      rw [(declareChain_other st name policy counters [] (fun e => hne e.symm)).1]
      exact h.outEmpty
    by_cases hc : st.curTable = T
    · have hcon : contrib T st line = [line] := by simp [contrib, hp, hc]
      rw [hcon]
      subst hc
      refine saveInv_append st.curTable st _ acc line _ h h0 (declareChain_out st name policy counters)
        rfl (Or.inl rfl) (fun hx => absurd rfl hx) hin ?_
      intro m' C i hm' hC
      rw [declareChain_index] at hm'
      simp only [Option.some.injEq] at hm'
      subst hm'
      by_cases hCn : C = name
      · subst hCn
        rw [Function.update_same] at hC
        simp only [Option.some.injEq] at hC
        exact Or.inl ⟨rfl, hC.symm⟩
      · rw [Function.update_noteq hCn] at hC
        rcases hi : st.index st.curTable with _ | m
        · rw [hi] at hC; simp at hC
        · rw [hi] at hC
          exact Or.inr ⟨m, rfl, hC⟩
    · obtain ⟨e1, e2⟩ := declareChain_other st name policy counters T (fun e => hc e.symm)
      exact saveInv_unchanged T st _ acc _ h h0 e1 e2
  | rule chain hp hne hin hrc _ =>
    obtain ⟨ecur, eother, m, hm, hcase⟩ := appendRule_effect st st' chain line hr.symm
    have h0 : st'.out [] = none := by
      rw [(eother [] (fun e => hne e.symm)).1]
      exact h.outEmpty
    by_cases hc : st.curTable = T
    · have hcon : contrib T st line = [line] := by simp [contrib, hp, hc]
      rw [hcon]
      subst hc
      rcases hcase with ⟨ci, c, hmc, hget, hout, hidx⟩ | ⟨hmc, hout, hidx⟩
      · have hget' : ((st.out st.curTable).getD [])[ci]? = some c := by
          simpa using hget
        obtain ⟨_, c0, hc0, hcn⟩ := h.indexOk m chain ci hm hmc
        rw [hget'] at hc0
        simp only [Option.some.injEq] at hc0
        subst hc0
        exact saveInv_set st.curTable st st' acc line ci c h h0 hget' hout (by rw [hidx])
          (by rw [hcn]; exact hrc)
      · refine saveInv_append st.curTable st st' acc line _ h h0 hout rfl (Or.inr rfl)
          (fun _ => hrc) hin ?_
        intro m' C i hm' hC
        rw [hidx] at hm'
        simp only [Option.some.injEq] at hm'
        subst hm'
        by_cases hCn : C = chain
        · subst hCn
          rw [Function.update_same] at hC
          simp only [Option.some.injEq] at hC
          exact Or.inl ⟨rfl, hC.symm⟩
        · rw [Function.update_noteq hCn] at hC
          exact Or.inr ⟨m, hm, hC⟩
    · obtain ⟨e1, e2⟩ := eother T (fun e => hc e.symm)
      exact saveInv_unchanged T st st' acc _ h h0 e1 e2

theorem saveInv_init (T : Str) : SaveInv T SaveState.init [] where
  outEmpty := by decide
  chainOk := by
    intro i c hc
    have : (SaveState.init.out T).getD [] = [] := by
      unfold SaveState.init
      simp only []
      split_ifs <;> rfl
    rw [this] at hc
    simp at hc
  namesOk := by
    have : (SaveState.init.out T).getD [] = [] := by
      unfold SaveState.init
      simp only []
      split_ifs <;> rfl
    rw [this]
    simp
  indexOk := by
    intro m C i hm hC
    unfold SaveState.init at hm
    simp only [] at hm
    split_ifs at hm
    simp only [Option.some.injEq] at hm
    subst hm
    simp at hC

/-- The invariant holds of what `parseIptablesSave` returns. -/
theorem saveInv_run (T : Str) (hT : T ≠ []) (lines : List Str) (st' : SaveState)
    (h : parseSaveLines lines SaveState.init = some st') :
    SaveInv T st' (sectionLines T false (significant lines)) := by
  have := parseSaveLines_induct T hT (SaveInv T) (saveInv_step T) lines SaveState.init [] st'
    (saveInv_init T) h
  have hcur : decide (SaveState.init.curTable = T) = false := by
    simp only [SaveState.init, decide_eq_false_iff_not]
    exact fun e => hT e.symm
  rw [hcur, List.nil_append] at this
  exact this

theorem contrib_mem (T : Str) (st : SaveState) (line l : Str) (h : l ∈ contrib T st line) :
    l = line ∧ plainLine line = true ∧ st.curTable = T := by
  unfold contrib at h
  split_ifs at h with hc
  · exact ⟨List.mem_singleton.1 h, hc.1, hc.2⟩
  · exact absurd h (List.not_mem_nil _)

/-! ### The chains of a table in the order of the dump -/

theorem tablesInv_unchanged (T : Str) (st st' : SaveState) (acc extra : List Str)
    (h : TablesInv T st acc) (h1 : st'.out T = st.out T) (h2 : st'.index T = st.index T)
    (hx : ∀ l ∈ extra, isDecl l = false) : TablesInv T st' (acc ++ extra) where
  known := by rw [h1]; exact h.known
  fwd := by
    rw [h1, h2]
    intro hs
    rcases h.fwd hs with hk | ⟨l, hl, hd⟩
    · exact Or.inl hk
    · exact Or.inr ⟨l, List.mem_append_left _ hl, hd⟩
  bwd := by
    rw [h1]
    rintro ⟨l, hl, hd⟩
    rcases List.mem_append.1 hl with hl | hl
    · exact h.bwd ⟨l, hl, hd⟩
    · rw [hx l hl] at hd
      exact Bool.noConfusion hd

theorem isDecl_plain (line : Str) (h : isDecl line = true) : plainLine line = true := by
  rcases line with _ | ⟨c, rest⟩
  · simp [isDecl] at h
  · have hc : c = ':' := by
      simp only [isDecl, Bool.and_eq_true, decide_eq_true_eq, List.head?_cons,
        Option.some.injEq] at h
      exact h.1
    subst hc
    simp [plainLine]

theorem tablesInv_step (T : Str) (hT : T ≠ []) (st : SaveState) (acc : List Str) (line : Str)
    (st' : SaveState) (h : TablesInv T st acc) (hk : LineKind st line (some st')) :
    TablesInv T st' (acc ++ contrib T st line) := by
  have hnd : isDecl line = false → ∀ l ∈ contrib T st line, isDecl l = false := by
    intro hd l hl
    rw [(contrib_mem T st line l hl).1]
    exact hd
  have hnp : plainLine line = false → isDecl line = false := by
    intro hp
    cases hd : isDecl line
    · rfl
    · rw [isDecl_plain line hd] at hp
      exact Bool.noConfusion hp
  generalize hr : some st' = r at hk
  cases hk with
  | skip hs =>
    cases hr
    refine tablesInv_unchanged T st st acc _ h rfl rfl (hnd (hnp ?_))
    rcases hs with e | e
    · subst e; rfl
    · simp [plainLine, e]
  | header name e =>
    cases hr
    exact tablesInv_unchanged T st _ acc _ h rfl rfl (hnd (hnp (by subst e; simp [plainLine])))
  | commit e =>
    cases hr
    exact tablesInv_unchanged T st _ acc _ h rfl rfl (hnd (hnp (by subst e; decide)))
  | outside _ hcur =>
    cases hr
    have hcon : contrib T st line = [] := by
      unfold contrib
      rw [if_neg (fun hx => hT (hx.2.symm.trans hcur))]
    rw [hcon]
    exact tablesInv_unchanged T st st acc [] h rfl rfl (by simp)
  | other _ _ hd _ => cases hr; exact tablesInv_unchanged T st st acc _ h rfl rfl (hnd hd)
  | chain name policy counters hp hne hin hd =>
    cases hr
    by_cases hc : st.curTable = T
    · have hcon : contrib T st line = [line] := by simp [contrib, hp, hc]
      rw [hcon]
      subst hc
      have hout := declareChain_out st name policy counters
      exact ⟨fun _ => by rw [hout]; rfl,
        fun _ => Or.inr ⟨line, by simp, hd⟩,
        fun _ => by rw [hout]; rfl⟩
    · obtain ⟨e1, e2⟩ := declareChain_other st name policy counters T (fun e => hc e.symm)
      have hcon : contrib T st line = [] := by simp [contrib, hc]
      rw [hcon]
      exact tablesInv_unchanged T st _ acc [] h e1 e2 (by simp)
  | rule chain hp hne hin hrc hd =>
    obtain ⟨_, eother, m, hm, hcase⟩ := appendRule_effect st st' chain line hr.symm
    by_cases hc : st.curTable = T
    · subst hc
      have hsome : (st'.out st.curTable).isSome = true := by
        rcases hcase with ⟨ci, c, _, _, hout, _⟩ | ⟨_, hout, _⟩ <;> rw [hout] <;> rfl
      refine ⟨fun _ => hsome, fun _ => ?_, fun _ => hsome⟩
      rcases h.fwd (Or.inr (by rw [hm]; rfl)) with hk | ⟨l, hl, hl'⟩
      · exact Or.inl hk
      · exact Or.inr ⟨l, List.mem_append_left _ hl, hl'⟩
    · obtain ⟨e1, e2⟩ := eother T (fun e => hc e.symm)
      exact tablesInv_unchanged T st st' acc _ h e1 e2 (hnd hd)

theorem tablesInv_init (T : Str) : TablesInv T SaveState.init [] where
  known := by
    intro hT
    simp [SaveState.init, hT]
  fwd := by
    intro hs
    left
    by_contra hT
    simp [SaveState.init, hT] at hs
  bwd := by
    rintro ⟨l, hl, _⟩
    exact absurd hl (List.not_mem_nil _)

/-- C6 does not hold of the code: on the dump `*foo`, `:X ACCEPT [0:0]` the
view has a sixth table `foo`, holding the chain `X`.  The chain branch is
reached for the section of any table, although only the five known tables are
set up and the comment of the test before it says that the lines of a table
that is not recognised are skipped. -/
theorem parseIptablesSave_unknown_table_entry :
    (parseIptablesSave "*foo\n:X ACCEPT [0:0]\n".toList).bind (fun v => v.Tables "foo".toList)
      = some [{ Order := 0, Name := "X".toList, Policy := "ACCEPT".toList,
                Counters := "[0:0]".toList, Rules := [] }] ∧
    "foo".toList ∉ knownTables := by
  decide

/-- The tables of a view that `parseIptablesSave` returns: the five known
tables, and every other table in whose sections a chain declaration
`:<name> <policy> [<counters>]` stands; for the empty dump each of the five
known tables is present with an empty chain list, and no other table is. -/
theorem parseIptablesSave_tables (dump T : Str) (b : Bool)
    (h : (parseIptablesSave dump).map (fun v => (v.Tables T).isSome) = some b) :
    (b = true ↔ (T ∈ knownTables ∨
      (T ≠ [] ∧ ∃ l ∈ sectionLines T false (significant (scanLines dump)), isDecl l = true))) ∧
    ∀ T' : Str, (parseIptablesSave []).map (fun v => v.Tables T')
      = some (if T' ∈ knownTables then some [] else none) := by
  refine ⟨?_, fun T' => by simp [parseIptablesSave, scanLines, split, splitAux, parseSaveLines,
    SaveState.init]⟩
  unfold parseIptablesSave at h
  rcases hrun : parseSaveLines (scanLines dump) SaveState.init with _ | st
  · rw [hrun] at h; simp at h
  · rw [hrun] at h
    simp only [Option.map_some', Option.map_map, Function.comp, Option.some.injEq] at h
    subst h
    by_cases hT : T = []
    · subst hT
      have := (saveInv_run "x".toList (by decide) _ st hrun).outEmpty
      rw [this]
      simp [knownTables]
    · have inv := parseSaveLines_induct T hT (TablesInv T) (tablesInv_step T hT) _ SaveState.init []
        st (tablesInv_init T) hrun
      have hcur : decide (SaveState.init.curTable = T) = false := by
        simp only [SaveState.init, decide_eq_false_iff_not]
        exact fun e => hT e.symm
      rw [hcur, List.nil_append] at inv
      constructor
      · intro hs
        rcases inv.fwd (Or.inl hs) with hk | hd
        · exact Or.inl hk
        · exact Or.inr ⟨hT, hd⟩
      · rintro (hk | ⟨_, hd⟩)
        · exact inv.known hk
        · exact inv.bwd hd

/-- The tables of a view, on a dump with a section of an unknown table. -/
theorem parseIptablesSave_tables_witness :
    (true = true ↔ ("foo".toList ∈ knownTables ∨
      ("foo".toList ≠ [] ∧
        ∃ l ∈ sectionLines "foo".toList false
          (significant (scanLines "*filter\n:INPUT ACCEPT [0:0]\nCOMMIT\n*foo\n:X ACCEPT [0:0]\n".toList)),
          isDecl l = true))) ∧
    ∀ T' : Str, (parseIptablesSave []).map (fun v => v.Tables T')
      = some (if T' ∈ knownTables then some [] else none) :=
  parseIptablesSave_tables "*filter\n:INPUT ACCEPT [0:0]\nCOMMIT\n*foo\n:X ACCEPT [0:0]\n".toList
    "foo".toList true (by decide)

/-! ### Chains are kept -/

theorem chainExtends_refl (c : ChainView) : ChainExtends c c :=
  ⟨rfl, rfl, rfl, rfl, List.prefix_refl _⟩

theorem extends_refl (cs : List ChainView) : Extends cs cs :=
  fun _ c h => ⟨c, h, chainExtends_refl c⟩

theorem extends_trans (a b c : List ChainView) (h1 : Extends a b) (h2 : Extends b c) :
    Extends a c := by
  intro i x hx
  obtain ⟨y, hy, e1⟩ := h1 i x hx
  obtain ⟨z, hz, e2⟩ := h2 i y hy
  exact ⟨z, hz, e2.1.trans e1.1, e2.2.1.trans e1.2.1, e2.2.2.1.trans e1.2.2.1,
    e2.2.2.2.1.trans e1.2.2.2.1, e1.2.2.2.2.trans e2.2.2.2.2⟩

theorem extends_append (cs extra : List ChainView) : Extends cs (cs ++ extra) := by
  intro i c hc
  have hi : i < cs.length := by
    by_contra hne
    rw [List.getElem?_eq_none (Nat.le_of_not_lt hne)] at hc
    exact Option.noConfusion hc
  exact ⟨c, by rw [List.getElem?_append_left hi]; exact hc, chainExtends_refl c⟩

theorem extends_set (cs : List ChainView) (ci : Nat) (c : ChainView) (more : List RuleView)
    (hc : cs[ci]? = some c) :
    Extends cs (cs.set ci { c with Rules := c.Rules ++ more }) := by
  intro i x hx
  by_cases hi : ci = i
  · subst hi
    have hlt : ci < cs.length := by
      by_contra hne
      rw [List.getElem?_eq_none (Nat.le_of_not_lt hne)] at hc
      exact Option.noConfusion hc
    rw [hc] at hx
    simp only [Option.some.injEq] at hx
    subst hx
    exact ⟨_, List.getElem?_set_self hlt, rfl, rfl, rfl, rfl, List.prefix_append _ _⟩
  · exact ⟨x, by rw [List.getElem?_set_ne hi]; exact hx, chainExtends_refl x⟩

theorem lineKind_extends (T : Str) (st st' : SaveState) (line : Str)
    (hk : LineKind st line (some st')) :
    Extends ((st.out T).getD []) ((st'.out T).getD []) := by
  generalize hr : some st' = r at hk
  cases hk with
  | skip _ => cases hr; exact extends_refl _
  | header name _ => cases hr; exact extends_refl _
  | commit _ => cases hr; exact extends_refl _
  | outside _ _ => cases hr; exact extends_refl _
  | other _ _ _ _ => cases hr; exact extends_refl _
  | chain name policy counters _ _ _ _ =>
    cases hr
    by_cases hc : T = st.curTable
    · subst hc
      rw [declareChain_out]
      exact extends_append _ _
    · rw [(declareChain_other st name policy counters T hc).1]
      exact extends_refl _
  | rule chain _ _ _ _ _ =>
    obtain ⟨_, eother, m, _, hcase⟩ := appendRule_effect st st' chain line hr.symm
    by_cases hc : T = st.curTable
    · subst hc
      rcases hcase with ⟨ci, c, _, hget, hout, _⟩ | ⟨_, hout, _⟩
      · rw [hout]
        exact extends_set _ ci c _ (by simpa using hget)
      · rw [hout]
        exact extends_append _ _
    · rw [(eother T hc).1]
      exact extends_refl _

theorem parseSaveLines_extends (T : Str) (lines : List Str) :
    ∀ st st' : SaveState, parseSaveLines lines st = some st' →
      Extends ((st.out T).getD []) ((st'.out T).getD []) := by
  induction lines with
  | nil =>
    intro st st' h
    simp only [parseSaveLines, Option.some.injEq] at h
    subst h
    exact extends_refl _
  | cons l ls ih =>
    intro st st' h
    rw [parseSaveLines] at h
    rcases h1 : parseSaveLine st l with _ | st1
    · rw [h1] at h; simp at h
    · rw [h1] at h
      have hk := parseSaveLine_kind st l
      rw [h1] at hk
      exact extends_trans _ _ _ (lineKind_extends T st st1 _ hk) (ih st1 st' h)

theorem parseSaveLines_append (pre post : List Str) :
    ∀ st st' : SaveState, parseSaveLines (pre ++ post) st = some st' →
      ∃ st0, parseSaveLines pre st = some st0 ∧ parseSaveLines post st0 = some st' := by
  induction pre with
  | nil => intro st st' h; exact ⟨st, rfl, h⟩
  | cons l ls ih =>
    intro st st' h
    rw [List.cons_append, parseSaveLines] at h
    rw [parseSaveLines]
    rcases h1 : parseSaveLine st l with _ | st1
    · rw [h1] at h; simp at h
    · rw [h1] at h
      exact ih st1 st' h

/-! ### The open table -/

theorem lineKind_tableAfter (st st' : SaveState) (line : Str)
    (hk : LineKind st line (some st')) :
    st'.curTable =
      match (if (decide (line ≠ []) && decide (line.head? ≠ some '#')) = true
          then [line] else []).find? marker with
      | some ('*' :: name) => name
      | some _ => []
      | none => st.curTable := by
  by_cases hp : plainLine line = true
  · rw [lineKind_curTable st st' line hp hk, if_pos (plainLine_significant line hp)]
    have hm : marker line = false := by
      unfold plainLine at hp
      simp only [Bool.and_eq_true, decide_eq_true_eq] at hp
      unfold marker
      rw [decide_eq_false hp.1.2, decide_eq_false hp.2]
      rfl
    simp [List.find?, hm]
  · generalize hr : some st' = r at hk
    cases hk with
    | skip h =>
      cases hr
      rcases h with h | h
      · subst h; simp
      · have : (decide (line ≠ []) && decide (line.head? ≠ some '#')) = false := by simp [h]
        rw [this]; simp
    | header name h =>
      cases hr
      subst h
      simp [marker, List.find?]
    | commit h =>
      cases hr
      subst h
      simp [marker, List.find?]
    | outside h _ => exact absurd h hp
    | other h _ _ _ => exact absurd h hp
    | chain _ _ _ h _ _ _ => exact absurd h hp
    | rule _ h _ _ _ _ => exact absurd h hp

theorem curTable_after (lines : List Str) :
    ∀ st st' : SaveState, parseSaveLines lines st = some st' →
      st'.curTable = tableAfter st.curTable lines := by
  induction lines with
  | nil =>
    intro st st' h
    simp only [parseSaveLines, Option.some.injEq] at h
    subst h
    simp [tableAfter, significant]
  | cons l ls ih =>
    intro st st' h
    rw [parseSaveLines] at h
    rcases h1 : parseSaveLine st l with _ | st1
    · rw [h1] at h; simp at h
    · rw [h1] at h
      have hk := parseSaveLine_kind st l
      rw [h1] at hk
      rw [ih st1 st' h, lineKind_tableAfter st st1 _ hk]
      unfold tableAfter
      rw [significant_cons]
      have hrev : (if (decide (trimSpace l ≠ []) && decide ((trimSpace l).head? ≠ some '#')) = true
            then trimSpace l :: significant ls else significant ls).reverse
          = (significant ls).reverse ++
            (if (decide (trimSpace l ≠ []) && decide ((trimSpace l).head? ≠ some '#')) = true
              then [trimSpace l] else []) := by
        split_ifs <;> simp
      rw [hrev, List.find?_append]
      rcases List.find? marker (significant ls).reverse with _ | m
      · simp
      · have hor : ∀ o : Option Str, (some m).or o = some m := fun o => rfl
        rw [hor]
        split
        · next name heq =>
          cases heq
          rfl
        · next m' hne heq =>
          cases heq
          rfl
        · next heq => cases heq

/-! ### Lines hold no line feed -/

theorem trimSpace_subset (s : Str) : ∀ c ∈ trimSpace s, c ∈ s := by
  intro c hc
  unfold trimSpace at hc
  rw [List.mem_reverse] at hc
  have h1 := (List.dropWhile_sublist _).subset hc
  rw [List.mem_reverse] at h1
  exact (List.dropWhile_sublist _).subset h1

/-! ### Declaration lines and rule lines -/

theorem parseSaveLine_chain (st : SaveState) (text rest name policy counters : Str)
    (h : trimSpace text = ':' :: rest) (hcur : st.curTable ≠ [])
    (hm : matchItems reChain (':' :: rest) = some [name, policy, counters]) :
    parseSaveLine st text = some (declareChain st name policy counters) := by
  unfold parseSaveLine
  simp only []
  rw [h, if_neg (by simp [hasPrefix]), if_neg (by simp [hasPrefix]),
    if_neg (show ¬ (':' :: rest = "COMMIT".toList) by intro e; simp at e), if_neg hcur,
    if_pos (by simp [hasPrefix]), hm]

theorem knownTables_ne_nil (T : Str) (h : T ∈ knownTables) : T ≠ [] := by
  intro e
  subst e
  exact absurd h (by decide)

/-- The run of `parseIptablesSave` on lines `pre ++ text :: post`, cut at
`text`. -/
theorem parseIptablesSave_cut (dump : Str) (pre post : List Str) (text T : Str)
    (cs : List ChainView) (hlines : scanLines dump = pre ++ text :: post)
    (hret : (parseIptablesSave dump).bind (fun v => v.Tables T) = some cs) :
    ∃ st0 st1 st2, parseSaveLines pre SaveState.init = some st0 ∧
      parseSaveLine st0 text = some st1 ∧ parseSaveLines post st1 = some st2 ∧
      st2.out T = some cs ∧ st0.curTable = openTable pre := by
  unfold parseIptablesSave at hret
  rw [hlines] at hret
  rcases hrun : parseSaveLines (pre ++ text :: post) SaveState.init with _ | st2
  · rw [hrun] at hret; simp at hret
  · rw [hrun] at hret
    simp only [Option.map_some', Option.some_bind] at hret
    obtain ⟨st0, h0, h1⟩ := parseSaveLines_append pre (text :: post) _ _ hrun
    rw [parseSaveLines] at h1
    rcases hs : parseSaveLine st0 text with _ | st1
    · rw [hs] at h1; simp at h1
    · rw [hs] at h1
      exact ⟨st0, st1, st2, h0, hs, h1, hret, curTable_after pre _ _ h0⟩

/-- C7, as the claim states it, fails: in table `filter` the declaration
`:INPUT ACCEPT`, which has no counters token, adds no chain, and the counters
token `[]` of `:FORWARD DROP []` is recorded as the empty text. -/
theorem parseIptablesSave_chain_without_counters :
    (parseIptablesSave "*filter\n:INPUT ACCEPT\n:FORWARD DROP []\nCOMMIT\n".toList).bind
      (fun v => v.Tables "filter".toList)
      = some [{ Order := 0, Name := "FORWARD".toList, Policy := "DROP".toList, Counters := [],
                Rules := [] }] := by
  decide

/-- C7, amended: a declaration line `:<name> <policy> [<counters>]` inside a
section of a known table `T` (name without a space and followed by a space,
policy of letters and hyphens, counters without `]`) appends a chain of that
name to `T`, at the position after the chains `T` had so far; its counters are
the bracketed token verbatim when something stands between the brackets, and
empty for `[]`. -/
theorem parseIptablesSave_declares_chain (dump : Str) (pre post : List Str)
    (text T name w1 policy ws2 ctr : Str) (cs : List ChainView)
    (hlines : scanLines dump = pre ++ text :: post)
    (hopen : openTable pre = T) (hT : T ∈ knownTables)
    (hline : trimSpace text = ':' :: (name ++ ' ' :: w1 ++ policy ++ ws2 ++ '[' :: (ctr ++ [']'])))
    (hname : name ≠ []) (hname' : ∀ c ∈ name, c ≠ ' ')
    (hw1 : ∀ c ∈ w1, reSpace c = true)
    (hpol : policy ≠ []) (hpol' : ∀ c ∈ policy, rePolicyChar c = true)
    (hws2 : ws2 ≠ []) (hws2' : ∀ c ∈ ws2, reSpace c = true)
    (hctr : ∀ c ∈ ctr, c ≠ ']')
    (hret : (parseIptablesSave dump).bind (fun v => v.Tables T) = some cs) :
    ∃ (st0 : SaveState) (c : ChainView),
      parseSaveLines pre SaveState.init = some st0 ∧
      Extends ((st0.out T).getD []) cs ∧
      cs[((st0.out T).getD []).length]? = some c ∧
      c.Order = ((st0.out T).getD []).length ∧
      c.Name = name ∧
      c.Counters = (if ctr = [] then [] else '[' :: (ctr ++ [']'])) := by
  obtain ⟨st0, st1, st2, h0, h1, h2, hout, hcur⟩ :=
    parseIptablesSave_cut dump pre post text T cs hlines hret
  rw [hopen] at hcur
  have hne : st0.curTable ≠ [] := by rw [hcur]; exact knownTables_ne_nil T hT
  rw [parseSaveLine_chain st0 text _ name policy ctr hline hne
    (matchItems_reChain name w1 policy ws2 ctr hname hname' hw1 hpol hpol' hws2 hws2' hctr)] at h1
  simp only [Option.some.injEq] at h1
  subst h1
  have hext := parseSaveLines_extends T post _ st2 h2
  rw [hout, Option.getD_some] at hext
  have hout1 := declareChain_out st0 name policy ctr
  rw [hcur] at hout1
  rw [hout1, Option.getD_some] at hext
  obtain ⟨c, hc, e1, e2, _, e4, _⟩ := hext ((st0.out T).getD []).length _
    (List.getElem?_concat_length _ _)
  refine ⟨st0, c, h0, extends_trans _ _ _ (extends_append _ _) hext, hc, e1, e2, ?_⟩
  rw [e4]
  by_cases hz : ctr = []
  · simp [hz]
  · simp [hz]

/-- The declaration statement on the second declaration of `sampleDeclDump`. -/
theorem parseIptablesSave_declares_chain_witness :
    ∃ (st0 : SaveState) (c : ChainView),
      parseSaveLines ["*filter".toList, ":INPUT ACCEPT [0:0]".toList] SaveState.init = some st0 ∧
      Extends ((st0.out "filter".toList).getD []) sampleDeclChains ∧
      sampleDeclChains[((st0.out "filter".toList).getD []).length]? = some c ∧
      c.Order = ((st0.out "filter".toList).getD []).length ∧
      c.Name = "LOGDROP".toList ∧
      c.Counters = (if "12:34".toList = [] then [] else '[' :: ("12:34".toList ++ [']'])) :=
  parseIptablesSave_declares_chain sampleDeclDump
    ["*filter".toList, ":INPUT ACCEPT [0:0]".toList] ["COMMIT".toList]
    ":LOGDROP - [12:34]".toList "filter".toList "LOGDROP".toList [] "-".toList " ".toList
    "12:34".toList sampleDeclChains (by decide) (by decide) (by decide) (by decide) (by decide)
    (by decide) (by decide) (by decide) (by decide) (by decide) (by decide) (by decide)
    (by decide)

theorem index_singleton (c : Char) (s : Str) : (index s [c]).isSome = decide (c ∈ s) := by
  induction s with
  | nil => simp [index]
  | cons a t ih =>
    rw [index]
    by_cases h : a = c
    · simp [List.isPrefixOf, h]
    · have h' : ¬ c = a := fun e => h e.symm
      simp [List.isPrefixOf, h, h', ih]

theorem takeWhile_ne_of_not_mem (c : Char) (s : Str) (h : c ∉ s) :
    s.takeWhile (fun x => decide (x ≠ c)) = s ∧ s.dropWhile (fun x => decide (x ≠ c)) = [] := by
  induction s with
  | nil => simp
  | cons a t ih =>
    have ha : a ≠ c := fun e => h (by simp [e])
    have ht := ih (fun hm => h (List.mem_cons_of_mem _ hm))
    rw [List.takeWhile_cons_of_pos (by simpa using ha),
      List.dropWhile_cons_of_pos (by simpa using ha), ht.1, ht.2]
    exact ⟨rfl, rfl⟩

/-- C10, as the claim states it, fails: with two colons in the value, `toPort`
is the part between them, not everything after the first. -/
theorem parseRuleSpec_to_destination_two_colons :
    (parseRuleSpec "-j DNAT --to-destination 10.0.0.1:8080:9090".toList).toSource
        = "10.0.0.1".toList ∧
    (parseRuleSpec "-j DNAT --to-destination 10.0.0.1:8080:9090".toList).toPort
        = "8080".toList ∧
    (parseRuleSpec "-j DNAT --to-destination 10.0.0.1:8080:9090".toList).toPort
        ≠ "8080:9090".toList := by
  decide

/-- C10, amended: for a value `X` without white space, the projection of
`-j DNAT --to-destination X` has as `toSource` the part of `X` before the first
`:` (all of `X` when it has none) and as `toPort` the part of `X` between the
first `:` and the second (up to the end of `X` when there is no second, empty
when `X` has no `:`). -/
theorem parseRuleSpec_to_destination (X : Str) (hX : ∀ c ∈ X, isSpace c = false) :
    (parseRuleSpec ("-j DNAT --to-destination ".toList ++ X)).toSource
        = X.takeWhile (fun c => decide (c ≠ ':')) ∧
    (parseRuleSpec ("-j DNAT --to-destination ".toList ++ X)).toPort
        = ((X.dropWhile (fun c => decide (c ≠ ':'))).drop 1).takeWhile
            (fun c => decide (c ≠ ':')) := by
  have hsp : "-j DNAT --to-destination ".toList
      = spaced ["-j".toList, "DNAT".toList, "--to-destination".toList] := by decide
  have hf := fields_spaced ["-j".toList, "DNAT".toList, "--to-destination".toList] X
    (by
      intro t ht
      simp only [List.mem_cons, List.mem_singleton, List.not_mem_nil, or_false] at ht
      rcases ht with h | h | h <;> subst h <;> exact ⟨by decide, by decide⟩)
    hX
  have hfin : ∀ p : Projection,
      (if p.protocol = [] then { p with protocol := "all".toList } else p).toSource = p.toSource ∧
      (if p.protocol = [] then { p with protocol := "all".toList } else p).toPort = p.toPort := by
    intro p
    split_ifs <;> exact ⟨rfl, rfl⟩
  unfold parseRuleSpec
  simp only []
  rw [(hfin _).1, (hfin _).2, hsp, hf]
  by_cases hnil : X = []
  · subst hnil
    decide
  · rw [if_neg hnil]
    have hloop : parseRuleSpecLoop
        (["-j".toList, "DNAT".toList, "--to-destination".toList] ++ [X]) {}
        = (if contains X ":".toList = true then
            (if (split X ':').length > 1 then
              { action := "DNAT".toList, toSource := (split X ':').headD [],
                toPort := (split X ':').getD 1 [] }
             else { action := "DNAT".toList, toSource := (split X ':').headD [] })
           else ({ action := "DNAT".toList, toSource := X } : Projection)) := by
      simp only [List.cons_append, List.nil_append, parseRuleSpecLoop, applyOption]
      simp only [show ("-j".toList = "-p".toList) = False from by decide,
        show ("-j".toList = "-s".toList) = False from by decide,
        show ("-j".toList = "--sport".toList) = False from by decide,
        show ("-j".toList = "--source-port".toList) = False from by decide,
        show ("-j".toList = "-d".toList) = False from by decide,
        show ("-j".toList = "--dport".toList) = False from by decide,
        show ("-j".toList = "--destination-port".toList) = False from by decide,
        show ("--to-destination".toList = "-p".toList) = False from by decide,
        show ("--to-destination".toList = "-s".toList) = False from by decide,
        show ("--to-destination".toList = "--sport".toList) = False from by decide,
        show ("--to-destination".toList = "--source-port".toList) = False from by decide,
        show ("--to-destination".toList = "-d".toList) = False from by decide,
        show ("--to-destination".toList = "--dport".toList) = False from by decide,
        show ("--to-destination".toList = "--destination-port".toList) = False from by decide,
        show ("--to-destination".toList = "-j".toList) = False from by decide,
        show ("--to-destination".toList = "-i".toList) = False from by decide,
        show ("--to-destination".toList = "--ctstate".toList) = False from by decide,
        or_self, if_false, if_true]
      split_ifs <;> rfl
    rw [hloop]
    have hhead := splitAux_head ':' X []
    have hsec := splitAux_second ':' X []
    rw [List.nil_append] at hhead
    have hcont : contains X ":".toList = decide (':' ∈ X) := by
      unfold contains
      exact index_singleton ':' X
    rw [hcont]
    by_cases hmem : ':' ∈ X
    · rw [if_pos (decide_eq_true hmem)]
      by_cases hlen : (split X ':').length > 1
      · rw [if_pos hlen]
        exact ⟨hhead, hsec⟩
      · rw [if_neg hlen]
        refine ⟨hhead, ?_⟩
        rw [← hsec]
        have : (splitAux ':' X []).length ≤ 1 := Nat.le_of_not_lt hlen
        rw [List.getD_eq_default _ _ this]
    · rw [if_neg (by simpa using hmem)]
      obtain ⟨e1, e2⟩ := takeWhile_ne_of_not_mem ':' X hmem
      rw [e1, e2]
      exact ⟨rfl, rfl⟩

/-- The values `10.0.0.1:8080` and `:8080` of the specification. -/
theorem parseRuleSpec_to_destination_witness :
    ((parseRuleSpec "-j DNAT --to-destination 10.0.0.1:8080".toList).toSource = "10.0.0.1".toList ∧
      (parseRuleSpec "-j DNAT --to-destination 10.0.0.1:8080".toList).toPort = "8080".toList) ∧
    ((parseRuleSpec "-j DNAT --to-destination :8080".toList).toSource = [] ∧
      (parseRuleSpec "-j DNAT --to-destination :8080".toList).toPort = "8080".toList) :=
  ⟨parseRuleSpec_to_destination "10.0.0.1:8080".toList (by decide),
   parseRuleSpec_to_destination ":8080".toList (by decide)⟩

/-! ### `index` on texts made of words -/

theorem isPrefixOf_before_space (pat : Str) (hpat : ' ' ∉ pat) :
    ∀ (u rest : Str), pat.isPrefixOf (u ++ ' ' :: rest) = true → pat.isPrefixOf u = true := by
  induction pat with
  | nil => intro u rest _; simp
  | cons a pat ih =>
    intro u rest h
    have ha : a ≠ ' ' := fun e => hpat (by simp [e])
    cases u with
    | nil =>
      simp only [List.nil_append, List.isPrefixOf, Bool.and_eq_true, beq_iff_eq] at h
      exact absurd h.1 ha
    | cons c u =>
      simp only [List.cons_append, List.isPrefixOf, Bool.and_eq_true, beq_iff_eq] at h ⊢
      exact ⟨h.1, ih (fun hm => hpat (List.mem_cons_of_mem _ hm)) u rest h.2⟩

theorem index_cons_none (pat : Str) (c : Char) (t : Str) (h : index (c :: t) pat = none) :
    pat.isPrefixOf (c :: t) = false ∧ index t pat = none := by
  rw [index] at h
  by_cases hp : pat.isPrefixOf (c :: t) = true
  · rw [if_pos hp] at h; exact Option.noConfusion h
  · rw [if_neg hp] at h
    refine ⟨Bool.eq_false_iff.mpr hp, ?_⟩
    cases hi : index t pat with
    | none => rfl
    | some n => rw [hi] at h; exact Option.noConfusion h

theorem index_word (pat : Str) (hpat : ' ' ∉ pat) (hne : pat ≠ []) (rest : Str) :
    ∀ t : Str, index t pat = none →
      index (t ++ ' ' :: rest) pat = (index rest pat).map (· + (t.length + 1)) := by
  intro t
  induction t with
  | nil =>
    intro _
    rw [List.nil_append, index]
    have : pat.isPrefixOf (' ' :: rest) = false := by
      cases pat with
      | nil => exact absurd rfl hne
      | cons a pat =>
        have ha : a ≠ ' ' := fun e => hpat (by simp [e])
        simp [List.isPrefixOf, ha]
    rw [if_neg (by rw [this]; decide)]
    simp
  | cons c t ih =>
    intro h
    obtain ⟨h1, h2⟩ := index_cons_none pat c t h
    have hnp : ¬ pat.isPrefixOf (c :: (t ++ ' ' :: rest)) = true := by
      intro hp
      have := isPrefixOf_before_space pat hpat (c :: t) rest hp
      rw [h1] at this
      exact Bool.noConfusion this
    rw [List.cons_append, index, if_neg hnp, ih h2, Option.map_map]
    rfl

theorem index_spaced (pat : Str) (hpat : ' ' ∉ pat) (hne : pat ≠ []) (rest : Str) :
    ∀ toks : List Str, (∀ t ∈ toks, index t pat = none) →
      index (spaced toks ++ rest) pat = (index rest pat).map (· + (spaced toks).length) := by
  intro toks
  induction toks with
  | nil => intro _; simp [spaced]
  | cons t toks ih =>
    intro h
    have e : spaced (t :: toks) ++ rest = t ++ ' ' :: (spaced toks ++ rest) := by
      simp [spaced]
    rw [e, index_word pat hpat hne _ t (h t (List.mem_cons_self _ _)),
      ih (fun u hu => h u (List.mem_cons_of_mem _ hu)), Option.map_map]
    congr 1
    funext n
    simp only [Function.comp, spaced, List.length_append, List.length_cons]
    omega

/-! ### The decoding loop on argument groups -/

theorem loop_pair (t v : Str) (rest : List Str) (p p' : Projection)
    (h : applyOption t v p = some p') :
    parseRuleSpecLoop (t :: v :: rest) p = parseRuleSpecLoop rest p' := by
  rw [parseRuleSpecLoop, h]

theorem loop_skip (t : Str) (rest : List Str) (p : Projection)
    (h : ∀ v, applyOption t v p = none) :
    parseRuleSpecLoop (t :: rest) p = parseRuleSpecLoop rest p := by
  cases rest with
  | nil => rw [parseRuleSpecLoop, parseRuleSpecLoop]
  | cons v rest => rw [parseRuleSpecLoop, h v]

theorem loop_group (c : Prop) [Decidable c] (t v : Str) (rest : List Str) (p p' : Projection)
    (h1 : c → applyOption t v p = some p') (h2 : ¬ c → p' = p) :
    parseRuleSpecLoop (emitIf c [t, v] ++ rest) p = parseRuleSpecLoop rest p' := by
  unfold emitIf
  by_cases hc : c
  · rw [if_pos hc]
    exact loop_pair t v rest p p' (h1 hc)
  · rw [if_neg hc, h2 hc]
    rfl

theorem applyOption_none (t : Str) (p : Projection)
    (h : t ∉ ["-p".toList, "-s".toList, "--sport".toList, "--source-port".toList, "-d".toList,
      "--dport".toList, "--destination-port".toList, "-j".toList, "-i".toList,
      "--ctstate".toList, "--to-destination".toList, "--to-source".toList,
      "--to-ports".toList]) :
    ∀ v, applyOption t v p = none := by
  intro v
  simp only [List.mem_cons, List.mem_singleton, List.not_mem_nil, or_false, not_or] at h
  obtain ⟨h1, h2, h3, h4, h5, h6, h7, h8, h9, h10, h11, h12, h13⟩ := h
  unfold applyOption
  rw [if_neg h1, if_neg h2, if_neg (not_or.mpr ⟨h3, h4⟩), if_neg h5,
    if_neg (not_or.mpr ⟨h6, h7⟩), if_neg h8, if_neg h9, if_neg h10, if_neg h11, if_neg h12,
    if_neg h13]

theorem loop_group4 (c : Prop) [Decidable c] (w t v : Str) (rest : List Str)
    (p p' : Projection) (hw : ∀ x, applyOption w x p = none)
    (h1 : c → applyOption t v p = some p') (h2 : ¬ c → p' = p) :
    parseRuleSpecLoop (emitIf c ["-m".toList, w, t, v] ++ rest) p = parseRuleSpecLoop rest p' := by
  unfold emitIf
  by_cases hc : c
  · rw [if_pos hc]
    simp only [List.cons_append, List.nil_append]
    rw [loop_skip _ _ p (applyOption_none _ p (by decide)), loop_skip _ _ p hw]
    exact loop_pair t v rest p p' (h1 hc)
  · rw [if_neg hc, h2 hc]
    rfl

theorem loop_comment (c : Prop) [Decidable c] (v : Str) (p : Projection) :
    parseRuleSpecLoop (emitIf c ["-m".toList, "comment".toList, "--comment".toList, v]) p = p := by
  unfold emitIf
  by_cases hc : c
  · rw [if_pos hc, loop_skip _ _ p (applyOption_none _ p (by decide)),
      loop_skip _ _ p (applyOption_none _ p (by decide)),
      loop_skip _ _ p (applyOption_none _ p (by decide))]
    rfl
  · rw [if_neg hc]
    rfl

/-! ### Decoding an encoding -/

theorem encodeSpec_core (r : RuleInput) (h : Decodable r) :
    encodeSpec r = coreArgs r ++
      emitIf (r.Comment ≠ []) ["-m".toList, "comment".toList, "--comment".toList, r.Comment] := by
  obtain ⟨h1, h2, h3⟩ := h.action
  unfold encodeSpec coreArgs
  have e1 : emitIf (r.Action = "DNAT".toList ∧ (r.ToSource ≠ [] ∨ r.ToPort ≠ []))
      ["--to-destination".toList,
        r.ToSource ++ (if r.ToPort ≠ [] then ":".toList ++ r.ToPort else [])] = [] := by
    unfold emitIf
    rw [if_neg (fun hx => h1 hx.1)]
  have e2 : emitIf (r.Action = "SNAT".toList ∧ r.ToSource ≠ [])
      ["--to-source".toList, r.ToSource] = [] := by
    unfold emitIf
    rw [if_neg (fun hx => h2 hx.1)]
  have e3 : emitIf (r.Action = "REDIRECT".toList ∧ r.ToPort ≠ [])
      ["--to-ports".toList, r.ToPort] = [] := by
    unfold emitIf
    rw [if_neg (fun hx => h3 hx.1)]
  rw [e1, e2, e3]
  simp only [List.append_nil, List.append_assoc]

theorem forall_emitIf (P : Str → Prop) (c : Prop) [Decidable c] (seg : List Str)
    (h : c → ∀ t ∈ seg, P t) : ∀ t ∈ emitIf c seg, P t := by
  intro t ht
  unfold emitIf at ht
  by_cases hc : c
  · rw [if_pos hc] at ht
    exact h hc t ht
  · rw [if_neg hc] at ht
    exact absurd ht (List.not_mem_nil _)

theorem join_state_ne_nil (st : List Str) (h0 : st ≠ []) (h1 : st ≠ [[]]) :
    join st ",".toList ≠ [] := by
  unfold join
  rcases st with _ | ⟨a, _ | ⟨b, rest⟩⟩
  · exact absurd rfl h0
  · have : a ≠ [] := fun e => h1 (by rw [e])
    simpa [List.intercalate] using this
  · rw [intercalate_cons_cons]
    simp

theorem coreArgs_words (r : RuleInput) (h : Decodable r) :
    ∀ t ∈ coreArgs r, isWord t ∧ index t "--comment".toList = none := by
  have hv : ∀ v ∈ [r.Protocol, r.SourceIP, r.SourcePort, r.DestIP, r.DestPort,
      join r.State ",".toList, r.Interface, r.Action], v ≠ [] →
      isWord v ∧ index v "--comment".toList = none := by
    intro v hv hne
    exact ⟨⟨hne, h.words v (by
      simp only [List.mem_cons, List.mem_singleton, List.not_mem_nil, or_false] at hv ⊢
      tauto)⟩, h.plain v hv⟩
  have hl : ∀ l ∈ ["-p".toList, "-s".toList, "--sport".toList, "-d".toList, "--dport".toList,
      "-m".toList, "conntrack".toList, "--ctstate".toList, "-i".toList, "-j".toList],
      isWord l ∧ index l "--comment".toList = none := by
    intro l hl
    simp only [List.mem_cons, List.mem_singleton, List.not_mem_nil, or_false] at hl
    rcases hl with h | h | h | h | h | h | h | h | h | h <;> subst h <;>
      exact ⟨⟨by decide, by decide⟩, by decide⟩
  intro t ht
  unfold coreArgs at ht
  simp only [List.mem_append] at ht
  rcases ht with ht | ht | ht | ht | ht | ht | ht | ht
  · refine forall_emitIf (fun x => isWord x ∧ index x "--comment".toList = none) _ _
      (fun hc u hu => ?_) t ht
    simp only [List.mem_cons, List.mem_singleton, List.not_mem_nil, or_false] at hu
    rcases hu with e | e
    · exact e ▸ hl _ (by simp)
    · exact e ▸ hv _ (by simp) hc.1
  · refine forall_emitIf (fun x => isWord x ∧ index x "--comment".toList = none) _ _
      (fun hc u hu => ?_) t ht
    simp only [List.mem_cons, List.mem_singleton, List.not_mem_nil, or_false] at hu
    rcases hu with e | e
    · exact e ▸ hl _ (by simp)
    · exact e ▸ hv _ (by simp) hc
  · refine forall_emitIf (fun x => isWord x ∧ index x "--comment".toList = none) _ _
      (fun hc u hu => ?_) t ht
    simp only [List.mem_cons, List.mem_singleton, List.not_mem_nil, or_false] at hu
    rcases hu with e | e
    · exact e ▸ hl _ (by simp)
    · exact e ▸ hv _ (by simp) hc.1
  · refine forall_emitIf (fun x => isWord x ∧ index x "--comment".toList = none) _ _
      (fun hc u hu => ?_) t ht
    simp only [List.mem_cons, List.mem_singleton, List.not_mem_nil, or_false] at hu
    rcases hu with e | e
    · exact e ▸ hl _ (by simp)
    · exact e ▸ hv _ (by simp) hc
  · refine forall_emitIf (fun x => isWord x ∧ index x "--comment".toList = none) _ _
      (fun hc u hu => ?_) t ht
    simp only [List.mem_cons, List.mem_singleton, List.not_mem_nil, or_false] at hu
    rcases hu with e | e
    · exact e ▸ hl _ (by simp)
    · exact e ▸ hv _ (by simp) hc.1
  · refine forall_emitIf (fun x => isWord x ∧ index x "--comment".toList = none) _ _
      (fun hc u hu => ?_) t ht
    simp only [List.mem_cons, List.mem_singleton, List.not_mem_nil, or_false] at hu
    rcases hu with e | e | e | e
    · exact e ▸ hl _ (by simp)
    · exact e ▸ hl _ (by simp)
    · exact e ▸ hl _ (by simp)
    · exact e ▸ hv _ (by simp) (join_state_ne_nil _ hc h.state.1)
  · refine forall_emitIf (fun x => isWord x ∧ index x "--comment".toList = none) _ _
      (fun hc u hu => ?_) t ht
    simp only [List.mem_cons, List.mem_singleton, List.not_mem_nil, or_false] at hu
    rcases hu with e | e
    · exact e ▸ hl _ (by simp)
    · exact e ▸ hv _ (by simp) hc
  · refine forall_emitIf (fun x => isWord x ∧ index x "--comment".toList = none) _ _
      (fun hc u hu => ?_) t ht
    simp only [List.mem_cons, List.mem_singleton, List.not_mem_nil, or_false] at hu
    rcases hu with e | e
    · exact e ▸ hl _ (by simp)
    · exact e ▸ hv _ (by simp) hc

theorem fields_join_words (toks : List Str) (h : ∀ t ∈ toks, isWord t) :
    fields (join toks " ".toList) = toks := by
  rcases List.eq_nil_or_concat toks with e | ⟨init, last, e⟩
  · subst e
    rfl
  · subst e
    rw [List.concat_eq_append] at h ⊢
    have hl := h last (by simp)
    rw [join_concat_space, fields_spaced init last
      (fun t ht => h t (by simp [ht])) hl.2, if_neg hl.1]

theorem loop_encode (r : RuleInput) (h : Decodable r) :
    parseRuleSpecLoop (coreArgs r ++
        emitIf (r.Comment ≠ []) ["-m".toList, "comment".toList, "--comment".toList, r.Comment]) {}
      = { protocol := if r.Protocol = "all".toList then [] else r.Protocol
          sourceIP := r.SourceIP
          sourcePort := r.SourcePort
          destIP := r.DestIP
          destPort := r.DestPort
          action := r.Action
          iface := r.Interface
          state := r.State } := by
  have hP := h.protocol
  have hports := h.ports
  unfold coreArgs
  simp only [List.append_assoc]
  rw [loop_group _ "-p".toList r.Protocol _ {}
    { protocol := if r.Protocol = "all".toList then [] else r.Protocol }
    (fun hc => by
      rw [if_neg hc.2]
      simp [applyOption])
    (fun hc => by
      have : r.Protocol = "all".toList := by
        by_contra hne
        exact hc ⟨hP, hne⟩
      rw [if_pos this])]
  rw [loop_group _ "-s".toList r.SourceIP _ _
    { protocol := if r.Protocol = "all".toList then [] else r.Protocol
      sourceIP := r.SourceIP }
    (fun hc => by simp [applyOption])
    (fun hc => by
      have : r.SourceIP = [] := by simpa using hc
      rw [this])]
  rw [loop_group _ "--sport".toList r.SourcePort _ _
    { protocol := if r.Protocol = "all".toList then [] else r.Protocol
      sourceIP := r.SourceIP
      sourcePort := r.SourcePort }
    (fun hc => by simp [applyOption])
    (fun hc => by
      have : r.SourcePort = [] := by
        by_cases hall : r.Protocol = "all".toList
        · exact (hports hall).1
        · by_contra hne
          exact hc ⟨hne, hP, hall⟩
      rw [this])]
  rw [loop_group _ "-d".toList r.DestIP _ _
    { protocol := if r.Protocol = "all".toList then [] else r.Protocol
      sourceIP := r.SourceIP
      sourcePort := r.SourcePort
      destIP := r.DestIP }
    (fun hc => by simp [applyOption])
    (fun hc => by
      have : r.DestIP = [] := by simpa using hc
      rw [this])]
  rw [loop_group _ "--dport".toList r.DestPort _ _
    { protocol := if r.Protocol = "all".toList then [] else r.Protocol
      sourceIP := r.SourceIP
      sourcePort := r.SourcePort
      destIP := r.DestIP
      destPort := r.DestPort }
    (fun hc => by simp [applyOption])
    (fun hc => by
      have : r.DestPort = [] := by
        by_cases hall : r.Protocol = "all".toList
        · exact (hports hall).2
        · by_contra hne
          exact hc ⟨hne, hP, hall⟩
      rw [this])]
  rw [loop_group4 _ "conntrack".toList "--ctstate".toList (join r.State ",".toList) _ _
    { protocol := if r.Protocol = "all".toList then [] else r.Protocol
      sourceIP := r.SourceIP
      sourcePort := r.SourcePort
      destIP := r.DestIP
      destPort := r.DestPort
      state := r.State }
    (applyOption_none _ _ (by decide))
    (fun hc => by
      have := split_join ',' r.State hc h.state.2
      simp [applyOption, this])
    (fun hc => by
      have : r.State = [] := by simpa using hc
      rw [this])]
  rw [loop_group _ "-i".toList r.Interface _ _
    { protocol := if r.Protocol = "all".toList then [] else r.Protocol
      sourceIP := r.SourceIP
      sourcePort := r.SourcePort
      destIP := r.DestIP
      destPort := r.DestPort
      state := r.State
      iface := r.Interface }
    (fun hc => by simp [applyOption])
    (fun hc => by
      have : r.Interface = [] := by simpa using hc
      rw [this])]
  rw [loop_group _ "-j".toList r.Action _ _
    { protocol := if r.Protocol = "all".toList then [] else r.Protocol
      sourceIP := r.SourceIP
      sourcePort := r.SourcePort
      destIP := r.DestIP
      destPort := r.DestPort
      state := r.State
      iface := r.Interface
      action := r.Action }
    (fun hc => by simp [applyOption])
    (fun hc => by
      have : r.Action = [] := by simpa using hc
      rw [this])]
  exact loop_comment _ _ _

theorem spaced_append (a b : List Str) : spaced (a ++ b) = spaced a ++ spaced b := by
  induction a with
  | nil => rfl
  | cons t a ih => simp [spaced, ih]

theorem index_join_none (pat : Str) (hpat : ' ' ∉ pat) (hne : pat ≠ []) (toks : List Str)
    (h : ∀ t ∈ toks, index t pat = none) : index (join toks " ".toList) pat = none := by
  rcases List.eq_nil_or_concat toks with e | ⟨init, last, e⟩
  · subst e
    simp [join, List.intercalate, index, hne]
  · subst e
    rw [List.concat_eq_append] at h ⊢
    rw [join_concat_space, index_spaced pat hpat hne last init (fun t ht => h t (by simp [ht])),
      h last (by simp)]
    rfl

theorem dropWhile_eq_self (p : Char → Bool) (l : Str) (h : ∀ c ∈ l, p c = false) :
    l.dropWhile p = l := by
  cases l with
  | nil => rfl
  | cons a t => rw [List.dropWhile_cons_of_neg (by rw [h a (List.mem_cons_self _ _)]; decide)]

theorem trimSpace_space_word (w : Str) (h : ∀ c ∈ w, isSpace c = false) :
    trimSpace (' ' :: w) = w := by
  unfold trimSpace
  rw [List.dropWhile_cons_of_pos (by decide), dropWhile_eq_self isSpace w h,
    dropWhile_eq_self isSpace w.reverse (fun c hc => h c (List.mem_reverse.1 hc)),
    List.reverse_reverse]

theorem parseComment_encode (r : RuleInput) (h : Decodable r) :
    parseComment (join (coreArgs r ++
        emitIf (r.Comment ≠ []) ["-m".toList, "comment".toList, "--comment".toList, r.Comment])
      " ".toList) = r.Comment := by
  have hpat : ' ' ∉ "--comment".toList := by decide
  have hne : "--comment".toList ≠ [] := by decide
  have hcore := coreArgs_words r h
  by_cases hC : r.Comment = []
  · have e : emitIf (r.Comment ≠ [])
        ["-m".toList, "comment".toList, "--comment".toList, r.Comment] = [] := by
      unfold emitIf
      rw [if_neg (by simpa using hC)]
    rw [e, List.append_nil]
    unfold parseComment
    rw [index_join_none _ hpat hne _ (fun t ht => (hcore t ht).2), hC]
  · have e : coreArgs r ++ emitIf (r.Comment ≠ [])
        ["-m".toList, "comment".toList, "--comment".toList, r.Comment]
        = (coreArgs r ++ ["-m".toList, "comment".toList] ++ ["--comment".toList]) ++ [r.Comment] := by
      unfold emitIf
      rw [if_pos hC]
      simp
    have hw : ∀ c ∈ r.Comment, isSpace c = false := h.words r.Comment (by simp)
    have hidx : index (spaced (coreArgs r ++ ["-m".toList, "comment".toList])
        ++ ("--comment".toList ++ ' ' :: r.Comment)) "--comment".toList
        = some (spaced (coreArgs r ++ ["-m".toList, "comment".toList])).length := by
      rw [index_spaced _ hpat hne]
      · have : index ("--comment".toList ++ ' ' :: r.Comment) "--comment".toList = some 0 := by
          simp [index, List.isPrefixOf]
        rw [this]
        simp
      · intro t ht
        rcases List.mem_append.1 ht with ht | ht
        · exact (hcore t ht).2
        · simp only [List.mem_cons, List.mem_singleton, List.not_mem_nil, or_false] at ht
          rcases ht with e | e <;> subst e <;> decide
    have hsp : spaced (coreArgs r ++ ["-m".toList, "comment".toList] ++ ["--comment".toList])
        ++ r.Comment
        = spaced (coreArgs r ++ ["-m".toList, "comment".toList])
          ++ ("--comment".toList ++ ' ' :: r.Comment) := by
      rw [spaced_append]
      simp [spaced]
    rw [e, join_concat_space, hsp]
    unfold parseComment
    rw [hidx]
    simp only []
    have hdrop : (spaced (coreArgs r ++ ["-m".toList, "comment".toList])
        ++ ("--comment".toList ++ ' ' :: r.Comment)).drop
          ((spaced (coreArgs r ++ ["-m".toList, "comment".toList])).length
            + "--comment".toList.length) = ' ' :: r.Comment := by
      rw [← List.append_assoc, List.drop_append_eq_append_drop]
      simp
    rw [hdrop, trimSpace_space_word _ hw]
    rcases hcm : r.Comment with _ | ⟨c, rest⟩
    · exact absurd hcm hC
    · have hq := h.quote
      rw [hcm] at hq hw
      simp only [List.head?_cons, ne_eq, Option.some.injEq] at hq
      simp only []
      rw [if_neg (by rw [not_or]; exact hq)]
      have hf := fields_spaced [] (c :: rest) (by simp) hw
      simp only [spaced, List.nil_append, if_neg (List.cons_ne_nil c rest)] at hf
      rw [hf]

/-- C2, as the claim states it, fails: the rule with no field set (its action
is no NAT target, its comment holds no white space) has the empty protocol,
and decoding its encoding gives protocol `all`. -/
theorem decode_encode_empty_rule :
    (({} : RuleInput).Action ≠ "DNAT".toList ∧ ({} : RuleInput).Action ≠ "SNAT".toList ∧
      ({} : RuleInput).Action ≠ "REDIRECT".toList ∧
      (∀ c ∈ ({} : RuleInput).Comment, isSpace c = false)) ∧
    (parseRuleSpec (join (buildIptablesArgs {}) " ".toList)).protocol = "all".toList ∧
    (parseRuleSpec (join (buildIptablesArgs {}) " ".toList)).protocol
      ≠ ({} : RuleInput).Protocol := by
  decide

/-- Rules outside `Decodable` that are not read back: a port with protocol
`all` is not encoded, a value with a blank is cut, a value that holds
`--comment` is taken for the comment, an empty state name or one with a comma
changes the state list, and a quote that starts the comment is dropped. -/
theorem decode_encode_limits :
    (parseRuleSpec (join (buildIptablesArgs
      { Protocol := "all".toList, DestPort := "80".toList, Action := "ACCEPT".toList })
      " ".toList)).destPort = [] ∧
    (parseRuleSpec (join (buildIptablesArgs
      { Protocol := "tcp".toList, SourceIP := "a b".toList }) " ".toList)).sourceIP = "a".toList ∧
    parseComment (join (buildIptablesArgs
      { Protocol := "tcp".toList, Interface := "--commentfoo".toList }) " ".toList)
      = "foo".toList ∧
    (parseRuleSpec (join (buildIptablesArgs
      { Protocol := "tcp".toList, State := [[]], Action := "ACCEPT".toList })
      " ".toList)).state = ["-j".toList] ∧
    (parseRuleSpec (join (buildIptablesArgs
      { Protocol := "tcp".toList, State := ["a,b".toList] }) " ".toList)).state
      = ["a".toList, "b".toList] ∧
    parseComment (join (buildIptablesArgs
      { Protocol := "tcp".toList, Comment := [dquote, 'x'] }) " ".toList) = "x".toList := by
  decide

/-- C2, amended: for every structured rule that is `Decodable`, decoding the
encoding (`parseRuleSpec` and `parseComment` on the space-joined output of
`buildIptablesArgs`) gives back the protocol, source address, source port,
destination address, destination port, interface, state list, action and
comment of the rule. -/
theorem decode_encode (r : RuleInput) (h : Decodable r) :
    (parseRuleSpec (join (buildIptablesArgs r) " ".toList)).protocol = r.Protocol ∧
    (parseRuleSpec (join (buildIptablesArgs r) " ".toList)).sourceIP = r.SourceIP ∧
    (parseRuleSpec (join (buildIptablesArgs r) " ".toList)).sourcePort = r.SourcePort ∧
    (parseRuleSpec (join (buildIptablesArgs r) " ".toList)).destIP = r.DestIP ∧
    (parseRuleSpec (join (buildIptablesArgs r) " ".toList)).destPort = r.DestPort ∧
    (parseRuleSpec (join (buildIptablesArgs r) " ".toList)).iface = r.Interface ∧
    (parseRuleSpec (join (buildIptablesArgs r) " ".toList)).state = r.State ∧
    (parseRuleSpec (join (buildIptablesArgs r) " ".toList)).action = r.Action ∧
    parseComment (join (buildIptablesArgs r) " ".toList) = r.Comment := by
  rw [buildIptablesArgs_spec, encodeSpec_core r h]
  have hwords : ∀ t ∈ coreArgs r ++ emitIf (r.Comment ≠ [])
      ["-m".toList, "comment".toList, "--comment".toList, r.Comment], isWord t := by
    intro t ht
    rcases List.mem_append.1 ht with ht | ht
    · exact (coreArgs_words r h t ht).1
    · refine forall_emitIf isWord _ _ (fun hc u hu => ?_) t ht
      simp only [List.mem_cons, List.mem_singleton, List.not_mem_nil, or_false] at hu
      rcases hu with e | e | e | e
      · subst e; exact ⟨by decide, by decide⟩
      · subst e; exact ⟨by decide, by decide⟩
      · subst e; exact ⟨by decide, by decide⟩
      · subst e; exact ⟨hc, h.words r.Comment (by simp)⟩
  refine ⟨?_, ?_, ?_, ?_, ?_, ?_, ?_, ?_, parseComment_encode r h⟩
  all_goals
    unfold parseRuleSpec
    simp only []
    rw [fields_join_words _ hwords, loop_encode r h]
    by_cases hall : r.Protocol = "all".toList
    · rw [if_pos hall, if_pos rfl]
      all_goals exact hall.symm
    · rw [if_neg hall, if_neg h.protocol]

/-- The round trip of `sampleRule`. -/
theorem decode_encode_witness :
    (parseRuleSpec (join (buildIptablesArgs sampleRule) " ".toList)).protocol = sampleRule.Protocol ∧
    (parseRuleSpec (join (buildIptablesArgs sampleRule) " ".toList)).sourceIP = sampleRule.SourceIP ∧
    (parseRuleSpec (join (buildIptablesArgs sampleRule) " ".toList)).sourcePort
      = sampleRule.SourcePort ∧
    (parseRuleSpec (join (buildIptablesArgs sampleRule) " ".toList)).destIP = sampleRule.DestIP ∧
    (parseRuleSpec (join (buildIptablesArgs sampleRule) " ".toList)).destPort = sampleRule.DestPort ∧
    (parseRuleSpec (join (buildIptablesArgs sampleRule) " ".toList)).iface = sampleRule.Interface ∧
    (parseRuleSpec (join (buildIptablesArgs sampleRule) " ".toList)).state = sampleRule.State ∧
    (parseRuleSpec (join (buildIptablesArgs sampleRule) " ".toList)).action = sampleRule.Action ∧
    parseComment (join (buildIptablesArgs sampleRule) " ".toList) = sampleRule.Comment :=
  decode_encode sampleRule
    ⟨by decide, by decide, by decide, by decide, by decide, by decide, by decide⟩

/-! ### The comment of a rule -/


theorem isPrefixOf_comment_append (u v : Str)
    (h : ("--comment".toList).isPrefixOf (u ++ "--comment".toList ++ v) = true) :
    u = [] ∨ ("--comment".toList).isPrefixOf u = true := by
  have hp : ("--comment".toList : Str) = ['-', '-', 'c', 'o', 'm', 'm', 'e', 'n', 't'] := rfl
  rw [hp] at h ⊢
  rcases u with _ | ⟨a1, _ | ⟨a2, _ | ⟨a3, _ | ⟨a4, _ | ⟨a5, _ | ⟨a6, _ | ⟨a7, _ | ⟨a8, _ | ⟨a9, u⟩⟩⟩⟩⟩⟩⟩⟩⟩
  · exact Or.inl rfl
  all_goals
    right
    simp [List.isPrefixOf] at h ⊢
  · exact h

theorem index_comment_append (u v : Str) (h : index u "--comment".toList = none) :
    index (u ++ "--comment".toList ++ v) "--comment".toList = some u.length := by
  induction u with
  | nil =>
    have hp : ("--comment".toList : Str) = '-' :: "-comment".toList := rfl
    have : ("--comment".toList).isPrefixOf ("--comment".toList ++ v) = true := by
      simp
    rw [List.nil_append, hp, List.cons_append, index, ← hp, ← List.cons_append, ← hp, if_pos this]
    rfl
  | cons a u ih =>
    rw [index] at h
    by_cases hpre : ("--comment".toList).isPrefixOf (a :: u) = true
    · rw [if_pos hpre] at h; cases h
    · rw [if_neg hpre] at h
      have hu : index u "--comment".toList = none := by
        cases hi : index u "--comment".toList with
        | none => rfl
        | some k => rw [hi] at h; cases h
      have hnot : ¬ ("--comment".toList).isPrefixOf (a :: u ++ "--comment".toList ++ v) = true := by
        intro hc
        rcases isPrefixOf_comment_append (a :: u) v hc with h0 | h0
        · cases h0
        · exact hpre h0
      rw [List.cons_append, List.cons_append, index, ← List.cons_append, ← List.cons_append,
        if_neg hnot, ih hu]
      rfl

theorem dropWhile_append_stop {α : Type} (p : α → Bool) (a : List α) (b : α) (t : List α)
    (hb : p b = false) :
    (a ++ b :: t).dropWhile p = a.dropWhile p ++ b :: t := by
  induction a with
  | nil => simp [List.dropWhile, hb]
  | cons x xs ih =>
    by_cases hx : p x = true
    · simp [List.dropWhile, hx, ih]
    · simp [List.dropWhile, hx]

theorem indexByte_append (c : Str) (q : Char) (t : Str) (h : q ∉ c) :
    indexByte (c ++ q :: t) q = some c.length := by
  induction c with
  | nil => simp [indexByte]
  | cons x xs ih =>
    have hx : x ≠ q := fun e => h (by simp [e])
    have hxs : q ∉ xs := fun e => h (by simp [e])
    simp [indexByte, hx, ih hxs]

/-- The text after the option: a blank, the opening quote, the comment, the
closing quote and what follows. -/
theorem trimSpace_quoted (c rest : Str) :
    ∃ rest', trimSpace (' ' :: dquote :: (c ++ dquote :: rest)) = dquote :: (c ++ dquote :: rest') := by
  have hq : isSpace dquote = false := by decide
  have h1 : (' ' :: dquote :: (c ++ dquote :: rest)).dropWhile isSpace
      = dquote :: (c ++ dquote :: rest) := by
    rw [List.dropWhile_cons_of_pos (by decide), List.dropWhile_cons_of_neg (by simp [hq])]
  have h2 : (dquote :: (c ++ dquote :: rest)).reverse
      = rest.reverse ++ dquote :: (dquote :: c).reverse := by
    simp
  refine ⟨(rest.reverse.dropWhile isSpace).reverse, ?_⟩
  rw [trimSpace, h1, h2, dropWhile_append_stop isSpace _ _ _ hq]
  simp

theorem parseComment_quoted_aux (pre c rest : Str)
    (hpre : index pre "--comment".toList = none) (hc : dquote ∉ c) :
    parseComment (pre ++ "--comment".toList ++ (' ' :: dquote :: (c ++ dquote :: rest))) = c := by
  obtain ⟨rest', hr⟩ := trimSpace_quoted c rest
  have hd : (pre ++ "--comment".toList ++ (' ' :: dquote :: (c ++ dquote :: rest))).drop
      (pre.length + "--comment".toList.length) = ' ' :: dquote :: (c ++ dquote :: rest) := by
    rw [← List.length_append]; exact List.drop_left _ _
  unfold parseComment
  rw [index_comment_append pre _ hpre]
  simp only []
  rw [hd, hr]
  simp only []
  rw [if_pos (Or.inl trivial), indexByte_append c dquote rest' hc]
  simp

/-- C11: for every comment text `c` without a double quote (spaces allowed,
`c` may be empty), every spec prefix that does not contain the text
`--comment` and every further text `rest`, `parseComment` applied to the
prefix followed by `--comment "c"` and by `rest` returns exactly `c`. -/
theorem parseComment_quoted (pre c rest : Str)
    (hpre : contains pre "--comment".toList = false) (hc : dquote ∉ c) :
    parseComment (pre ++ "--comment ".toList ++ [dquote] ++ c ++ [dquote] ++ rest) = c := by
  have hi : index pre "--comment".toList = none := by
    unfold contains at hpre
    cases h : index pre "--comment".toList with
    | none => rfl
    | some k => rw [h] at hpre; cases hpre
  have hs : pre ++ "--comment ".toList ++ [dquote] ++ c ++ [dquote] ++ rest
      = pre ++ "--comment".toList ++ (' ' :: dquote :: (c ++ dquote :: rest)) := by
    rw [show "--comment ".toList = "--comment".toList ++ [' '] from rfl]
    simp
  rw [hs]
  exact parseComment_quoted_aux pre c rest hi hc

/-- A comment with embedded spaces between other options is recovered. -/
theorem parseComment_quoted_witness :
    parseComment ("-p tcp -m comment ".toList ++ "--comment ".toList ++ [dquote]
      ++ "allow web".toList ++ [dquote] ++ " -j ACCEPT".toList) = "allow web".toList :=
  parseComment_quoted "-p tcp -m comment ".toList "allow web".toList " -j ACCEPT".toList
    (by decide) (by decide)

/-! ### Rule lines without a known option -/

theorem contains_iff_substring (s p : Str) : contains s p = true ↔ p <:+: s := by
  unfold contains
  induction s with
  | nil =>
    rw [index]
    by_cases hp : p = [] <;> simp [hp]
  | cons c cs ih =>
    rw [index]
    by_cases h : p.isPrefixOf (c :: cs) = true
    · rw [if_pos h]
      simp only [Option.isSome_some, true_iff]
      exact (List.isPrefixOf_iff_prefix.1 h).isInfix
    · have hm : (Option.map (fun x => x + 1) (index cs p)).isSome = (index cs p).isSome := by
        cases index cs p <;> rfl
      rw [if_neg h, hm, ih, List.infix_cons_iff]
      constructor
      · intro h'; exact Or.inr h'
      · rintro (h' | h')
        · exact absurd (List.isPrefixOf_iff_prefix.2 h') h
        · exact h'

theorem infix_map_dropWhile (lower : Char → Char) (hlower : ∀ c, isSpace c = true → lower c = c)
    (p : Str) (hp : p.head?.map isSpace = some false) (l : Str) :
    p <:+: (l.dropWhile isSpace).map lower ↔ p <:+: l.map lower := by
  induction l with
  | nil => rfl
  | cons x t ih =>
    by_cases hx : isSpace x = true
    · rw [List.dropWhile_cons_of_pos hx, ih, List.map_cons, List.infix_cons_iff]
      constructor
      · intro h; exact Or.inr h
      · rintro (h | h)
        · exfalso
          obtain ⟨r, hr⟩ := h
          rcases p with _ | ⟨a, p'⟩
          · cases hp
          · simp only [List.cons_append, List.cons.injEq] at hr
            rw [hlower x hx] at hr
            simp only [List.head?_cons, Option.map_some', Option.some.injEq] at hp
            rw [hr.1, hx] at hp
            cases hp
        · exact h
    · rw [List.dropWhile_cons_of_neg hx]

theorem contains_toLower_trimSpace (lower : Char → Char)
    (hlower : ∀ c, isSpace c = true → lower c = c) (p : Str)
    (hp : p.head?.map isSpace = some false ∧ p.getLast?.map isSpace = some false) (e : Str) :
    contains (toLower lower (trimSpace e)) p = contains (toLower lower e) p := by
  rw [Bool.eq_iff_iff, contains_iff_substring, contains_iff_substring]
  unfold toLower trimSpace
  have hrev : p.reverse.head?.map isSpace = some false := by
    rw [List.head?_reverse]; exact hp.2
  rw [← List.reverse_infix, ← List.map_reverse, List.reverse_reverse,
    infix_map_dropWhile lower hlower p.reverse hrev, List.map_reverse, List.reverse_infix,
    infix_map_dropWhile lower hlower p hp.1]

/-- What `needsSudoPassword` answers: the lexicon of the specification, or the
pattern `sorry, you must have a tty`. -/
theorem needsSudoPassword_eq (lower : Char → Char)
    (hlower : ∀ c, isSpace c = true → lower c = c) (e : Str) :
    needsSudoPassword lower e
      = (needPasswordLexicon lower e ||
          contains (toLower lower e) "sorry, you must have a tty".toList) := by
  have key := fun p hp => contains_toLower_trimSpace lower hlower p hp e
  unfold needsSudoPassword needPasswordLexicon
  simp only [List.any_cons, List.any_nil, Bool.or_false]
  rw [← key "password is required".toList (by decide),
    ← key "a password is required".toList (by decide),
    ← key "sudo: a password is required".toList (by decide),
    ← key "password:".toList (by decide),
    ← key "sudo: password for".toList (by decide),
    ← key "authentication failure".toList (by decide),
    ← key "需要密码".toList (by decide),
    ← key "sudo:".toList (by decide),
    ← key "password".toList (by decide),
    ← key "需要".toList (by decide),
    ← key "sorry, you must have a tty".toList (by decide)]
  generalize toLower lower (trimSpace e) = t
  by_cases ht : t = []
  · subst ht; decide
  · rw [if_neg ht]
    generalize contains t "password is required".toList = b1
    generalize contains t "a password is required".toList = b2
    generalize contains t "sudo: a password is required".toList = b3
    generalize contains t "password:".toList = b4
    generalize contains t "sudo: password for".toList = b5
    generalize contains t "authentication failure".toList = b6
    generalize contains t "需要密码".toList = b7
    generalize contains t "sudo:".toList = b8
    generalize contains t "password".toList = b9
    generalize contains t "需要".toList = b10
    generalize contains t "sorry, you must have a tty".toList = b11
    cases b1 <;> cases b2 <;> cases b3 <;> cases b4 <;> cases b5 <;> cases b6 <;> cases b7 <;>
      cases b11 <;> simp

theorem asciiLower_space (c : Char) (h : isSpace c = true) : asciiLower c = c := by
  unfold asciiLower
  split
  · rename_i hc
    exfalso
    have hcn : Char.ofNat c.toNat = c := Char.ofNat_toNat c
    obtain ⟨h1, h2⟩ := hc
    rw [← hcn] at h
    generalize c.toNat = n at h h1 h2
    interval_cases n <;> revert h <;> decide
  · rfl

theorem toLower_ascii (lower : Char → Char)
    (hascii : ∀ c : Char, c.toNat < 128 → lower c = asciiLower c) (s : Str)
    (hs : ∀ c ∈ s, c.toNat < 128) : toLower lower s = toLower asciiLower s := by
  unfold toLower
  exact List.map_congr_left (fun c hc => hascii c (hs c hc))

theorem needsSudoPassword_ascii (lower : Char → Char)
    (hascii : ∀ c : Char, c.toNat < 128 → lower c = asciiLower c) (s : Str)
    (hs : ∀ c ∈ s, c.toNat < 128) :
    needsSudoPassword lower s = needsSudoPassword asciiLower s := by
  unfold needsSudoPassword
  rw [toLower_ascii lower hascii (trimSpace s) (fun c hc => hs c (trimSpace_subset s c hc))]

theorem looksLikeRequireTTY_ascii (lower : Char → Char)
    (hascii : ∀ c : Char, c.toNat < 128 → lower c = asciiLower c) (s : Str)
    (hs : ∀ c ∈ s, c.toNat < 128) :
    looksLikeRequireTTY lower s = looksLikeRequireTTY asciiLower s := by
  unfold looksLikeRequireTTY
  rw [toLower_ascii lower hascii s hs]

/-- A text that the code takes for a password prompt is in the need-password
lexicon of the specification or in its require-TTY lexicon. -/
theorem needsSudoPassword_lexicons (lower : Char → Char)
    (hlower : ∀ c, isSpace c = true → lower c = c) (e : Str)
    (h : needsSudoPassword lower e = true) :
    needPasswordLexicon lower e = true ∨ looksLikeRequireTTY lower e = true := by
  rw [needsSudoPassword_eq lower hlower, Bool.or_eq_true] at h
  rcases h with h | h
  · exact Or.inl h
  · right
    have h1 : "you must have a tty".toList <:+: toLower lower e :=
      List.IsInfix.trans ⟨"sorry, ".toList, [], rfl⟩ ((contains_iff_substring _ _).1 h)
    have h2 := (contains_iff_substring _ _).2 h1
    unfold looksLikeRequireTTY
    simp only [h2, Bool.or_true, Bool.true_or]

/-! ### The session runs of `lowLevelRun` -/

theorem lowLevelRun_code {W : Type} (R : Remote W) (hostIP : Str) (w : W) (cmd : Command)
    (h : (lowLevelRun R hostIP w cmd).1.Err = none) : (lowLevelRun R hostIP w cmd).1.Code = 0 := by
  unfold lowLevelRun at h ⊢
  simp only [] at h ⊢
  split at h
  · cases h
  · split at h
    · cases h
    · rename_i h1 _ _ h2
      simp only [h1, h2]
      simp only [] at h
      rw [h]
      rfl

theorem lowLevelRun_runs {W : Type} (R : Remote W) (hostIP : Str) (w : W) (cmd : Command) :
    ∀ sr ∈ (lowLevelRun R hostIP w cmd).2.1,
      sr = { line := runCmd cmd, pty := cmd.PTY, stdin := cmd.Stdin } := by
  unfold lowLevelRun
  simp only []
  split
  · intro sr h; cases h
  · split
    · intro sr h; cases h
    · intro sr h
      exact List.mem_singleton.1 h

/-! ### The sudo ladder -/

theorem sudoLadder_stop {W : Type} (lower : Char → Char) (R : Remote W) (hostIP : Str)
    (cap : Capabilities) (userPass : Str) (w : W) (cmd : Command)
    (h : (lowLevelRun R hostIP w (sudoFirst cmd)).1.Err = none ∨
      (cap.SudoNoPass = true ∧
        needsSudoPassword lower (lowLevelRun R hostIP w (sudoFirst cmd)).1.Stderr = false) ∨
      (needsSudoPassword lower (lowLevelRun R hostIP w (sudoFirst cmd)).1.Stderr = false ∧
        looksLikeRequireTTY lower (lowLevelRun R hostIP w (sudoFirst cmd)).1.Stderr = false ∧
        looksLikeSudoReadFromTTY lower (lowLevelRun R hostIP w (sudoFirst cmd)).1.Stderr
          = false)) :
    sudoLadder lower R hostIP cap userPass w cmd
      = ({ (lowLevelRun R hostIP w (sudoFirst cmd)).1 with Strategy := "sudo".toList },
         (lowLevelRun R hostIP w (sudoFirst cmd)).2.1,
         (lowLevelRun R hostIP w (sudoFirst cmd)).2.2) := by
  unfold sudoLadder
  simp only []
  rcases h with h | ⟨h1, h2⟩ | ⟨h1, h2, h3⟩
  · rw [if_pos (by rw [h]; rfl)]
  · split_ifs <;> first | rfl | simp_all
  · split_ifs <;> first | rfl | simp_all

theorem sudoLadder_retry {W : Type} (lower : Char → Char) (R : Remote W) (hostIP : Str)
    (cap : Capabilities) (userPass : Str) (w : W) (cmd : Command)
    (hfail : (lowLevelRun R hostIP w (sudoFirst cmd)).1.Err ≠ none)
    (hgo : ¬ (cap.SudoNoPass = true ∧
      needsSudoPassword lower (lowLevelRun R hostIP w (sudoFirst cmd)).1.Stderr = false))
    (hlex : needsSudoPassword lower (lowLevelRun R hostIP w (sudoFirst cmd)).1.Stderr = true ∨
      looksLikeRequireTTY lower (lowLevelRun R hostIP w (sudoFirst cmd)).1.Stderr = true ∨
      looksLikeSudoReadFromTTY lower (lowLevelRun R hostIP w (sudoFirst cmd)).1.Stderr = true) :
    sudoLadder lower R hostIP cap userPass w cmd
      = ({ (lowLevelRun R hostIP (lowLevelRun R hostIP w (sudoFirst cmd)).2.2
              (sudoSecond lower cap userPass
                (lowLevelRun R hostIP w (sudoFirst cmd)).1.Stderr cmd)).1
            with Strategy := "sudo".toList },
         (lowLevelRun R hostIP w (sudoFirst cmd)).2.1 ++
           (lowLevelRun R hostIP (lowLevelRun R hostIP w (sudoFirst cmd)).2.2
              (sudoSecond lower cap userPass
                (lowLevelRun R hostIP w (sudoFirst cmd)).1.Stderr cmd)).2.1,
         (lowLevelRun R hostIP (lowLevelRun R hostIP w (sudoFirst cmd)).2.2
              (sudoSecond lower cap userPass
                (lowLevelRun R hostIP w (sudoFirst cmd)).1.Stderr cmd)).2.2) := by
  unfold sudoLadder
  simp only []
  have h1 : ¬ ((lowLevelRun R hostIP w (sudoFirst cmd)).1.Err.isNone = true) := by
    intro h; exact hfail (Option.isNone_iff_eq_none.1 h)
  have h2 : ¬ ((cap.SudoNoPass &&
      !needsSudoPassword lower (lowLevelRun R hostIP w (sudoFirst cmd)).1.Stderr) = true) := by
    intro h
    simp only [Bool.and_eq_true, Bool.not_eq_true'] at h
    exact hgo h
  have h3 : ¬ ((!needsSudoPassword lower (lowLevelRun R hostIP w (sudoFirst cmd)).1.Stderr &&
      !looksLikeRequireTTY lower (lowLevelRun R hostIP w (sudoFirst cmd)).1.Stderr &&
      !looksLikeSudoReadFromTTY lower (lowLevelRun R hostIP w (sudoFirst cmd)).1.Stderr)
        = true) := by
    intro h
    simp only [Bool.and_eq_true, Bool.not_eq_true'] at h
    rcases hlex with hl | hl | hl
    · rw [h.1.1] at hl; cases hl
    · rw [h.1.2] at hl; cases hl
    · rw [h.2] at hl; cases hl
  rw [if_neg h1, if_neg h2, if_neg h3]

theorem sudoSecond_raw (lower : Char → Char) (cap : Capabilities) (userPass stderr : Str)
    (cmd : Command) :
    (sudoSecond lower cap userPass stderr cmd).Raw = "sudo -S -p '' ".toList ++ cmd.Raw := by
  unfold sudoSecond
  simp only []
  split_ifs <;> rfl

theorem sudoSecond_stdin (lower : Char → Char) (cap : Capabilities) (userPass stderr : Str)
    (cmd : Command) :
    (sudoSecond lower cap userPass stderr cmd).Stdin
      = (if cmd.Stdin = [] then [] else cmd.Stdin ++ "\n".toList)
        ++ (userPass ++ "\n".toList) := by
  unfold sudoSecond
  simp only []
  by_cases h : cmd.Stdin = []
  · rw [if_pos h]; split_ifs <;> first | exact absurd h (by assumption) | simp [h]
  · rw [if_neg h]; split_ifs <;> simp

theorem sudoSecond_pty (lower : Char → Char) (cap : Capabilities) (userPass stderr : Str)
    (cmd : Command)
    (h : looksLikeRequireTTY lower stderr = true ∨ looksLikeSudoReadFromTTY lower stderr = true) :
    (sudoSecond lower cap userPass stderr cmd).PTY = true := by
  unfold sudoSecond
  simp only []
  rw [if_pos (by rcases h with h | h <;> simp [h])]

theorem sudoStrategy_connected {W : Type} (lower : Char → Char) (R : Remote W) (hostIP : Str)
    (cap : Capabilities) (userPass : Str) (w0 w : W) (cmd : Command)
    (hconn : R.getOrConnect w0 = (none, w)) :
    SudoStrategy.Exec lower R hostIP cap userPass w0 cmd
      = sudoLadder lower R hostIP cap userPass w cmd := by
  unfold SudoStrategy.Exec
  rw [hconn]

/-- C13: in `SudoStrategy.Exec` on an established connection, when the stderr
of the `sudo -n <cmd>` attempt matches none of the need-password, require-TTY
and read-from-TTY lexicons, the ladder returns the result of that attempt as
it is, and the session runs and the world are those of that one attempt: no
`sudo -S` attempt is run, whatever the capabilities `cap` say. -/
theorem sudoStrategy_real_failure {W : Type} (lower : Char → Char)
    (hlower : ∀ c, isSpace c = true → lower c = c) (R : Remote W) (hostIP : Str)
    (cap : Capabilities) (userPass : Str) (w0 w : W) (cmd : Command)
    (hconn : R.getOrConnect w0 = (none, w))
    (h1 : needPasswordLexicon lower (sudoAttempt1 R hostIP w cmd).1.Stderr = false)
    (h2 : looksLikeRequireTTY lower (sudoAttempt1 R hostIP w cmd).1.Stderr = false)
    (h3 : looksLikeSudoReadFromTTY lower (sudoAttempt1 R hostIP w cmd).1.Stderr = false) :
    SudoStrategy.Exec lower R hostIP cap userPass w0 cmd
      = ({ (sudoAttempt1 R hostIP w cmd).1 with Strategy := "sudo".toList },
         (sudoAttempt1 R hostIP w cmd).2.1, (sudoAttempt1 R hostIP w cmd).2.2) := by
  have hn : needsSudoPassword lower (sudoAttempt1 R hostIP w cmd).1.Stderr = false := by
    cases hb : needsSudoPassword lower (sudoAttempt1 R hostIP w cmd).1.Stderr with
    | false => rfl
    | true =>
      rcases needsSudoPassword_lexicons lower hlower _ hb with h | h
      · rw [h1] at h; cases h
      · rw [h2] at h; cases h
  rw [sudoStrategy_connected lower R hostIP cap userPass w0 w cmd hconn]
  exact sudoLadder_stop lower R hostIP cap userPass w cmd (Or.inr (Or.inr ⟨hn, h2, h3⟩))

/-- A failure that no lexicon matches ends the ladder, also when the host is
known for `sudo` without a password. -/
theorem sudoStrategy_real_failure_witness :
    SudoStrategy.Exec asciiLower scripted "10.0.0.1".toList
        { SudoNoPass := true, RequireTTY := true } "secret".toList
        [{ stderr := "iptables: Permission denied".toList, err := some (.exitError 4 []) },
         { stdout := "never run".toList }]
        { Raw := "iptables -L".toList }
      = ({ HostIP := "10.0.0.1".toList, Stderr := "iptables: Permission denied".toList,
           Err := some (.exitError 4 []), Code := 4, Strategy := "sudo".toList },
         [{ line := "sudo -n iptables -L".toList, pty := false, stdin := [] }],
         [{ stdout := "never run".toList }]) :=
  (sudoStrategy_real_failure asciiLower asciiLower_space scripted "10.0.0.1".toList
    { SudoNoPass := true, RequireTTY := true } "secret".toList
    [{ stderr := "iptables: Permission denied".toList, err := some (.exitError 4 []) },
     { stdout := "never run".toList }] _
    { Raw := "iptables -L".toList } rfl (by decide) (by decide) (by decide)).trans (by decide)

/-- With a caller stdin that is not empty the password attempt feeds the
caller's stdin, a line feed, the password and a line feed: the password does
not follow the caller's stdin immediately. -/
theorem sudoStrategy_stdin_separator :
    (SudoStrategy.Exec asciiLower scripted "10.0.0.1".toList {} "secret".toList
        [{ stderr := "sudo: a password is required".toList, err := some (.exitError 1 []) },
         { stdout := "ok".toList }]
        { Raw := "iptables-restore".toList, Stdin := "*filter".toList }).2.1
      = [{ line := "sudo -n iptables-restore".toList, pty := false, stdin := "*filter".toList },
         { line := "sudo -S -p '' iptables-restore".toList, pty := false,
           stdin := "*filter\nsecret\n".toList }] := by
  decide

/-- C14 (amended): in the password attempt of the sudo ladder, for every
caller command and every caller stdin, the command is `sudo -S -p '' `
followed by the caller's command, and its stdin is the user's password and one
line feed, preceded, when the caller's stdin is not empty, by the caller's
stdin and one line feed; the result of that attempt, with strategy `sudo`, is
the result of the ladder.  After a first-attempt stderr
`sudo: a password is required` this retry is made and, when it succeeds, the
result has strategy `sudo` and code 0. -/
theorem sudoStrategy_password_attempt :
    (∀ (W : Type) (lower : Char → Char) (R : Remote W) (hostIP : Str) (cap : Capabilities)
      (userPass : Str) (w0 w : W) (cmd : Command),
      R.getOrConnect w0 = (none, w) →
      (sudoAttempt1 R hostIP w cmd).1.Err ≠ none →
      (needsSudoPassword lower (sudoAttempt1 R hostIP w cmd).1.Stderr = true ∨
        (cap.SudoNoPass = false ∧
          (looksLikeRequireTTY lower (sudoAttempt1 R hostIP w cmd).1.Stderr = true ∨
           looksLikeSudoReadFromTTY lower (sudoAttempt1 R hostIP w cmd).1.Stderr = true))) →
      SudoStrategy.Exec lower R hostIP cap userPass w0 cmd
        = ({ (sudoAttempt2 lower R hostIP cap userPass w cmd).1 with Strategy := "sudo".toList },
           (sudoAttempt1 R hostIP w cmd).2.1 ++
             (sudoAttempt2 lower R hostIP cap userPass w cmd).2.1,
           (sudoAttempt2 lower R hostIP cap userPass w cmd).2.2) ∧
      ∃ c2 : Command,
        sudoAttempt2 lower R hostIP cap userPass w cmd
          = lowLevelRun R hostIP (sudoAttempt1 R hostIP w cmd).2.2 c2 ∧
        c2.Raw = "sudo -S -p '' ".toList ++ cmd.Raw ∧
        c2.Stdin = (if cmd.Stdin = [] then [] else cmd.Stdin ++ "\n".toList)
          ++ (userPass ++ "\n".toList) ∧
        ∀ sr ∈ (sudoAttempt2 lower R hostIP cap userPass w cmd).2.1,
          sr.line = runCmd c2 ∧ sr.stdin = c2.Stdin) ∧
    (∀ (W : Type) (lower : Char → Char) (R : Remote W) (hostIP : Str) (cap : Capabilities)
      (userPass : Str) (w0 w : W) (cmd : Command),
      (∀ c : Char, c.toNat < 128 → lower c = asciiLower c) →
      R.getOrConnect w0 = (none, w) →
      (sudoAttempt1 R hostIP w cmd).1.Err ≠ none →
      (sudoAttempt1 R hostIP w cmd).1.Stderr = "sudo: a password is required".toList →
      (SudoStrategy.Exec lower R hostIP cap userPass w0 cmd).2.1
        = (sudoAttempt1 R hostIP w cmd).2.1 ++
            (sudoAttempt2 lower R hostIP cap userPass w cmd).2.1 ∧
      ((sudoAttempt2 lower R hostIP cap userPass w cmd).1.Err = none →
        (SudoStrategy.Exec lower R hostIP cap userPass w0 cmd).1.Err = none ∧
        (SudoStrategy.Exec lower R hostIP cap userPass w0 cmd).1.Strategy = "sudo".toList ∧
        (SudoStrategy.Exec lower R hostIP cap userPass w0 cmd).1.Code = 0)) := by
  have main : ∀ (W : Type) (lower : Char → Char) (R : Remote W) (hostIP : Str)
      (cap : Capabilities) (userPass : Str) (w0 w : W) (cmd : Command),
      R.getOrConnect w0 = (none, w) →
      (sudoAttempt1 R hostIP w cmd).1.Err ≠ none →
      (needsSudoPassword lower (sudoAttempt1 R hostIP w cmd).1.Stderr = true ∨
        (cap.SudoNoPass = false ∧
          (looksLikeRequireTTY lower (sudoAttempt1 R hostIP w cmd).1.Stderr = true ∨
           looksLikeSudoReadFromTTY lower (sudoAttempt1 R hostIP w cmd).1.Stderr = true))) →
      SudoStrategy.Exec lower R hostIP cap userPass w0 cmd
        = ({ (sudoAttempt2 lower R hostIP cap userPass w cmd).1 with Strategy := "sudo".toList },
           (sudoAttempt1 R hostIP w cmd).2.1 ++
             (sudoAttempt2 lower R hostIP cap userPass w cmd).2.1,
           (sudoAttempt2 lower R hostIP cap userPass w cmd).2.2) := by
    intro W lower R hostIP cap userPass w0 w cmd hconn hfail hgo
    rw [sudoStrategy_connected lower R hostIP cap userPass w0 w cmd hconn]
    refine sudoLadder_retry lower R hostIP cap userPass w cmd hfail ?_ ?_
    · rintro ⟨hs, hn⟩
      rcases hgo with h | ⟨h, _⟩
      · exact absurd (hn.symm.trans h) (by decide)
      · exact absurd (hs.symm.trans h) (by decide)
    · rcases hgo with h | ⟨_, h | h⟩
      · exact Or.inl h
      · exact Or.inr (Or.inl h)
      · exact Or.inr (Or.inr h)
  refine ⟨?_, ?_⟩
  · intro W lower R hostIP cap userPass w0 w cmd hconn hfail hgo
    refine ⟨main W lower R hostIP cap userPass w0 w cmd hconn hfail hgo, _, rfl,
      sudoSecond_raw _ _ _ _ _, sudoSecond_stdin _ _ _ _ _, ?_⟩
    intro sr hsr
    rw [lowLevelRun_runs R hostIP _ _ sr hsr]
    exact ⟨rfl, rfl⟩
  · intro W lower R hostIP cap userPass w0 w cmd hascii hconn hfail hst
    have hneed : needsSudoPassword lower (sudoAttempt1 R hostIP w cmd).1.Stderr = true := by
      rw [hst, needsSudoPassword_ascii lower hascii _ (by decide)]
      decide
    have hm := main W lower R hostIP cap userPass w0 w cmd hconn hfail (Or.inl hneed)
    rw [hm]
    refine ⟨rfl, fun hok => ⟨hok, rfl, ?_⟩⟩
    exact lowLevelRun_code R hostIP _ _ hok

/-- The retry after `sudo: a password is required`, with an empty caller
stdin, on a remote side that then accepts the password. -/
theorem sudoStrategy_password_attempt_witness :
    (SudoStrategy.Exec asciiLower scripted "10.0.0.1".toList {} "secret".toList
        [{ stderr := "sudo: a password is required".toList, err := some (.exitError 1 []) },
         { stdout := "ok".toList }]
        { Raw := "iptables -L".toList }).2.1
      = [{ line := "sudo -n iptables -L".toList, pty := false, stdin := [] },
         { line := "sudo -S -p '' iptables -L".toList, pty := false,
           stdin := "secret\n".toList }] ∧
    (SudoStrategy.Exec asciiLower scripted "10.0.0.1".toList {} "secret".toList
        [{ stderr := "sudo: a password is required".toList, err := some (.exitError 1 []) },
         { stdout := "ok".toList }]
        { Raw := "iptables -L".toList }).1.Code = 0 :=
  ⟨((sudoStrategy_password_attempt.2 (List RunOutcome) asciiLower scripted "10.0.0.1".toList {}
      "secret".toList
      [{ stderr := "sudo: a password is required".toList, err := some (.exitError 1 []) },
       { stdout := "ok".toList }] _ { Raw := "iptables -L".toList }
      (fun _ _ => rfl) rfl (by decide) (by decide)).1).trans (by decide),
   ((sudoStrategy_password_attempt.2 (List RunOutcome) asciiLower scripted "10.0.0.1".toList {}
      "secret".toList
      [{ stderr := "sudo: a password is required".toList, err := some (.exitError 1 []) },
       { stdout := "ok".toList }] _ { Raw := "iptables -L".toList }
      (fun _ _ => rfl) rfl (by decide) (by decide)).2 (by decide)).2.2⟩

/-- C15: in `SudoStrategy.Exec` on an established connection, whenever the
`sudo -n` attempt fails with a stderr that matches the require-TTY or the
read-from-TTY lexicon and the ladder goes on to the password attempt (the
host is not known for `sudo` without a password, or the stderr asks for a
password), the command `sudo -S -p '' <cmd>` is run with a PTY requested for
its session, and its result, with strategy `sudo`, is the result of the
ladder.  After a first-attempt stderr `sorry, you must have a tty to run sudo`
the retry is made with a PTY whatever the capabilities say and, when it
succeeds, the result has code 0. -/
theorem sudoStrategy_tty_retry :
    (∀ (W : Type) (lower : Char → Char) (R : Remote W) (hostIP : Str) (cap : Capabilities)
      (userPass : Str) (w0 w : W) (cmd : Command),
      R.getOrConnect w0 = (none, w) →
      (sudoAttempt1 R hostIP w cmd).1.Err ≠ none →
      (looksLikeRequireTTY lower (sudoAttempt1 R hostIP w cmd).1.Stderr = true ∨
        looksLikeSudoReadFromTTY lower (sudoAttempt1 R hostIP w cmd).1.Stderr = true) →
      ¬ (cap.SudoNoPass = true ∧
        needsSudoPassword lower (sudoAttempt1 R hostIP w cmd).1.Stderr = false) →
      SudoStrategy.Exec lower R hostIP cap userPass w0 cmd
        = ({ (sudoAttempt2 lower R hostIP cap userPass w cmd).1 with Strategy := "sudo".toList },
           (sudoAttempt1 R hostIP w cmd).2.1 ++
             (sudoAttempt2 lower R hostIP cap userPass w cmd).2.1,
           (sudoAttempt2 lower R hostIP cap userPass w cmd).2.2) ∧
      ∃ c2 : Command,
        sudoAttempt2 lower R hostIP cap userPass w cmd
          = lowLevelRun R hostIP (sudoAttempt1 R hostIP w cmd).2.2 c2 ∧
        c2.Raw = "sudo -S -p '' ".toList ++ cmd.Raw ∧ c2.PTY = true ∧
        ∀ sr ∈ (sudoAttempt2 lower R hostIP cap userPass w cmd).2.1,
          sr.line = runCmd c2 ∧ sr.pty = true) ∧
    (∀ (W : Type) (lower : Char → Char) (R : Remote W) (hostIP : Str) (cap : Capabilities)
      (userPass : Str) (w0 w : W) (cmd : Command),
      (∀ c : Char, c.toNat < 128 → lower c = asciiLower c) →
      R.getOrConnect w0 = (none, w) →
      (sudoAttempt1 R hostIP w cmd).1.Err ≠ none →
      (sudoAttempt1 R hostIP w cmd).1.Stderr
        = "sorry, you must have a tty to run sudo".toList →
      (SudoStrategy.Exec lower R hostIP cap userPass w0 cmd).2.1
        = (sudoAttempt1 R hostIP w cmd).2.1 ++
            (sudoAttempt2 lower R hostIP cap userPass w cmd).2.1 ∧
      (∀ sr ∈ (sudoAttempt2 lower R hostIP cap userPass w cmd).2.1, sr.pty = true) ∧
      ((sudoAttempt2 lower R hostIP cap userPass w cmd).1.Err = none →
        (SudoStrategy.Exec lower R hostIP cap userPass w0 cmd).1.Err = none ∧
        (SudoStrategy.Exec lower R hostIP cap userPass w0 cmd).1.Code = 0)) := by
  have main : ∀ (W : Type) (lower : Char → Char) (R : Remote W) (hostIP : Str)
      (cap : Capabilities) (userPass : Str) (w0 w : W) (cmd : Command),
      R.getOrConnect w0 = (none, w) →
      (sudoAttempt1 R hostIP w cmd).1.Err ≠ none →
      (looksLikeRequireTTY lower (sudoAttempt1 R hostIP w cmd).1.Stderr = true ∨
        looksLikeSudoReadFromTTY lower (sudoAttempt1 R hostIP w cmd).1.Stderr = true) →
      ¬ (cap.SudoNoPass = true ∧
        needsSudoPassword lower (sudoAttempt1 R hostIP w cmd).1.Stderr = false) →
      SudoStrategy.Exec lower R hostIP cap userPass w0 cmd
        = ({ (sudoAttempt2 lower R hostIP cap userPass w cmd).1 with Strategy := "sudo".toList },
           (sudoAttempt1 R hostIP w cmd).2.1 ++
             (sudoAttempt2 lower R hostIP cap userPass w cmd).2.1,
           (sudoAttempt2 lower R hostIP cap userPass w cmd).2.2) ∧
      ∀ sr ∈ (sudoAttempt2 lower R hostIP cap userPass w cmd).2.1,
        sr.line = runCmd (sudoSecond lower cap userPass
          (sudoAttempt1 R hostIP w cmd).1.Stderr cmd) ∧ sr.pty = true := by
    intro W lower R hostIP cap userPass w0 w cmd hconn hfail htty hgo
    rw [sudoStrategy_connected lower R hostIP cap userPass w0 w cmd hconn]
    refine ⟨sudoLadder_retry lower R hostIP cap userPass w cmd hfail hgo (Or.inr htty), ?_⟩
    intro sr hsr
    rw [lowLevelRun_runs R hostIP _ _ sr hsr]
    exact ⟨rfl, sudoSecond_pty lower cap userPass _ cmd htty⟩
  refine ⟨?_, ?_⟩
  · intro W lower R hostIP cap userPass w0 w cmd hconn hfail htty hgo
    obtain ⟨h1, h2⟩ := main W lower R hostIP cap userPass w0 w cmd hconn hfail htty hgo
    exact ⟨h1, _, rfl, sudoSecond_raw _ _ _ _ _, sudoSecond_pty lower cap userPass _ cmd htty, h2⟩
  · intro W lower R hostIP cap userPass w0 w cmd hascii hconn hfail hst
    have hneed : needsSudoPassword lower (sudoAttempt1 R hostIP w cmd).1.Stderr = true := by
      rw [hst, needsSudoPassword_ascii lower hascii _ (by decide)]
      decide
    have htty : looksLikeRequireTTY lower (sudoAttempt1 R hostIP w cmd).1.Stderr = true := by
      rw [hst, looksLikeRequireTTY_ascii lower hascii _ (by decide)]
      decide
    obtain ⟨h1, h2⟩ := main W lower R hostIP cap userPass w0 w cmd hconn hfail (Or.inl htty)
      (fun h => absurd (h.2.symm.trans hneed) (by decide))
    rw [h1]
    refine ⟨rfl, fun sr hsr => (h2 sr hsr).2, fun hok => ⟨hok, ?_⟩⟩
    exact lowLevelRun_code R hostIP _ _ hok

/-- The retry with a PTY after `sorry, you must have a tty to run sudo`, on a
host known for `sudo` without a password. -/
theorem sudoStrategy_tty_retry_witness :
    (SudoStrategy.Exec asciiLower scripted "10.0.0.1".toList { SudoNoPass := true }
        "secret".toList
        [{ stderr := "sorry, you must have a tty to run sudo".toList,
           err := some (.exitError 1 []) },
         { stdout := "ok".toList }]
        { Raw := "iptables -L".toList }).2.1
      = [{ line := "sudo -n iptables -L".toList, pty := false, stdin := [] },
         { line := "sudo -S -p '' iptables -L".toList, pty := true,
           stdin := "secret\n".toList }] ∧
    (SudoStrategy.Exec asciiLower scripted "10.0.0.1".toList { SudoNoPass := true }
        "secret".toList
        [{ stderr := "sorry, you must have a tty to run sudo".toList,
           err := some (.exitError 1 []) },
         { stdout := "ok".toList }]
        { Raw := "iptables -L".toList }).1.Code = 0 :=
  ⟨((sudoStrategy_tty_retry.2 (List RunOutcome) asciiLower scripted "10.0.0.1".toList
      { SudoNoPass := true } "secret".toList
      [{ stderr := "sorry, you must have a tty to run sudo".toList,
         err := some (.exitError 1 []) },
       { stdout := "ok".toList }] _ { Raw := "iptables -L".toList }
      (fun _ _ => rfl) rfl (by decide) (by decide)).1).trans (by decide),
   ((sudoStrategy_tty_retry.2 (List RunOutcome) asciiLower scripted "10.0.0.1".toList
      { SudoNoPass := true } "secret".toList
      [{ stderr := "sorry, you must have a tty to run sudo".toList,
         err := some (.exitError 1 []) },
       { stdout := "ok".toList }] _ { Raw := "iptables -L".toList }
      (fun _ _ => rfl) rfl (by decide) (by decide)).2.2 (by decide)).2⟩

/-- The text `sorry, you must have a tty to run sudo` holds none of the seven
patterns of the lexicon and no `sudo:`, yet `needsSudoPassword` answers
true. -/
theorem needsSudoPassword_tty_pattern :
    needsSudoPassword asciiLower "sorry, you must have a tty to run sudo".toList = true ∧
    needPasswordLexicon asciiLower "sorry, you must have a tty to run sudo".toList = false := by
  decide

/-- C16 (amended): for every stderr text `e`, `needsSudoPassword e` is true
exactly when `e`, compared without regard to case, contains one of
`password is required`, `a password is required`,
`sudo: a password is required`, `password:`, `sudo: password for`,
`authentication failure`, `需要密码`, or contains both `sudo:` and one of
`password` / `需要`, or contains `sorry, you must have a tty`; the case
mapping leaves white space alone. -/
theorem needsSudoPassword_lexicon (lower : Char → Char)
    (hlower : ∀ c, isSpace c = true → lower c = c) (e : Str) :
    needsSudoPassword lower e
      = (needPasswordLexicon lower e ||
          contains (toLower lower e) "sorry, you must have a tty".toList) :=
  needsSudoPassword_eq lower hlower e

/-- The lexicon on a text in upper case. -/
theorem needsSudoPassword_lexicon_witness :
    needsSudoPassword asciiLower "  SUDO: a Password is required\n".toList
      = (needPasswordLexicon asciiLower "  SUDO: a Password is required\n".toList ||
          contains (toLower asciiLower "  SUDO: a Password is required\n".toList)
            "sorry, you must have a tty".toList) :=
  needsSudoPassword_lexicon asciiLower asciiLower_space
    "  SUDO: a Password is required\n".toList

/-! ### The `su` wrapper -/

theorem suCommand_fields (printable : Char → Bool) (rootUser rootPass : Str) (cmd : Command) :
    (suCommand printable rootUser rootPass cmd).Raw
      = "su - ".toList ++ (if trimSpace rootUser = [] then "root".toList else rootUser)
        ++ " -c ".toList
        ++ strconvQuote printable (if cmd.Shell = true then pathWrap cmd.Raw else cmd.Raw) ∧
    (suCommand printable rootUser rootPass cmd).PTY = true ∧
    (suCommand printable rootUser rootPass cmd).Stdin
      = (if cmd.Stdin = [] then [] else cmd.Stdin ++ "\n".toList)
        ++ (rootPass ++ "\n".toList) ∧
    (suCommand printable rootUser rootPass cmd).Shell = cmd.Shell ∧
    (suCommand printable rootUser rootPass cmd).WorkDir = cmd.WorkDir ∧
    (suCommand printable rootUser rootPass cmd).Env = cmd.Env := by
  unfold suCommand firstNonEmpty
  simp only []
  by_cases hs : cmd.Stdin = [] <;> by_cases hr : trimSpace rootUser = [] <;>
    simp [hs, hr]

theorem runCmd_plain (cmd : Command) (h1 : cmd.Shell = false) (h2 : cmd.WorkDir = [])
    (h3 : cmd.Env = []) : runCmd cmd = cmd.Raw := by
  unfold runCmd
  simp [h1, h2, h3]

set_option maxRecDepth 100000 in
/-- Without the shell option the command that `su` is given is the caller's
command as it is, not its PATH wrap; with the shell option the PATH wrap is
applied to the whole `su` line once more, so that the `su` wrapper is not the
outermost layer. -/
theorem userSu_not_outermost :
    (UserSuStrategy.Exec (fun _ => true) scripted "10.0.0.1".toList [] "rootpw".toList [{}]
        { Raw := "iptables -L".toList }).2.1
      = [{ line := "su - root -c ".toList ++ [dquote] ++ "iptables -L".toList ++ [dquote],
           pty := true, stdin := "rootpw\n".toList }] ∧
    (UserSuStrategy.Exec (fun _ => true) scripted "10.0.0.1".toList [] "rootpw".toList [{}]
        { Raw := "iptables -L".toList, Shell := true }).2.1
      = [{ line := pathWrap ("su - root -c ".toList ++ [dquote]
             ++ pathWrap "iptables -L".toList ++ [dquote]),
           pty := true, stdin := "rootpw\n".toList }] := by
  decide

/-- C17 (amended): `UserSuStrategy.Exec` on an established connection hands to
`lowLevelRun` the command `su - <rootUser> -c <quoted command>`, where
`rootUser` defaults to `root` when the field of the host is blank and the
quoted command is the `%q` form of the caller's command, PATH-wrapped when the
shell option is set; every session run has a PTY and a stdin that ends with
the root password and a line feed, and the result of the run, with strategy
`user-su`, is returned.  For a command without the shell option, work
directory and environment this `su` line is the line finally run on the
session. -/
theorem userSu_command {W : Type} (printable : Char → Bool) (R : Remote W) (hostIP : Str)
    (rootUser rootPass : Str) (w0 w : W) (cmd : Command)
    (hconn : R.getOrConnect w0 = (none, w)) :
    ∃ c : Command,
      UserSuStrategy.Exec printable R hostIP rootUser rootPass w0 cmd
        = ({ (lowLevelRun R hostIP w c).1 with Strategy := "user-su".toList },
           (lowLevelRun R hostIP w c).2.1, (lowLevelRun R hostIP w c).2.2) ∧
      c.Raw = "su - ".toList ++ (if trimSpace rootUser = [] then "root".toList else rootUser)
        ++ " -c ".toList
        ++ strconvQuote printable (if cmd.Shell = true then pathWrap cmd.Raw else cmd.Raw) ∧
      c.PTY = true ∧
      c.Stdin = (if cmd.Stdin = [] then [] else cmd.Stdin ++ "\n".toList)
        ++ (rootPass ++ "\n".toList) ∧
      ∀ sr ∈ (UserSuStrategy.Exec printable R hostIP rootUser rootPass w0 cmd).2.1,
        sr.pty = true ∧ (rootPass ++ "\n".toList) <:+ sr.stdin ∧
        (cmd.Shell = false → cmd.WorkDir = [] → cmd.Env = [] →
          sr.line = "su - ".toList
            ++ (if trimSpace rootUser = [] then "root".toList else rootUser)
            ++ " -c ".toList ++ strconvQuote printable cmd.Raw) := by
  obtain ⟨hraw, hpty, hstdin, hshell, hwd, henv⟩ :=
    suCommand_fields printable rootUser rootPass cmd
  have hexec : UserSuStrategy.Exec printable R hostIP rootUser rootPass w0 cmd
      = ({ (lowLevelRun R hostIP w (suCommand printable rootUser rootPass cmd)).1 with
            Strategy := "user-su".toList },
         (lowLevelRun R hostIP w (suCommand printable rootUser rootPass cmd)).2.1,
         (lowLevelRun R hostIP w (suCommand printable rootUser rootPass cmd)).2.2) := by
    unfold UserSuStrategy.Exec
    rw [hconn]
  refine ⟨suCommand printable rootUser rootPass cmd, hexec, hraw, hpty, hstdin, ?_⟩
  intro sr hsr
  rw [hexec] at hsr
  rw [lowLevelRun_runs R hostIP w _ sr hsr]
  refine ⟨hpty, ?_, ?_⟩
  · show _ <:+ (suCommand printable rootUser rootPass cmd).Stdin
    rw [hstdin]
    exact List.suffix_append _ _
  · intro h1 h2 h3
    show runCmd (suCommand printable rootUser rootPass cmd) = _
    rw [runCmd_plain _ (hshell.trans h1) (hwd.trans h2) (henv.trans h3), hraw, h1]
    simp

/-- The `su` line of a command without the shell option, for a host whose
root user is not set. -/
theorem userSu_command_witness :
    ∃ c : Command,
      UserSuStrategy.Exec (fun _ => true) scripted "10.0.0.1".toList [] "rootpw".toList
          [{ stdout := "ok".toList }] { Raw := "iptables -L".toList, Stdin := "y".toList }
        = ({ (lowLevelRun scripted "10.0.0.1".toList [{ stdout := "ok".toList }] c).1 with
              Strategy := "user-su".toList },
           (lowLevelRun scripted "10.0.0.1".toList [{ stdout := "ok".toList }] c).2.1,
           (lowLevelRun scripted "10.0.0.1".toList [{ stdout := "ok".toList }] c).2.2) ∧
      c.Raw = "su - ".toList ++ "root".toList ++ " -c ".toList
        ++ strconvQuote (fun _ => true) "iptables -L".toList ∧
      c.PTY = true ∧
      c.Stdin = "y\n".toList ++ "rootpw\n".toList :=
  (userSu_command (fun _ => true) scripted "10.0.0.1".toList [] "rootpw".toList
    [{ stdout := "ok".toList }] [{ stdout := "ok".toList }]
    { Raw := "iptables -L".toList, Stdin := "y".toList } rfl).imp
    (fun _ h => ⟨h.1, h.2.1, h.2.2.1, h.2.2.2.1⟩)

/-! ### The command line of `lowLevelRun` -/

theorem envGet_of_mem (env : List (Str × Str)) (hk : (env.map Prod.fst).Nodup) :
    ∀ kv ∈ env, envGet env kv.1 = kv.2 := by
  induction env with
  | nil => intro kv h; cases h
  | cons x xs ih =>
    intro kv h
    rw [List.map_cons, List.nodup_cons] at hk
    rcases List.mem_cons.1 h with h | h
    · subst h
      simp [envGet, List.lookup]
    · have hne : kv.1 ≠ x.1 := by
        intro e
        exact hk.1 (e ▸ List.mem_map_of_mem Prod.fst h)
      have hb : (kv.1 == x.1) = false := by simpa using hne
      have := ih hk.2 kv h
      unfold envGet at this ⊢
      rw [List.lookup, hb]
      exact this

theorem envGet_perm (env env' : List (Str × Str)) (hp : env'.Perm env)
    (hk : (env.map Prod.fst).Nodup) (k : Str) : envGet env' k = envGet env k := by
  have hk' : (env'.map Prod.fst).Nodup := (hp.map Prod.fst).nodup_iff.2 hk
  by_cases hmem : ∃ v, (k, v) ∈ env
  · obtain ⟨v, hv⟩ := hmem
    rw [envGet_of_mem env hk (k, v) hv, envGet_of_mem env' hk' (k, v) (hp.mem_iff.2 hv)]
  · have hnone : ∀ e : List (Str × Str), (∀ v, (k, v) ∉ e) → envGet e k = [] := by
      intro e he
      induction e with
      | nil => rfl
      | cons x xs ih =>
        have hne : k ≠ x.1 := by
          intro e'
          exact he x.2 (by rw [e']; exact List.mem_cons_self _ _)
        have hb : (k == x.1) = false := by simpa using hne
        unfold envGet at ih ⊢
        rw [List.lookup, hb]
        exact ih (fun v hv => he v (List.mem_cons_of_mem _ hv))
    rw [hnone env (fun v hv => hmem ⟨v, hv⟩),
      hnone env' (fun v hv => hmem ⟨v, hp.mem_iff.1 hv⟩)]

theorem sortStrings_perm (l l' : List Str) (hp : l'.Perm l) : sortStrings l' = sortStrings l := by
  unfold sortStrings
  exact List.eq_of_perm_of_sorted
    (((List.perm_insertionSort _ l').trans hp).trans (List.perm_insertionSort _ l).symm)
    (List.sorted_insertionSort _ l') (List.sorted_insertionSort _ l)

theorem envWrap_perm (env env' : List (Str × Str)) (hp : env'.Perm env)
    (hk : (env.map Prod.fst).Nodup) (cmd : Str) : envWrap env' cmd = envWrap env cmd := by
  unfold envWrap
  simp only []
  rw [sortStrings_perm _ _ (hp.map Prod.fst)]
  congr 3
  exact List.map_congr_left (fun k _ => by rw [envGet_perm env env' hp hk k])

theorem envWrap_entries (env : List (Str × Str)) (hk : (env.map Prod.fst).Nodup) (cmd : Str) :
    ∃ entries : List (Str × Str), entries.Perm env ∧
      (entries.map Prod.fst).Sorted (fun a b => a < b) ∧
      envWrap env cmd
        = join (entries.map (fun kv => kv.1 ++ "=".toList ++ shellEscape kv.2)) " ".toList
          ++ " ".toList ++ cmd := by
  refine ⟨(sortStrings (env.map Prod.fst)).map (fun k => (k, envGet env k)), ?_, ?_, ?_⟩
  · have h1 : env.map (fun kv => (kv.1, envGet env kv.1)) = env := by
      conv_rhs => rw [← List.map_id env]
      exact List.map_congr_left (fun kv h => by rw [envGet_of_mem env hk kv h]; rfl)
    have h2 : ((sortStrings (env.map Prod.fst)).map (fun k => (k, envGet env k))).Perm
        ((env.map Prod.fst).map (fun k => (k, envGet env k))) :=
      (List.perm_insertionSort _ _).map _
    rw [List.map_map] at h2
    have h3 : List.map ((fun k => (k, envGet env k)) ∘ Prod.fst) env = env := h1
    rw [h3] at h2
    exact h2
  · rw [List.map_map]
    have hid : (Prod.fst ∘ fun k : Str => (k, envGet env k)) = id := rfl
    rw [hid, List.map_id]
    exact (List.sorted_insertionSort _ _).lt_of_le
      ((List.perm_insertionSort _ _).nodup_iff.2 hk)
  · unfold envWrap
    simp only [List.map_map]
    rfl

/-- C18: for every command (its env a map: the keys pairwise distinct), the
command line that `lowLevelRun` runs is the raw string, wrapped by `pathWrap`
iff the shell flag is set; prefixed with `cd <shell-escaped workdir> && ` iff
the work directory is not empty; prefixed, iff the env is not empty, with the
pairs `K=<shell-escaped v>` of the entries of the env, one per key, in
ascending key order, separated by one space and followed by one space.  The
line is the same for every order of the entries. -/
theorem runCmd_layers (cmd : Command) (hkeys : (cmd.Env.map Prod.fst).Nodup) :
    (∃ entries : List (Str × Str), entries.Perm cmd.Env ∧
      (entries.map Prod.fst).Sorted (fun a b => a < b) ∧
      runCmd cmd
        = (if cmd.Env = [] then []
            else join (entries.map (fun kv => kv.1 ++ "=".toList ++ shellEscape kv.2))
              " ".toList ++ " ".toList)
          ++ ((if cmd.WorkDir = [] then []
                else "cd ".toList ++ shellEscape cmd.WorkDir ++ " && ".toList)
              ++ (if cmd.Shell = true then pathWrap cmd.Raw else cmd.Raw))) ∧
    ∀ env' : List (Str × Str), env'.Perm cmd.Env →
      runCmd { cmd with Env := env' } = runCmd cmd := by
  have hbody : ∀ c : Command,
      (if c.WorkDir ≠ [] then
          "cd ".toList ++ shellEscape c.WorkDir ++ " && ".toList ++
            (if c.Shell = true then pathWrap c.Raw else c.Raw)
        else (if c.Shell = true then pathWrap c.Raw else c.Raw))
      = (if c.WorkDir = [] then []
          else "cd ".toList ++ shellEscape c.WorkDir ++ " && ".toList)
        ++ (if c.Shell = true then pathWrap c.Raw else c.Raw) := by
    intro c
    by_cases h : c.WorkDir = [] <;> simp [h]
  refine ⟨?_, ?_⟩
  · obtain ⟨entries, hp, hs, he⟩ := envWrap_entries cmd.Env hkeys
      ((if cmd.WorkDir = [] then []
          else "cd ".toList ++ shellEscape cmd.WorkDir ++ " && ".toList)
        ++ (if cmd.Shell = true then pathWrap cmd.Raw else cmd.Raw))
    refine ⟨entries, hp, hs, ?_⟩
    unfold runCmd
    simp only []
    rw [hbody cmd]
    by_cases hE : cmd.Env = []
    · rw [if_pos hE, if_neg (by rw [hE]; simp)]
      rfl
    · rw [if_neg hE, if_pos (List.length_pos.2 hE), he, List.append_assoc]
  · intro env' hp
    unfold runCmd
    simp only []
    by_cases hE : cmd.Env = []
    · rw [hE] at hp
      rw [hp.eq_nil, hE]
    · have hE' : env' ≠ [] := fun e => hE (by rw [e] at hp; exact hp.symm.eq_nil)
      rw [if_pos (List.length_pos.2 hE), if_pos (List.length_pos.2 hE'),
        envWrap_perm cmd.Env env' hp hkeys]

/-- A command with shell flag, work directory and two env entries: the line,
whichever entry was added first. -/
theorem runCmd_layers_witness :
    runCmd { Raw := "iptables -L".toList, Shell := true, WorkDir := "/tmp".toList,
             Env := [("LANG".toList, "C".toList), ("LC_ALL".toList, "en US".toList)] }
      = "LANG='C' LC_ALL='en US' cd '/tmp' && sh -lc 'PATH=/usr/sbin:/sbin:/usr/local/sbin:$PATH; iptables -L'".toList :=
  ((runCmd_layers
      { Raw := "iptables -L".toList, Shell := true, WorkDir := "/tmp".toList,
        Env := [("LC_ALL".toList, "en US".toList), ("LANG".toList, "C".toList)] }
      (by decide)).2
    [("LANG".toList, "C".toList), ("LC_ALL".toList, "en US".toList)]
    (List.Perm.swap _ _ _)).trans (by decide)

/-! ### Exit codes -/

/-- C19: the exit code of a result is 0 when the run reports no error, the
remote exit status when it reports a remote exit error, and -1 for every
other error.  `lowLevelRun` gives its result the code of the error that the
session run reports; when no session run is made (no session, no PTY) the
result carries an error and the code -1. -/
theorem exitCode_spec :
    exitCode none = 0 ∧
    (∀ (status : Int) (msg : Str), exitCode (some (.exitError status msg)) = status) ∧
    (∀ msg : Str, exitCode (some (.other msg)) = -1) ∧
    (∀ (W : Type) (R : Remote W) (hostIP : Str) (w : W) (cmd : Command),
      ((lowLevelRun R hostIP w cmd).2.1 = [] ∧
        (lowLevelRun R hostIP w cmd).1.Err ≠ none ∧
        (lowLevelRun R hostIP w cmd).1.Code = -1) ∨
      (∃ w1 : W,
        (lowLevelRun R hostIP w cmd).2.1
          = [{ line := runCmd cmd, pty := cmd.PTY, stdin := cmd.Stdin }] ∧
        (lowLevelRun R hostIP w cmd).1.Err
          = (R.run w1 { line := runCmd cmd, pty := cmd.PTY, stdin := cmd.Stdin }).1.err ∧
        (lowLevelRun R hostIP w cmd).1.Code
          = exitCode (R.run w1 { line := runCmd cmd, pty := cmd.PTY, stdin := cmd.Stdin }).1.err))
      := by
  refine ⟨rfl, fun _ _ => rfl, fun _ => rfl, ?_⟩
  intro W R hostIP w cmd
  unfold lowLevelRun
  simp only []
  split
  · exact Or.inl ⟨rfl, by simp, rfl⟩
  · split
    · exact Or.inl ⟨rfl, by simp, rfl⟩
    · rename_i w2 _
      exact Or.inr ⟨w2, rfl, rfl, rfl⟩

/-! ### Transactions -/

/-- C20: after `Commit` a transaction is inactive: every later `ExecInTxn`
fails with the error `txn not active` and executes no command, and every later
`Rollback` executes no restore.  After `Rollback` an active transaction is
left as it was, active: a later `Rollback` executes the restore once more, and
a later `ExecInTxn` executes its command instead of failing with
`txn not active`. -/
theorem txn_rollback_leaves_active {W : Type} (exec : W → Command → Result × W)
    (tailText : Str → Str) (t : Txn) (w w' : W) (raw : Str)
    (opts : List (Command → Command)) (hact : t.active = true) :
    ((Txn.ExecInTxn exec tailText t.Commit w' raw opts).1.2
        = some (.other "txn not active".toList) ∧
      (Txn.ExecInTxn exec tailText t.Commit w' raw opts).2.2.1 = [] ∧
      (Txn.Rollback exec tailText t.Commit w').2.2.1 = []) ∧
    (Txn.Rollback exec tailText t w).2.1 = t ∧
    (Txn.Rollback exec tailText (Txn.Rollback exec tailText t w).2.1 w').2.2.1
      = [buildCommand (if t.v6 = true then "/usr/sbin/ip6tables-restore".toList
            else "/usr/sbin/iptables-restore".toList)
          [WithShell true, WithStdin t.backup]] ∧
    (Txn.ExecInTxn exec tailText (Txn.Rollback exec tailText t w).2.1 w' raw opts).2.2.1.head?
      = some (buildCommand raw opts) ∧
    (Txn.ExecInTxn exec tailText (Txn.Rollback exec tailText t w).2.1 w' raw opts).1.2
      = (exec w' (buildCommand raw opts)).1.Err := by
  have hrb : ∀ v : W, Txn.Rollback exec tailText t v
      = ((IptablesRestore exec tailText t.v6 t.backup v).1.2, t,
         (IptablesRestore exec tailText t.v6 t.backup v).2.1,
         (IptablesRestore exec tailText t.v6 t.backup v).2.2) := by
    intro v
    unfold Txn.Rollback
    rw [if_neg (by simp [hact])]
  have hres : ∀ v : W, (IptablesRestore exec tailText t.v6 t.backup v).2.1
      = [buildCommand (if t.v6 = true then "/usr/sbin/ip6tables-restore".toList
            else "/usr/sbin/iptables-restore".toList)
          [WithShell true, WithStdin t.backup]] := by
    intro v
    unfold IptablesRestore
    simp only []
    split <;> rfl
  refine ⟨⟨?_, ?_, ?_⟩, ?_, ?_, ?_, ?_⟩
  · simp [Txn.ExecInTxn, Txn.Commit]
  · simp [Txn.ExecInTxn, Txn.Commit]
  · simp [Txn.Rollback, Txn.Commit]
  · rw [hrb]
  · rw [hrb w, hrb w']
    exact hres w'
  · rw [hrb w]
    unfold Txn.ExecInTxn
    rw [if_neg (by simp [hact])]
    simp only []
    split <;> rfl
  · rw [hrb w]
    unfold Txn.ExecInTxn
    rw [if_neg (by simp [hact])]
    simp only []
    split
    · rename_i err h; rw [h]
    · rename_i h; rw [h]

/-- A transaction that is rolled back and then used again: the command is
executed. -/
theorem txn_rollback_leaves_active_witness :
    (Txn.ExecInTxn scriptedExec (fun s => s)
        (Txn.Rollback scriptedExec (fun s => s)
          { v6 := false, backup := "*filter\nCOMMIT\n".toList, active := true } []).2.1
        [{ Stdout := "flushed".toList }] "iptables -F".toList [WithShell true]).2.2.1.head?
      = some { Raw := "iptables -F".toList, Shell := true } :=
  (txn_rollback_leaves_active scriptedExec (fun s => s)
    { v6 := false, backup := "*filter\nCOMMIT\n".toList, active := true } []
    [{ Stdout := "flushed".toList }] "iptables -F".toList [WithShell true] rfl).2.2.2.1

/-! ### The NAT target read back -/

theorem parseRuleSpec_dnat (X : Str) (hX : ∀ c ∈ X, isSpace c = false) (hne : X ≠ []) :
    parseRuleSpec ("-j DNAT --to-destination ".toList ++ X)
      = { protocol := "all".toList, action := "DNAT".toList,
          toSource := X.takeWhile (fun c => decide (c ≠ ':')),
          toPort := ((X.dropWhile (fun c => decide (c ≠ ':'))).drop 1).takeWhile
            (fun c => decide (c ≠ ':')) } := by
  have hsp : "-j DNAT --to-destination ".toList
      = spaced ["-j".toList, "DNAT".toList, "--to-destination".toList] := by decide
  have hf := fields_spaced ["-j".toList, "DNAT".toList, "--to-destination".toList] X
    (by
      intro t ht
      simp only [List.mem_cons, List.mem_singleton, List.not_mem_nil, or_false] at ht
      rcases ht with h | h | h <;> subst h <;> exact ⟨by decide, by decide⟩)
    hX
  have hloop : parseRuleSpecLoop
      (["-j".toList, "DNAT".toList, "--to-destination".toList] ++ [X]) {}
      = (if contains X ":".toList = true then
          (if (split X ':').length > 1 then
            { action := "DNAT".toList, toSource := (split X ':').headD [],
              toPort := (split X ':').getD 1 [] }
           else { action := "DNAT".toList, toSource := (split X ':').headD [] })
         else ({ action := "DNAT".toList, toSource := X } : Projection)) := by
    simp only [List.cons_append, List.nil_append, parseRuleSpecLoop, applyOption]
    simp only [show ("-j".toList = "-p".toList) = False from by decide,
      show ("-j".toList = "-s".toList) = False from by decide,
      show ("-j".toList = "--sport".toList) = False from by decide,
      show ("-j".toList = "--source-port".toList) = False from by decide,
      show ("-j".toList = "-d".toList) = False from by decide,
      show ("-j".toList = "--dport".toList) = False from by decide,
      show ("-j".toList = "--destination-port".toList) = False from by decide,
      show ("--to-destination".toList = "-p".toList) = False from by decide,
      show ("--to-destination".toList = "-s".toList) = False from by decide,
      show ("--to-destination".toList = "--sport".toList) = False from by decide,
      show ("--to-destination".toList = "--source-port".toList) = False from by decide,
      show ("--to-destination".toList = "-d".toList) = False from by decide,
      show ("--to-destination".toList = "--dport".toList) = False from by decide,
      show ("--to-destination".toList = "--destination-port".toList) = False from by decide,
      show ("--to-destination".toList = "-j".toList) = False from by decide,
      show ("--to-destination".toList = "-i".toList) = False from by decide,
      show ("--to-destination".toList = "--ctstate".toList) = False from by decide,
      or_self, if_false, if_true]
    split_ifs <;> rfl
  have hhead := splitAux_head ':' X []
  have hsec := splitAux_second ':' X []
  rw [List.nil_append] at hhead
  have hcont : contains X ":".toList = decide (':' ∈ X) := by
    unfold contains
    exact index_singleton ':' X
  have hval : parseRuleSpecLoop
      (["-j".toList, "DNAT".toList, "--to-destination".toList] ++ [X]) {}
      = { action := "DNAT".toList,
          toSource := X.takeWhile (fun c => decide (c ≠ ':')),
          toPort := ((X.dropWhile (fun c => decide (c ≠ ':'))).drop 1).takeWhile
            (fun c => decide (c ≠ ':')) } := by
    rw [hloop, hcont]
    by_cases hmem : ':' ∈ X
    · rw [if_pos (decide_eq_true hmem)]
      by_cases hlen : (split X ':').length > 1
      · rw [if_pos hlen]
        unfold split
        rw [hhead, hsec]
      · rw [if_neg hlen]
        have : (splitAux ':' X []).length ≤ 1 := Nat.le_of_not_lt hlen
        rw [← hsec, List.getD_eq_default _ _ this]
        unfold split
        rw [hhead]
    · rw [if_neg (by simpa using hmem)]
      obtain ⟨e1, e2⟩ := takeWhile_ne_of_not_mem ':' X hmem
      rw [e1, e2]
      rfl
  unfold parseRuleSpec
  simp only []
  rw [hsp, hf, if_neg hne, hval]
  rfl

theorem takeWhile_colon_append (a b : Str) (ha : ':' ∉ a) :
    (a ++ ':' :: b).takeWhile (fun c => decide (c ≠ ':')) = a ∧
    (a ++ ':' :: b).dropWhile (fun c => decide (c ≠ ':')) = ':' :: b := by
  induction a with
  | nil => simp
  | cons x xs ih =>
    have hx : x ≠ ':' := fun e => ha (by simp [e])
    have := ih (fun h => ha (List.mem_cons_of_mem _ h))
    constructor
    · rw [List.cons_append, List.takeWhile_cons_of_pos (by simpa using hx), this.1]
    · rw [List.cons_append, List.dropWhile_cons_of_pos (by simpa using hx), this.2]

/-- C28: for every rule with action DNAT whose other optional fields are
empty and whose `toSource` and `toPort` hold neither white space nor `:` and
are not both empty, `parseRuleSpec` applied to the space-joined output of
`buildIptablesArgs` returns the action DNAT and the same `toSource` and
`toPort`: with both set, with `toPort` alone (the form with a leading colon)
and with `toSource` alone. -/
theorem dnat_target_read_back (num : Option Int) (a b : Str)
    (ha : ∀ c ∈ a, isSpace c = false ∧ c ≠ ':') (hb : ∀ c ∈ b, isSpace c = false ∧ c ≠ ':')
    (hne : a ≠ [] ∨ b ≠ []) :
    (parseRuleSpec (join (buildIptablesArgs
        { Num := num, Action := "DNAT".toList, ToSource := a, ToPort := b }) " ".toList)).action
      = "DNAT".toList ∧
    (parseRuleSpec (join (buildIptablesArgs
        { Num := num, Action := "DNAT".toList, ToSource := a, ToPort := b }) " ".toList)).toSource
      = a ∧
    (parseRuleSpec (join (buildIptablesArgs
        { Num := num, Action := "DNAT".toList, ToSource := a, ToPort := b }) " ".toList)).toPort
      = b := by
  have hca : ':' ∉ a := fun h => (ha _ h).2 rfl
  have hcb : ':' ∉ b := fun h => (hb _ h).2 rfl
  have hargs : buildIptablesArgs
      { Num := num, Action := "DNAT".toList, ToSource := a, ToPort := b }
      = ["-j".toList, "DNAT".toList, "--to-destination".toList] ++
        [a ++ (if b ≠ [] then ":".toList ++ b else [])] := by
    rw [buildIptablesArgs_spec]
    have hD : ("DNAT".toList : Str) ≠ [] := by decide
    have hDS : ¬ ("DNAT".toList : Str) = "SNAT".toList := by decide
    have hDR : ¬ ("DNAT".toList : Str) = "REDIRECT".toList := by decide
    simp [encodeSpec, emitIf, hD, hDS, hDR, hne]
  have hjoin : join (buildIptablesArgs
      { Num := num, Action := "DNAT".toList, ToSource := a, ToPort := b }) " ".toList
      = "-j DNAT --to-destination ".toList ++ (a ++ (if b ≠ [] then ":".toList ++ b else [])) := by
    rw [hargs, join_concat_space]
    rfl
  have hsp : ∀ c ∈ a ++ (if b ≠ [] then ":".toList ++ b else []), isSpace c = false := by
    intro c hc
    rcases List.mem_append.1 hc with h | h
    · exact (ha c h).1
    · by_cases hbn : b = []
      · rw [if_neg (by simpa using hbn)] at h; cases h
      · rw [if_pos hbn] at h
        rcases List.mem_append.1 h with h | h
        · rw [List.mem_singleton.1 h]; decide
        · exact (hb c h).1
  have hXne : a ++ (if b ≠ [] then ":".toList ++ b else []) ≠ [] := by
    rcases hne with h | h
    · intro e; exact h (List.append_eq_nil.1 e).1
    · intro e
      have := (List.append_eq_nil.1 e).2
      rw [if_pos h] at this
      cases this
  rw [hjoin, parseRuleSpec_dnat _ hsp hXne]
  by_cases hbn : b = []
  · subst hbn
    simp only [ne_eq, not_true_eq_false, if_false, List.append_nil]
    obtain ⟨e1, e2⟩ := takeWhile_ne_of_not_mem ':' a hca
    rw [e1, e2]
    simp
  · rw [if_pos hbn]
    obtain ⟨e1, e2⟩ := takeWhile_colon_append a b hca
    rw [show ":".toList ++ b = ':' :: b from rfl, e1, e2]
    refine ⟨rfl, rfl, ?_⟩
    show (List.drop 1 (':' :: b)).takeWhile _ = b
    exact (takeWhile_ne_of_not_mem ':' b hcb).1

/-- The three forms of the target: address and port, port alone, address
alone. -/
theorem dnat_target_read_back_witness :
    ((parseRuleSpec (join (buildIptablesArgs
        { Action := "DNAT".toList, ToSource := "10.0.0.5".toList, ToPort := "8080".toList })
        " ".toList)).toSource = "10.0.0.5".toList ∧
      (parseRuleSpec (join (buildIptablesArgs
        { Action := "DNAT".toList, ToSource := "10.0.0.5".toList, ToPort := "8080".toList })
        " ".toList)).toPort = "8080".toList) ∧
    (parseRuleSpec (join (buildIptablesArgs
        { Action := "DNAT".toList, ToSource := [], ToPort := "8080".toList })
        " ".toList)).toPort = "8080".toList ∧
    (parseRuleSpec (join (buildIptablesArgs
        { Action := "DNAT".toList, ToSource := "10.0.0.5".toList, ToPort := [] })
        " ".toList)).toSource = "10.0.0.5".toList :=
  ⟨(dnat_target_read_back none "10.0.0.5".toList "8080".toList (by decide) (by decide)
      (by decide)).2,
   (dnat_target_read_back none [] "8080".toList (by decide) (by decide) (by decide)).2.2,
   (dnat_target_read_back none "10.0.0.5".toList [] (by decide) (by decide) (by decide)).2.1⟩

/-! ### Rule ids -/

theorem digitVal_digitChar (k : Nat) (hk : k < 10) : digitVal (Nat.digitChar k) = some k := by
  interval_cases k <;> rfl

theorem digitChar_ne (k : Nat) (hk : k < 10) (c : Char) (hc : digitVal c = none) :
    Nat.digitChar k ≠ c := by
  intro e
  rw [← e, digitVal_digitChar k hk] at hc
  cases hc

/-- The digits that `toDigitsCore` puts in front of `ds`: they are digits, at
least one, and they denote `n`. -/
theorem toDigitsCore_digits (fuel : Nat) : ∀ (n : Nat) (ds : Str), n < fuel →
    ∃ pre : Str, Nat.toDigitsCore 10 fuel n ds = pre ++ ds ∧ pre ≠ [] ∧
      (∀ c ∈ pre, digitVal c ≠ none) ∧
      ∀ (acc : Nat) (rest : Str),
        parseDigits (pre ++ rest) acc = parseDigits rest (acc * 10 ^ pre.length + n) := by
  induction fuel with
  | zero => intro n ds h; exact absurd h (Nat.not_lt_zero _)
  | succ fuel ih =>
    intro n ds hn
    have hd := digitVal_digitChar (n % 10) (Nat.mod_lt _ (by decide))
    rw [Nat.toDigitsCore]
    by_cases h0 : n / 10 = 0
    · rw [if_pos h0]
      have hlt : n < 10 := by omega
      refine ⟨[Nat.digitChar (n % 10)], rfl, by simp, ?_, ?_⟩
      · intro c hc
        rw [List.mem_singleton.1 hc, hd]
        simp
      · intro acc rest
        rw [List.singleton_append, parseDigits, hd]
        simp only [List.length_singleton, pow_one]
        rw [Nat.mod_eq_of_lt hlt]
    · rw [if_neg h0]
      obtain ⟨pre, h1, _, h3, h4⟩ := ih (n / 10) (Nat.digitChar (n % 10) :: ds) (by omega)
      refine ⟨pre ++ [Nat.digitChar (n % 10)], ?_, by simp, ?_, ?_⟩
      · rw [h1]; simp
      · intro c hc
        rcases List.mem_append.1 hc with h | h
        · exact h3 c h
        · rw [List.mem_singleton.1 h, hd]; simp
      · intro acc rest
        rw [List.append_assoc, h4, List.singleton_append, parseDigits, hd]
        simp only [List.length_append, List.length_singleton]
        congr 1
        rw [pow_succ]
        have := Nat.div_add_mod n 10
        nlinarith [this]

theorem decimal_digits (n : Nat) :
    decimal n ≠ [] ∧ (∀ c ∈ decimal n, digitVal c ≠ none) ∧ parseDigits (decimal n) 0 = some n := by
  obtain ⟨pre, h1, h2, h3, h4⟩ := toDigitsCore_digits (n + 1) n [] (Nat.lt_succ_self n)
  have hd : decimal n = pre := by
    unfold decimal Nat.toDigits
    rw [h1, List.append_nil]
  rw [hd]
  refine ⟨h2, h3, ?_⟩
  have := h4 0 []
  rw [List.append_nil] at this
  rw [this, parseDigits]
  simp

theorem atoi_decimal (n : Nat) (hn : n < 2 ^ 63) : atoi (decimal n) = some (n : Int) := by
  obtain ⟨h1, h2, h3⟩ := decimal_digits n
  obtain ⟨d, ds, hd⟩ := List.exists_cons_of_ne_nil h1
  have hdig : digitVal d ≠ none := h2 d (by rw [hd]; exact List.mem_cons_self _ _)
  have hplus : d ≠ '+' := fun e => hdig (by rw [e]; rfl)
  have hminus : d ≠ '-' := fun e => hdig (by rw [e]; rfl)
  unfold atoi
  simp only []
  rw [hd] at h3 ⊢
  have hh : ¬ ((d :: ds).head? = some '+' ∨ (d :: ds).head? = some '-') := by
    simp [hplus, hminus]
  have hm : ¬ (d :: ds).head? = some '-' := by simp [hminus]
  rw [if_neg hh, if_neg (by simp), h3]
  simp only []
  rw [if_neg hm, if_pos]
  constructor
  · have : (0 : Int) ≤ (n : Int) := Int.ofNat_nonneg n
    have h63 : (0 : Int) < 2 ^ 63 := by norm_num
    omega
  · exact_mod_cast hn

theorem parseDigits_none (s : Str) (c : Char) (hc : c ∈ s) (hd : digitVal c = none) :
    ∀ acc, parseDigits s acc = none := by
  induction s with
  | nil => cases hc
  | cons x xs ih =>
    intro acc
    rw [parseDigits]
    rcases List.mem_cons.1 hc with h | h
    · rw [← h, hd]
    · cases digitVal x with
      | none => rfl
      | some d => exact ih h _

theorem atoi_colon (s : Str) (hs : ':' ∈ s) : atoi s = none := by
  have hcol : digitVal ':' = none := by rfl
  unfold atoi
  simp only []
  by_cases hh : s.head? = some '+' ∨ s.head? = some '-'
  · rw [if_pos hh]
    have hmem : ':' ∈ s.drop 1 := by
      rcases s with _ | ⟨a, t⟩
      · cases hs
      · rcases List.mem_cons.1 hs with h | h
        · exfalso
          rcases hh with h' | h' <;>
            · simp only [List.head?_cons, Option.some.injEq] at h'
              rw [← h] at h'
              revert h'
              decide
        · exact h
    by_cases he : s.drop 1 = []
    · rw [if_pos he]
    · rw [if_neg he, parseDigits_none _ ':' hmem hcol]
  · rw [if_neg hh]
    by_cases he : s = []
    · rw [if_pos he]
    · rw [if_neg he, parseDigits_none _ ':' hs hcol]

theorem lastIndex_append (c t : Str) (ht : ':' ∉ t) :
    lastIndex (c ++ ':' :: t) ":".toList = some c.length := by
  have hnone : ∀ u : Str, ':' ∉ u → lastIndex u ":".toList = none := by
    intro u
    induction u with
    | nil => intro _; rfl
    | cons x xs ih =>
      intro hu
      have hx : x ≠ ':' := fun e => hu (by simp [e])
      rw [lastIndex, ih (fun h => hu (List.mem_cons_of_mem _ h))]
      simp only []
      rw [if_neg]
      rw [show ":".toList = [':'] from rfl]
      simp [List.isPrefixOf, Ne.symm hx]
  induction c with
  | nil =>
    rw [List.nil_append, lastIndex, hnone t ht]
    simp only []
    rw [if_pos]
    · rfl
    · rw [show ":".toList = [':'] from rfl]
      simp [List.isPrefixOf]
  | cons x xs ih =>
    rw [List.cons_append, lastIndex, ih]
    rfl

/-- C29: for every chain name `c` (also one that holds `:` or digits) and
every num `n` within the range of `int`, `parseRuleNum` applied to the id `c:n`
returns `n` without error, and so does `parseRuleNum` applied to the decimal
text of `n`; the id of every rule that `parseTable` lists is of that form, so
that `parseRuleNum` gives back the num of the rule. -/
theorem parseRuleNum_rule_id :
    (∀ (c : Str) (n : Nat), n < 2 ^ 63 →
      parseRuleNum (c ++ ":".toList ++ decimal n) = some (n : Int) ∧
      parseRuleNum (decimal n) = some (n : Int)) ∧
    (∀ (dump table : Str), ∀ r ∈ (parseTable dump table).2, r.Num < 2 ^ 63 →
      parseRuleNum r.ID = some (r.Num : Int)) := by
  have main : ∀ (c : Str) (n : Nat), n < 2 ^ 63 →
      parseRuleNum (c ++ ":".toList ++ decimal n) = some (n : Int) := by
    intro c n hn
    have hdig := (decimal_digits n).2.1
    have hcol : ':' ∉ decimal n := fun h => hdig ':' h rfl
    have hid : c ++ ":".toList ++ decimal n = c ++ ':' :: decimal n := by
      rw [show ":".toList = [':'] from rfl]; simp
    unfold parseRuleNum
    rw [hid, atoi_colon _ (by simp), lastIndex_append c _ hcol]
    simp only []
    rw [show c.length + 1 = (c ++ [':']).length by simp,
      show c ++ ':' :: decimal n = (c ++ [':']) ++ decimal n by simp, List.drop_left]
    exact atoi_decimal n hn
  refine ⟨fun c n hn => ⟨main c n hn, ?_⟩, ?_⟩
  · unfold parseRuleNum
    rw [atoi_decimal n hn]
  · intro dump table r hr hn
    have h : NumInv (parseTableLines table (scanLines dump) {}) :=
      numInv_lines table _ _ ⟨fun c => by simp, by simp⟩
    have hid := h.2 r hr
    rw [hid]
    exact main r.Chain r.Num hn

/-- Ids of a chain whose name holds colons and digits, and a bare num. -/
theorem parseRuleNum_rule_id_witness :
    parseRuleNum ("my:chain2".toList ++ ":".toList ++ decimal 17) = some ((17 : Nat) : Int) ∧
    parseRuleNum (decimal 17) = some ((17 : Nat) : Int) :=
  parseRuleNum_rule_id.1 "my:chain2".toList 17 (by norm_num)

/-! ### Shell words -/

theorem shellWord_escape (s : Str) : ∀ acc : Str,
    shellWord .single (replaceAll s squote [squote, dquote, squote, dquote, squote] ++ [squote])
      acc = some (acc ++ s) := by
  have hq : ¬ (squote = dquote) := by decide
  have hs : ¬ (squote.toNat = 36 ∨ squote.toNat = 96 ∨ squote = backslash) := by decide
  induction s with
  | nil =>
    intro acc
    rw [replaceAll, List.nil_append, shellWord, if_pos rfl, shellWord, List.append_nil]
  | cons c cs ih =>
    intro acc
    rw [replaceAll]
    by_cases hc : c = squote
    · rw [if_pos hc, List.append_assoc]
      simp only [List.cons_append, List.nil_append]
      rw [shellWord, if_pos rfl, shellWord, if_neg (Ne.symm hq), if_pos rfl, shellWord,
        if_neg hq, if_neg hs, shellWord, if_pos rfl, shellWord, if_pos rfl, ih, hc]
      simp
    · rw [if_neg hc, List.append_assoc]
      simp only [List.cons_append, List.nil_append]
      rw [shellWord, if_neg hc, ih]
      simp

/-- C30: for every string `s`, also one that holds single quotes, reading
`shellEscape s` by the quoting rules of the shell gives back `s`: it is one
word and it denotes exactly `s`; hence `shellEscape` is injective. -/
theorem shellEscape_read :
    (∀ s : Str, shellRead (shellEscape s) = some s) ∧ Function.Injective shellEscape := by
  have h : ∀ s : Str, shellRead (shellEscape s) = some s := by
    intro s
    unfold shellRead shellEscape
    rw [if_neg (by simp)]
    simp only [List.singleton_append, List.cons_append, List.nil_append]
    rw [shellWord, if_pos rfl, shellWord_escape s []]
    rfl
  refine ⟨h, fun a b hab => ?_⟩
  have := congrArg shellRead hab
  rw [h a, h b] at this
  exact Option.some.inj this

theorem txn_rollback_active {W : Type} (exec : W → Command → Result × W)
    (tailText : Str → Str) (t : Txn) (w : W) (hact : t.active = true) :
    (Txn.Rollback exec tailText t w).2.1 = t ∧
    (Txn.Rollback exec tailText t w).2.2.1 = [restoreCommand t] ∧
    (Txn.Rollback exec tailText t w).2.2.2 = (exec w (restoreCommand t)).2 := by
  unfold Txn.Rollback
  rw [if_neg (by simp [hact])]
  refine ⟨rfl, ?_, ?_⟩ <;>
    (unfold IptablesRestore restoreCommand
     simp only []
     split <;> rfl)

/-- C21: for an active transaction, when the command that `ExecInTxn`
executes fails, exactly one restore is executed after it, whose stdin is the
snapshot of the transaction, and `ExecInTxn` returns the result and the error
of the failed command, whatever the restore answers; when the command succeeds
no restore is executed and no error is returned.  The snapshot of a
transaction that `BeginIptablesTxn` returns is the output of the save made at
begin, and the transaction is active. -/
theorem execInTxn_restores_on_failure :
    (∀ (W : Type) (exec : W → Command → Result × W) (tailText : Str → Str) (t : Txn) (w : W)
      (raw : Str) (opts : List (Command → Command)) (err : GoError),
      t.active = true →
      (exec w (buildCommand raw opts)).1.Err = some err →
      Txn.ExecInTxn exec tailText t w raw opts
        = (((exec w (buildCommand raw opts)).1, some err), t,
           [buildCommand raw opts, restoreCommand t],
           (exec (exec w (buildCommand raw opts)).2 (restoreCommand t)).2) ∧
      (restoreCommand t).Stdin = t.backup ∧
      (restoreCommand t).Raw = (if t.v6 = true then "/usr/sbin/ip6tables-restore".toList
        else "/usr/sbin/iptables-restore".toList)) ∧
    (∀ (W : Type) (exec : W → Command → Result × W) (tailText : Str → Str) (t : Txn) (w : W)
      (raw : Str) (opts : List (Command → Command)),
      t.active = true →
      (exec w (buildCommand raw opts)).1.Err = none →
      Txn.ExecInTxn exec tailText t w raw opts
        = (((exec w (buildCommand raw opts)).1, none), t, [buildCommand raw opts],
           (exec w (buildCommand raw opts)).2)) ∧
    (∀ (W : Type) (exec : W → Command → Result × W) (tailText : Str → Str) (v6 : Bool) (w : W)
      (t : Txn),
      (BeginIptablesTxn exec tailText v6 w).1.1 = some t →
      t.active = true ∧ t.v6 = v6 ∧
      t.backup = (exec w (buildCommand (if v6 = true then "/usr/sbin/ip6tables-save".toList
        else "/usr/sbin/iptables-save".toList) [WithShell true])).1.Stdout) := by
  refine ⟨?_, ?_, ?_⟩
  · intro W exec tailText t w raw opts err hact herr
    obtain ⟨h1, h2, h3⟩ := txn_rollback_active exec tailText t
      (exec w (buildCommand raw opts)).2 hact
    refine ⟨?_, ?_, ?_⟩
    · unfold Txn.ExecInTxn
      rw [if_neg (by simp [hact])]
      simp only []
      rw [herr]
      simp only []
      rw [h1, h2, h3]
    · cases t with
      | mk v6 backup active => cases v6 <;> rfl
    · cases t with
      | mk v6 backup active => cases v6 <;> rfl
  · intro W exec tailText t w raw opts hact hok
    unfold Txn.ExecInTxn
    rw [if_neg (by simp [hact])]
    simp only []
    rw [hok]
  · intro W exec tailText v6 w t ht
    unfold BeginIptablesTxn IptablesSave at ht
    simp only [] at ht
    split at ht
    · simp at ht
    · rename_i hE
      simp only [Option.some.injEq] at ht
      subst ht
      refine ⟨rfl, rfl, ?_⟩
      simp only []
      split at hE
      · simp at hE
      · rename_i hE'
        simp

/-- A command that fails inside a transaction begun on a dump: the restore is
fed that dump, and the error of the command is returned although the restore
fails as well. -/
theorem execInTxn_restores_on_failure_witness :
    Txn.ExecInTxn scriptedExec (fun s => s)
        { v6 := false, backup := "*filter\nCOMMIT\n".toList, active := true }
        [{ Stderr := "bad rule".toList, Err := some (.exitError 2 []), Code := 2 },
         { Err := some (.other "lost".toList), Code := -1 }]
        "iptables -A INPUT".toList [WithShell true]
      = (({ Stderr := "bad rule".toList, Err := some (.exitError 2 []), Code := 2 },
          some (.exitError 2 [])),
         { v6 := false, backup := "*filter\nCOMMIT\n".toList, active := true },
         [{ Raw := "iptables -A INPUT".toList, Shell := true },
          { Raw := "/usr/sbin/iptables-restore".toList, Shell := true,
            Stdin := "*filter\nCOMMIT\n".toList }],
         []) :=
  (execInTxn_restores_on_failure.1 (List Result) scriptedExec (fun s => s)
    { v6 := false, backup := "*filter\nCOMMIT\n".toList, active := true }
    [{ Stderr := "bad rule".toList, Err := some (.exitError 2 []), Code := 2 },
     { Err := some (.other "lost".toList), Code := -1 }]
    "iptables -A INPUT".toList [WithShell true] (.exitError 2 []) rfl rfl).1

/-! ### The capability cache -/

theorem capCache_set_other (cc : CapCache) (k k' : Str) (v' : Capabilities) (t1 : Int)
    (h : k' ≠ k) :
    (cc.Set t1 k' v').items k = cc.items k ∧ (cc.Set t1 k' v').ttl = cc.ttl := by
  unfold CapCache.Set
  exact ⟨Function.update_noteq (Ne.symm h) _ _, rfl⟩

theorem capCache_setAll_other (k : Str) (ops : List (Str × Capabilities × Int))
    (hops : ∀ o ∈ ops, o.1 ≠ k) : ∀ cc : CapCache,
    (cc.setAll ops).items k = cc.items k ∧ (cc.setAll ops).ttl = cc.ttl := by
  induction ops with
  | nil => intro cc; exact ⟨rfl, rfl⟩
  | cons o os ih =>
    intro cc
    have h1 := capCache_set_other cc k o.1 o.2.1 o.2.2 (hops o (List.mem_cons_self _ _))
    have h2 := ih (fun x hx => hops x (List.mem_cons_of_mem _ hx)) (cc.Set o.2.2 o.1 o.2.1)
    unfold CapCache.setAll at h2 ⊢
    rw [List.foldl_cons]
    exact ⟨h2.1.trans h1.1, h2.2.trans h1.2⟩

/-- C24: for a capability cache with a time to live above zero: after
`Set(k, v)` at the instant `t0` and any later calls of `Set` for other keys,
`Get(k)` at the instant `t` is a hit with the capabilities `v` when `t - t0` is
within the time to live, and a miss when `t - t0` exceeds it; `Get` of a key
that was never set is a miss; a `Set` of another key does not change what
`Get(k)` returns. -/
theorem capCache_get_after_set :
    (∀ (cc : CapCache) (k : Str) (v : Capabilities) (t0 t : Int)
      (ops : List (Str × Capabilities × Int)),
      cc.ttl > 0 → (∀ o ∈ ops, o.1 ≠ k) →
      (t - t0 ≤ cc.ttl → ((cc.Set t0 k v).setAll ops).Get t k = (v, true)) ∧
      (t - t0 > cc.ttl → ((cc.Set t0 k v).setAll ops).Get t k = ({}, false))) ∧
    (∀ (ttl t : Int) (k : Str) (ops : List (Str × Capabilities × Int)),
      (∀ o ∈ ops, o.1 ≠ k) → ((NewCapCache ttl).setAll ops).Get t k = ({}, false)) ∧
    (∀ (cc : CapCache) (k k' : Str) (v' : Capabilities) (t1 t : Int),
      k' ≠ k → (cc.Set t1 k' v').Get t k = cc.Get t k) := by
  refine ⟨?_, ?_, ?_⟩
  · intro cc k v t0 t ops httl hops
    obtain ⟨h1, h2⟩ := capCache_setAll_other k ops hops (cc.Set t0 k v)
    have hi : (cc.Set t0 k v).items k = some (v, t0) := by
      unfold CapCache.Set; exact Function.update_same _ _ _
    have ht : (cc.Set t0 k v).ttl = cc.ttl := rfl
    constructor
    · intro hle
      unfold CapCache.Get
      rw [h1, hi, h2, ht]
      simp only []
      rw [if_neg (by omega)]
    · intro hgt
      unfold CapCache.Get
      rw [h1, hi, h2, ht]
      simp only []
      rw [if_pos ⟨httl, hgt⟩]
  · intro ttl t k ops hops
    obtain ⟨h1, _⟩ := capCache_setAll_other k ops hops (NewCapCache ttl)
    unfold CapCache.Get
    rw [h1]
    rfl
  · intro cc k k' v' t1 t h
    obtain ⟨h1, h2⟩ := capCache_set_other cc k k' v' t1 h
    unfold CapCache.Get
    rw [h1, h2]

/-- A cache of 60 s: a hit after 59 s, with a later entry for another host in
between, and a miss after 61 s. -/
theorem capCache_get_after_set_witness :
    ((((NewCapCache 60000000000).Set 0 "10.0.0.1".toList
          { SudoNoPass := true, IptablesPath := "/sbin/iptables".toList }).setAll
        [("10.0.0.2".toList, {}, 5)]).Get 59000000000 "10.0.0.1".toList
      = ({ SudoNoPass := true, IptablesPath := "/sbin/iptables".toList }, true)) ∧
    ((((NewCapCache 60000000000).Set 0 "10.0.0.1".toList
          { SudoNoPass := true, IptablesPath := "/sbin/iptables".toList }).setAll
        [("10.0.0.2".toList, {}, 5)]).Get 61000000000 "10.0.0.1".toList
      = ({}, false)) :=
  ⟨(capCache_get_after_set.1 (NewCapCache 60000000000) "10.0.0.1".toList
      { SudoNoPass := true, IptablesPath := "/sbin/iptables".toList } 0 59000000000
      [("10.0.0.2".toList, {}, 5)] (by decide) (by decide)).1 (by decide),
   (capCache_get_after_set.1 (NewCapCache 60000000000) "10.0.0.1".toList
      { SudoNoPass := true, IptablesPath := "/sbin/iptables".toList } 0 61000000000
      [("10.0.0.2".toList, {}, 5)] (by decide) (by decide)).2 (by decide)⟩

/-! ### Sealed credentials -/

theorem plainLib_lawful : plainLib.Lawful where
  open_seal := fun _ _ _ _ _ => rfl
  decode_encode := by
    intro b
    have h : ∀ n : Fin 256, (Fin.ofNat (Char.ofNat n.val).toNat : Fin 256) = n := by
      intro n
      have hv : n.val.isValidChar := Or.inl (by omega)
      have ht : (Char.ofNat n.val).toNat = n.val := by
        simp only [Char.ofNat, hv, Char.toNat, Char.ofNatAux, dite_true]
        rfl
      rw [ht]
      apply Fin.ext
      show n.val % 256 = n.val
      exact Nat.mod_eq_of_lt n.isLt
    show some ((b.map (fun n => Char.ofNat n.val)).map (fun c => Fin.ofNat c.toNat)) = some b
    rw [List.map_map]
    congr 1
    conv_rhs => rw [← List.map_id b]
    exact List.map_congr_left (fun n _ => h n)
  encode_ne_nil := by
    intro b hb h
    exact hb (List.map_eq_nil_iff.1 h)

/-- C23: with a key of 32 bytes, for every plaintext `x` and every nonce that
`Seal` draws (12 bytes), `Seal` returns a text without error and `Open` of
that text returns `x` without error, given what the library promises of
AES-GCM and base64; `Seal` of the empty string is the empty string and `Open`
of the empty string is the empty string, both without error, whatever the key
and the library. -/
theorem seal_then_open (L : CryptoLib) (hL : L.Lawful) (key nonce x : Bytes)
    (hkey : key.length = 32) (hnonce : nonce.length = 12) :
    (∃ c : Str, Seal L key (some nonce) x = some c ∧ Open L key c = some x) ∧
    (∀ (L' : CryptoLib) (key' : Bytes) (drawn : Option Bytes),
      Seal L' key' drawn [] = some [] ∧ Open L' key' [] = some []) := by
  have hk : keyAccepted key = true := by
    unfold keyAccepted; simp [hkey]
  refine ⟨?_, fun L' key' drawn => ⟨rfl, rfl⟩⟩
  by_cases hx : x = []
  · subst hx
    exact ⟨[], rfl, rfl⟩
  · refine ⟨L.encodeToString (nonce ++ L.aeadSeal key nonce x), ?_, ?_⟩
    · unfold Seal
      rw [if_neg hx, if_neg (by simp [hk])]
    · have hne : nonce ++ L.aeadSeal key nonce x ≠ [] := by
        intro e
        have := congrArg List.length e
        simp only [List.length_append, List.length_nil] at this
        omega
      unfold Open
      rw [if_neg (hL.encode_ne_nil _ hne), hL.decode_encode]
      simp only []
      rw [if_neg (by simp [hk]), if_neg (by
        simp only [nonceSize, List.length_append]; omega)]
      have ht : (nonce ++ L.aeadSeal key nonce x).take nonceSize = nonce := by
        rw [show nonceSize = nonce.length from hnonce.symm]; exact List.take_left _ _
      have hd : (nonce ++ L.aeadSeal key nonce x).drop nonceSize = L.aeadSeal key nonce x := by
        rw [show nonceSize = nonce.length from hnonce.symm]; exact List.drop_left _ _
      rw [ht, hd]
      exact hL.open_seal key nonce x (Or.inr (Or.inr hkey)) hnonce

/-- A plaintext of three bytes under a key of 32 bytes and a nonce of 12. -/
theorem seal_then_open_witness :
    ∃ c : Str, Seal plainLib (List.replicate 32 7) (some (List.replicate 12 1)) [104, 105, 33]
        = some c ∧
      Open plainLib (List.replicate 32 7) c = some [104, 105, 33] :=
  (seal_then_open plainLib plainLib_lawful (List.replicate 32 7) (List.replicate 12 1)
    [104, 105, 33] (by decide) (by decide)).1

/-! ### Rule management -/

theorem buildCommand_shell (raw : Str) :
    buildCommand raw [WithShell true] = { Raw := raw, Shell := true } := by
  unfold buildCommand
  simp [WithShell]

theorem buildIptablesArgs_num (r : RuleInput) (n : Option Int) :
    buildIptablesArgs { r with Num := n } = buildIptablesArgs r := by
  rw [buildIptablesArgs_spec, buildIptablesArgs_spec]
  rfl

/-! ### The words of a command line -/

theorem fieldsAux_words (s : Str) : ∀ cur : Str, (∀ c ∈ cur, isSpace c = false) →
    ∀ f ∈ fieldsAux s cur, isWord f := by
  induction s with
  | nil =>
    intro cur hcur f hf
    rw [fieldsAux] at hf
    by_cases h : cur = []
    · rw [if_pos h] at hf; cases hf
    · rw [if_neg h, List.mem_singleton] at hf
      rw [hf]; exact ⟨h, hcur⟩
  | cons c cs ih =>
    intro cur hcur f hf
    rw [fieldsAux] at hf
    by_cases hc : isSpace c = true
    · rw [if_pos hc] at hf
      by_cases h : cur = []
      · rw [if_pos h] at hf
        exact ih [] (by simp) f hf
      · rw [if_neg h] at hf
        rcases List.mem_cons.1 hf with e | e
        · rw [e]; exact ⟨h, hcur⟩
        · exact ih [] (by simp) f e
    · rw [if_neg hc] at hf
      refine ih (cur ++ [c]) ?_ f hf
      intro d hd
      rcases List.mem_append.1 hd with e | e
      · exact hcur d e
      · rw [List.mem_singleton.1 e]; simpa using hc

theorem fields_words (s : Str) : ∀ f ∈ fields s, isWord f :=
  fieldsAux_words s [] (by simp)

theorem iptablesLine_join (cap : Capabilities) (v6 : Bool) (table : Str) (args : List Str)
    (h : args ≠ []) :
    iptablesLine cap v6 table args
      = join ([iptablesBin cap v6, "-t".toList, table] ++ args) " ".toList := by
  obtain ⟨a, as, rfl⟩ := List.exists_cons_of_ne_nil h
  unfold iptablesLine join
  simp only [List.cons_append, List.nil_append]
  rw [intercalate_cons_cons, intercalate_cons_cons, intercalate_cons_cons]
  simp [List.append_assoc]

theorem placement_ne_nil (chainName : Str) (num : Option Int) : placement chainName num ≠ [] := by
  unfold placement
  rcases num with _ | n
  · simp
  · simp only []
    split_ifs <;> simp

/-- The words of the line of `Client.Iptables` are its arguments exactly when
every argument is a word. -/
theorem iptablesLine_words (cap : Capabilities) (v6 : Bool) (table : Str) (args : List Str)
    (h : args ≠ []) :
    fields (iptablesLine cap v6 table args)
        = [iptablesBin cap v6, "-t".toList, table] ++ args ↔
      ∀ a ∈ [iptablesBin cap v6, "-t".toList, table] ++ args, isWord a := by
  constructor
  · intro hf a ha
    rw [← hf] at ha
    exact fields_words _ a ha
  · intro hw
    rw [iptablesLine_join cap v6 table args h]
    exact fields_join_words _ hw

/-! ### The capability probe -/

theorem capCache_get_absent (cc : CapCache) (t : Int) (k : Str) (h : cc.items k = none) :
    cc.Get t k = ({}, false) := by
  unfold CapCache.Get
  rw [h]

/-- C26: for a host with the sudo strategy, a connection that is established
whenever it is asked for, and no capabilities of the host in the cache (no
cache at all, or no entry for the host), `Client.Exec` of any command does not
return: for every bound on the depth of the calls of `Client.Exec` the call
needs a deeper one, since `ProbeCapabilities` calls `Client.Exec` for its first
probe command before anything is cached, and that call probes again.  With
the capabilities `cap` of the host in the cache (a hit) the call returns at
depth 1 what the sudo ladder returns on `cap`. -/
theorem clientExec_probe_recursion :
    (∀ (W : Type) (lower : Char → Char) (printable : Char → Bool) (R : Remote W)
      (now : W → Int) (host : HostConfig) (cache : Option CapCache),
      StrategyByHost lower host.LoginMethod = .sudo →
      (∀ w : W, (R.getOrConnect w).1 = none) →
      (cache = none ∨ ∃ cc : CapCache, cache = some cc ∧ cc.items host.IP = none) →
      ∀ (fuel : Nat) (w : W) (cmd : Command),
        Client.Exec lower printable R now host fuel { world := w, cache := cache } cmd = none) ∧
    (∀ (W : Type) (lower : Char → Char) (printable : Char → Bool) (R : Remote W)
      (now : W → Int) (host : HostConfig) (cc : CapCache) (cap : Capabilities) (fuel : Nat)
      (w : W) (cmd : Command),
      StrategyByHost lower host.LoginMethod = .sudo →
      (R.getOrConnect w).1 = none →
      cc.Get (now (R.getOrConnect w).2) host.IP = (cap, true) →
      Client.Exec lower printable R now host (fuel + 1) { world := w, cache := some cc } cmd
        = some ({ (sudoLadder lower R host.IP cap host.userPass (R.getOrConnect w).2 cmd).1 with
              HostIP := host.IP, Strategy := "sudo".toList },
            (sudoLadder lower R host.IP cap host.userPass (R.getOrConnect w).2 cmd).2.1,
            { world := (sudoLadder lower R host.IP cap host.userPass
                (R.getOrConnect w).2 cmd).2.2,
              cache := some cc })) := by
  refine ⟨?_, ?_⟩
  · intro W lower printable R now host cache hsudo hconn hmiss fuel
    induction fuel with
    | zero => intro w cmd; rfl
    | succ fuel ih =>
      intro w cmd
      rw [Client.Exec, hsudo]
      simp only []
      rcases hc : R.getOrConnect w with ⟨e, w1⟩
      have he : e = none := by
        have := hconn w
        rw [hc] at this
        exact this
      subst he
      simp only []
      have hhit : (match cache with
          | none => (none : Option Capabilities)
          | some cc => if (cc.Get (now w1) host.IP).2 then some (cc.Get (now w1) host.IP).1
            else none) = none := by
        rcases hmiss with h | ⟨cc, h, hk⟩
        · rw [h]
        · rw [h]
          simp only []
          rw [capCache_get_absent cc _ _ hk]
          rfl
      rw [hhit]
      simp only []
      rw [ih w1 probeSudo]
  · intro W lower printable R now host cc cap fuel w cmd hsudo hconn hget
    rw [Client.Exec, hsudo]
    simp only []
    rcases hc : R.getOrConnect w with ⟨e, w1⟩
    rw [hc] at hconn hget
    simp only [] at hconn hget
    subst hconn
    simp only []
    rw [hget]
    rfl

/-- A sudo host with no cache behind a remote side that accepts every
connection: no depth of 50 calls suffices. -/
theorem clientExec_probe_recursion_witness :
    Client.Exec asciiLower (fun _ => true) scripted (fun _ => 0)
        { IP := "10.0.0.1".toList, LoginMethod := "sudo".toList, userPass := "secret".toList }
        50 { world := [], cache := none } { Raw := "iptables -L".toList, Shell := true }
      = none :=
  clientExec_probe_recursion.1 (List RunOutcome) asciiLower (fun _ => true) scripted
    (fun _ => 0)
    { IP := "10.0.0.1".toList, LoginMethod := "sudo".toList, userPass := "secret".toList }
    none (by decide) (fun _ => rfl) (Or.inl rfl) 50 []
    { Raw := "iptables -L".toList, Shell := true }

/-! ### Rule management on a host -/

/-- With a strategy other than sudo `Client.Exec` returns at depth 1, and
leaves the cache of the client as it was. -/
theorem clientExec_returns {W : Type} (lower : Char → Char) (printable : Char → Bool)
    (R : Remote W) (now : W → Int) (host : HostConfig) (fuel : Nat) (st : ClientState W)
    (cmd : Command) (h : StrategyByHost lower host.LoginMethod ≠ .sudo) :
    ∃ (res : Result) (t : List SessionRun) (w' : W),
      Client.Exec lower printable R now host (fuel + 1) st cmd
        = some (res, t, { world := w', cache := st.cache }) := by
  rw [Client.Exec]
  rcases hS : StrategyByHost lower host.LoginMethod with _ | _ | _
  · exact ⟨_, _, _, rfl⟩
  · exact absurd hS h
  · exact ⟨_, _, _, rfl⟩

/-- With the sudo strategy, a connection that is established whenever it is
asked for and no capabilities of the host in the cache, `Client.Exec` yields
no result at any depth. -/
theorem clientExec_sudo_none {W : Type} (lower : Char → Char) (printable : Char → Bool)
    (R : Remote W) (now : W → Int) (host : HostConfig) (cache : Option CapCache)
    (hsudo : StrategyByHost lower host.LoginMethod = .sudo)
    (hconn : ∀ w : W, (R.getOrConnect w).1 = none)
    (hmiss : cache = none ∨ ∃ cc : CapCache, cache = some cc ∧ cc.items host.IP = none) :
    ∀ (fuel : Nat) (w : W) (cmd : Command),
      Client.Exec lower printable R now host fuel { world := w, cache := cache } cmd = none := by
  intro fuel
  induction fuel with
  | zero => intro w cmd; rfl
  | succ fuel ih =>
    intro w cmd
    rw [Client.Exec, hsudo]
    simp only []
    rcases hc : R.getOrConnect w with ⟨e, w1⟩
    have he : e = none := by
      have := hconn w
      rw [hc] at this
      exact this
    subst he
    simp only []
    have hhit : (match cache with
        | none => (none : Option Capabilities)
        | some cc => if (cc.Get (now w1) host.IP).2 then some (cc.Get (now w1) host.IP).1
          else none) = none := by
      rcases hmiss with h | ⟨cc, h, hk⟩
      · rw [h]
      · rw [h]
        simp only []
        rw [capCache_get_absent cc _ _ hk]
        rfl
    rw [hhit]
    simp only []
    rw [ih w1 probeSudo]

/-- With a strategy other than sudo `ProbeCapabilities` returns. -/
theorem probeCapabilities_returns {W : Type} (lower : Char → Char) (printable : Char → Bool)
    (R : Remote W) (now : W → Int) (host : HostConfig) (fuel : Nat) (st : ClientState W)
    (h : StrategyByHost lower host.LoginMethod ≠ .sudo) :
    ∃ (cap : Capabilities) (tp : List SessionRun) (st1 : ClientState W),
      Client.ProbeCapabilities lower printable R now host (fuel + 1) st = some (cap, tp, st1) := by
  unfold Client.ProbeCapabilities
  simp only []
  split
  · exact ⟨_, _, _, rfl⟩
  · obtain ⟨r, t1, w1, h1⟩ := clientExec_returns lower printable R now host fuel st probeSudo h
    rw [h1]
    simp only []
    obtain ⟨r2, t2, w2, h2⟩ := clientExec_returns lower printable R now host fuel
      { world := w1, cache := st.cache } probePath h
    rw [h2]
    exact ⟨_, _, _, rfl⟩

/-- What `Client.Iptables` returns holds one command: the line made of the
probed binary, the table and the arguments, for the shell. -/
theorem iptables_command {W : Type} (B : Backend W) (host : HostConfig) (fuel : Nat)
    (v6 : Bool) (table : Str) (args : List Str) (st : ClientState W)
    (out : (Str × Option GoError) × List Command × List SessionRun × ClientState W)
    (h : Client.Iptables B host fuel v6 table args st = some out) :
    ∃ (cap : Capabilities) (tp : List SessionRun) (st1 : ClientState W),
      Client.ProbeCapabilities B.lower B.printable B.remote B.now host fuel st
        = some (cap, tp, st1) ∧
      out.2.1 = [{ Raw := iptablesLine cap v6 table args, Shell := true }] := by
  unfold Client.Iptables at h
  rcases hp : Client.ProbeCapabilities B.lower B.printable B.remote B.now host fuel st
    with _ | ⟨cap, tp, st1⟩
  · rw [hp] at h; simp at h
  · rw [hp] at h
    simp only [] at h
    refine ⟨cap, tp, st1, rfl, ?_⟩
    rcases he : Client.Exec B.lower B.printable B.remote B.now host fuel st1
      (buildCommand (iptablesLine cap v6 table args) [WithShell true]) with _ | ⟨r, t, st2⟩
    · rw [he] at h; simp at h
    · rw [he] at h
      simp only [] at h
      rw [buildCommand_shell] at h
      rcases hr : r.Err with _ | err
      · rw [hr] at h
        simp only [Option.some.injEq] at h
        rw [← h]
      · rw [hr] at h
        simp only [Option.some.injEq] at h
        rw [← h]

/-- With a strategy other than sudo `Client.Iptables` returns. -/
theorem iptables_returns {W : Type} (B : Backend W) (host : HostConfig) (fuel : Nat)
    (v6 : Bool) (table : Str) (args : List Str) (st : ClientState W)
    (h : StrategyByHost B.lower host.LoginMethod ≠ .sudo) :
    ∃ out, Client.Iptables B host (fuel + 1) v6 table args st = some out := by
  unfold Client.Iptables
  obtain ⟨cap, tp, st1, hp⟩ := probeCapabilities_returns B.lower B.printable B.remote B.now host
    fuel st h
  rw [hp]
  simp only []
  obtain ⟨r, t, w2, he⟩ := clientExec_returns B.lower B.printable B.remote B.now host fuel st1
    (buildCommand (iptablesLine cap v6 table args) [WithShell true]) h
  rw [he]
  simp only []
  split <;> exact ⟨_, rfl⟩

/-- On a host with the sudo strategy whose connection is established whenever
it is asked for, `Client.Iptables` of the client that `sshClient` makes yields
no result at any depth: the probe does not return. -/
theorem iptables_sudo_none {W : Type} (B : Backend W) (host : HostConfig) (v6 : Bool)
    (table : Str) (args : List Str) (w : W)
    (hsudo : StrategyByHost B.lower host.LoginMethod = .sudo)
    (hconn : ∀ w : W, (B.remote.getOrConnect w).1 = none) (fuel : Nat) :
    Client.Iptables B host fuel v6 table args { world := w, cache := none } = none := by
  unfold Client.Iptables Client.ProbeCapabilities
  simp only []
  rw [clientExec_sudo_none B.lower B.printable B.remote B.now host none hsudo hconn (Or.inl rfl)]

theorem sshClient_cache {W : Type} (B : Backend W) (w : W) :
    (B.sshClient w).2.2.cache = none := by
  unfold Backend.sshClient
  rcases B.getHost w with ⟨_ | e, h, w1⟩ <;> rfl

/-- On a host with the sudo strategy whose connection is established whenever
it is asked for, `UpdateRule` and `CreateRule` yield no result at any depth and
no command is executed. -/
theorem updateRule_sudo_host {W : Type} (B : Backend W) (v6 : Bool)
    (table chainName ruleID : Str) (r : RuleInput) (w : W) (num : Int) (host : HostConfig)
    (st : ClientState W) (hid : parseRuleNum ruleID = some num)
    (hcli : B.sshClient w = (none, host, st))
    (hsudo : StrategyByHost B.lower host.LoginMethod = .sudo)
    (hconn : ∀ w : W, (B.remote.getOrConnect w).1 = none) (fuel : Nat) :
    UpdateRule B fuel v6 table chainName ruleID r w = none ∧
    CreateRule B fuel v6 table chainName r w = none := by
  have hc : st.cache = none := by
    have := sshClient_cache B w
    rw [hcli] at this
    exact this
  rcases st with ⟨w1, c⟩
  simp only at hc
  subst hc
  constructor
  · unfold UpdateRule
    rw [hid]
    simp only []
    rw [hcli]
    simp only []
    rw [iptables_sudo_none B host v6 table _ w1 hsudo hconn]
  · unfold CreateRule
    rw [hcli]
    simp only []
    rw [iptables_sudo_none B host v6 table _ w1 hsudo hconn]

theorem createRule_found {W : Type} (B : Backend W) (fuel : Nat) (v6 : Bool)
    (table chainName : Str) (r : RuleInput) (w : W) (host : HostConfig) (st : ClientState W)
    (h : B.sshClient w = (none, host, st)) :
    CreateRule B fuel v6 table chainName r w
      = (Client.Iptables B host fuel v6 table
          (placement chainName r.Num ++ buildIptablesArgs r) st).map
          (fun out => (out.1.2, out.2.1, out.2.2.1, out.2.2.2.world)) := by
  unfold CreateRule
  rw [h]
  simp only []
  rcases Client.Iptables B host fuel v6 table
    (placement chainName r.Num ++ buildIptablesArgs r) st with _ | out <;> rfl

set_option maxRecDepth 100000 in
/-- A replacement with a num of its own is inserted at that num, not at the
num of the rule that was deleted: on a host with the root profile, rule 3 of
INPUT is deleted and the replacement with num 1 goes to position 1. -/
theorem updateRule_own_num :
    (UpdateRule (scriptedBackend "root".toList) 1 false "filter".toList "INPUT".toList
        "INPUT:3".toList
        { Num := some 1, Protocol := "tcp".toList, DestPort := "22".toList,
          Action := "ACCEPT".toList }
        []).map (fun o => (o.1, o.2.1.map (fun c => c.Raw)))
      = some (none, ["/usr/sbin/iptables -t filter -D INPUT 3".toList,
         "/usr/sbin/iptables -t filter -I INPUT 1 -p tcp --dport 22 -j ACCEPT".toList]) := by
  decide

/-- C22 (amended): on a host whose profile is root or user, for every rule
id that `parseRuleNum` reads as `num`, once the client of the host is found,
`UpdateRule` executes `-D <chain> <num>`; if the delete fails, nothing else is
executed and the error of the delete is returned; if it succeeds and the host
is not found again, that error is returned; if the host is found again,
`UpdateRule` executes one more command and returns its error:
`-I <chain> <n> <encoded replacement>` when the position `n` is above zero, and
`-A <chain> <encoded replacement>` when it is not, where `n` is the num of the
replacement when it has one above zero and `num` otherwise. -/
theorem updateRule_delete_then_insert {W : Type} (B : Backend W) (fuel : Nat) (v6 : Bool)
    (table chainName ruleID : Str) (r : RuleInput) (w : W) (num : Int) (host : HostConfig)
    (st : ClientState W)
    (hid : parseRuleNum ruleID = some num)
    (hcli : B.sshClient w = (none, host, st))
    (hprof : StrategyByHost B.lower host.LoginMethod ≠ .sudo) :
    ∃ (cap : Capabilities) (tp : List SessionRun) (st1 : ClientState W)
      (del : (Str × Option GoError) × List Command × List SessionRun × ClientState W),
      Client.ProbeCapabilities B.lower B.printable B.remote B.now host (fuel + 1) st
        = some (cap, tp, st1) ∧
      Client.Iptables B host (fuel + 1) v6 table ["-D".toList, chainName, itoa num] st
        = some del ∧
      del.2.1 = [{ Raw := iptablesLine cap v6 table ["-D".toList, chainName, itoa num],
                   Shell := true }] ∧
      (∀ err : GoError, del.1.2 = some err →
        UpdateRule B (fuel + 1) v6 table chainName ruleID r w
          = some (some err, del.2.1, del.2.2.1, del.2.2.2.world)) ∧
      (del.1.2 = none →
        (∀ (err : GoError) (host2 : HostConfig) (st2 : ClientState W),
          B.sshClient del.2.2.2.world = (some err, host2, st2) →
          UpdateRule B (fuel + 1) v6 table chainName ruleID r w
            = some (some err, del.2.1, del.2.2.1, st2.world)) ∧
        (∀ (host2 : HostConfig) (st2 : ClientState W),
          B.sshClient del.2.2.2.world = (none, host2, st2) →
          StrategyByHost B.lower host2.LoginMethod ≠ .sudo →
          ∃ (cap2 : Capabilities) (tp2 : List SessionRun) (st3 : ClientState W)
            (ins : (Str × Option GoError) × List Command × List SessionRun × ClientState W),
            Client.ProbeCapabilities B.lower B.printable B.remote B.now host2 (fuel + 1) st2
              = some (cap2, tp2, st3) ∧
            Client.Iptables B host2 (fuel + 1) v6 table
                (placement chainName (some (insertPosition num r.Num)) ++ buildIptablesArgs r)
                st2 = some ins ∧
            UpdateRule B (fuel + 1) v6 table chainName ruleID r w
              = some (ins.1.2, del.2.1 ++ ins.2.1, del.2.2.1 ++ ins.2.2.1, ins.2.2.2.world) ∧
            (0 < insertPosition num r.Num →
              ins.2.1 = [{ Raw := (iptablesLine cap2 v6 table
                  (["-I".toList, chainName, itoa (insertPosition num r.Num)]
                    ++ buildIptablesArgs r)), Shell := true }]) ∧
            (insertPosition num r.Num ≤ 0 →
              ins.2.1 = [{ Raw := (iptablesLine cap2 v6 table
                  (["-A".toList, chainName] ++ buildIptablesArgs r)), Shell := true }]))) ∧
      (∀ k : Int, r.Num = some k → 0 < k → insertPosition num r.Num = k) ∧
      ((r.Num = none ∨ ∃ k : Int, r.Num = some k ∧ k ≤ 0) → insertPosition num r.Num = num) := by
  obtain ⟨del, hdel⟩ := iptables_returns B host fuel v6 table
    ["-D".toList, chainName, itoa num] st hprof
  obtain ⟨cap, tp, st1, hprobe, hcmd⟩ := iptables_command B host (fuel + 1) v6 table _ st del
    hdel
  have hU : UpdateRule B (fuel + 1) v6 table chainName ruleID r w
      = (match del.1.2 with
        | some err => some (some err, del.2.1, del.2.2.1, del.2.2.2.world)
        | none =>
          match CreateRule B (fuel + 1) v6 table chainName
              { r with Num := some (insertPosition num r.Num) } del.2.2.2.world with
          | none => none
          | some ins => some (ins.1, del.2.1 ++ ins.2.1, del.2.2.1 ++ ins.2.2.1, ins.2.2.2)) := by
    unfold UpdateRule
    rw [hid]
    simp only []
    rw [hcli]
    simp only []
    rw [hdel]
  refine ⟨cap, tp, st1, del, hprobe, hdel, hcmd, ?_, ?_, ?_, ?_⟩
  · intro err herr
    rw [hU, herr]
  · intro hok
    constructor
    · intro err host2 st2 h2
      rw [hU, hok]
      simp only []
      unfold CreateRule
      rw [h2]
      simp
    · intro host2 st2 h2 hprof2
      obtain ⟨ins, hins⟩ := iptables_returns B host2 fuel v6 table
        (placement chainName (some (insertPosition num r.Num)) ++ buildIptablesArgs r) st2 hprof2
      obtain ⟨cap2, tp2, st3, hprobe2, hcmd2⟩ := iptables_command B host2 (fuel + 1) v6 table _
        st2 ins hins
      refine ⟨cap2, tp2, st3, ins, hprobe2, hins, ?_, ?_, ?_⟩
      · rw [hU, hok]
        simp only []
        rw [createRule_found B (fuel + 1) v6 table chainName _ _ host2 st2 h2,
          buildIptablesArgs_num]
        simp only []
        rw [hins]
        rfl
      · intro hpos
        rw [hcmd2]
        unfold placement
        simp only []
        rw [if_pos hpos]
      · intro hle
        rw [hcmd2]
        unfold placement
        simp only []
        rw [if_neg (by omega)]
  · intro k hk hpos
    unfold insertPosition
    rw [hk]
    simp only []
    rw [if_pos hpos]
  · rintro (h | ⟨k, hk, hle⟩)
    · unfold insertPosition; rw [h]
    · unfold insertPosition
      rw [hk]
      simp only []
      rw [if_neg (by omega)]

set_option maxRecDepth 100000 in
/-- The update of rule 3 of INPUT, on a host with the root profile, by a
replacement without a num of its own: the delete, then the insert at
position 3; with the id `INPUT:0` the delete at 0, then an append. -/
theorem updateRule_delete_then_insert_witness :
    (UpdateRule (scriptedBackend "root".toList) 1 false "filter".toList "INPUT".toList
        "INPUT:3".toList
        { Protocol := "tcp".toList, DestPort := "22".toList, Action := "ACCEPT".toList }
        []).map (fun o => (o.1, o.2.1.map (fun c => c.Raw)))
      = some (none, ["/usr/sbin/iptables -t filter -D INPUT 3".toList,
         "/usr/sbin/iptables -t filter -I INPUT 3 -p tcp --dport 22 -j ACCEPT".toList]) ∧
    (UpdateRule (scriptedBackend "root".toList) 1 false "filter".toList "INPUT".toList
        "INPUT:0".toList
        { Protocol := "tcp".toList, DestPort := "22".toList, Action := "ACCEPT".toList }
        []).map (fun o => (o.1, o.2.1.map (fun c => c.Raw)))
      = some (none, ["/usr/sbin/iptables -t filter -D INPUT 0".toList,
         "/usr/sbin/iptables -t filter -A INPUT -p tcp --dport 22 -j ACCEPT".toList]) ∧
    ∃ (cap : Capabilities) (tp : List SessionRun) (st1 : ClientState (List RunOutcome))
      (del : (Str × Option GoError) × List Command × List SessionRun ×
        ClientState (List RunOutcome)),
      Client.ProbeCapabilities asciiLower (fun _ => true) scripted (fun _ => 0)
          { IP := "10.0.0.1".toList, LoginMethod := "root".toList } 1
          { world := [], cache := none } = some (cap, tp, st1) ∧
      Client.Iptables (scriptedBackend "root".toList)
          { IP := "10.0.0.1".toList, LoginMethod := "root".toList } 1 false "filter".toList
          ["-D".toList, "INPUT".toList, itoa 3] { world := [], cache := none } = some del ∧
      del.2.1 = [{ Raw := (iptablesLine cap false "filter".toList
          ["-D".toList, "INPUT".toList, itoa 3]), Shell := true }] :=
  ⟨by decide, by decide,
    (updateRule_delete_then_insert (scriptedBackend "root".toList) 0 false "filter".toList
    "INPUT".toList "INPUT:3".toList
    { Protocol := "tcp".toList, DestPort := "22".toList, Action := "ACCEPT".toList }
    [] 3 { IP := "10.0.0.1".toList, LoginMethod := "root".toList }
    { world := [], cache := none } (by decide) rfl (by decide)).imp
    (fun _ h => h.imp (fun _ h1 => h1.imp (fun _ h2 => h2.imp
      (fun _ h' => ⟨h'.1, h'.2.1, h'.2.2.1⟩))))⟩

/-- C27: once the client of the host is found, what `CreateRule` returns
holds one command line; its words, split on white space, are the binary,
`-t`, the table, the placement (`-A` and the chain, or `-I`, the chain and the
position) and the arguments of `buildIptablesArgs`, one word per element,
exactly when each of these is a word (not empty, without white space).  A
comment that holds white space does not reach iptables as a single argument:
the words of the line then differ from the arguments.  On a host whose
profile is root or user `CreateRule` returns. -/
theorem createRule_words {W : Type} (B : Backend W) (v6 : Bool) (table chainName : Str)
    (r : RuleInput) (w : W) (host : HostConfig) (st : ClientState W)
    (hcli : B.sshClient w = (none, host, st)) :
    (∀ (fuel : Nat) (o : Option GoError × List Command × List SessionRun × W),
      CreateRule B fuel v6 table chainName r w = some o →
      ∃ (cap : Capabilities) (tp : List SessionRun) (st1 : ClientState W) (line : Str),
        Client.ProbeCapabilities B.lower B.printable B.remote B.now host fuel st
          = some (cap, tp, st1) ∧
        o.2.1 = [{ Raw := line, Shell := true }] ∧
        (fields line
            = [iptablesBin cap v6, "-t".toList, table]
              ++ (placement chainName r.Num ++ buildIptablesArgs r) ↔
          ∀ a ∈ [iptablesBin cap v6, "-t".toList, table]
              ++ (placement chainName r.Num ++ buildIptablesArgs r), isWord a) ∧
        (r.Comment ≠ [] → ¬ isWord r.Comment →
          fields line
            ≠ [iptablesBin cap v6, "-t".toList, table]
              ++ (placement chainName r.Num ++ buildIptablesArgs r))) ∧
    (StrategyByHost B.lower host.LoginMethod ≠ .sudo →
      ∀ fuel : Nat, ∃ o, CreateRule B (fuel + 1) v6 table chainName r w = some o) := by
  have hne : placement chainName r.Num ++ buildIptablesArgs r ≠ [] := by
    intro e
    exact placement_ne_nil chainName r.Num (List.append_eq_nil.1 e).1
  constructor
  · intro fuel o ho
    rw [createRule_found B fuel v6 table chainName r w host st hcli] at ho
    rcases hi : Client.Iptables B host fuel v6 table
      (placement chainName r.Num ++ buildIptablesArgs r) st with _ | out
    · rw [hi] at ho; simp at ho
    · rw [hi] at ho
      simp only [Option.map_some', Option.some.injEq] at ho
      obtain ⟨cap, tp, st1, hprobe, hcmd⟩ := iptables_command B host fuel v6 table _ st out hi
      have hiff := iptablesLine_words cap v6 table _ hne
      refine ⟨cap, tp, st1, iptablesLine cap v6 table
        (placement chainName r.Num ++ buildIptablesArgs r), hprobe, ?_, hiff, ?_⟩
      · rw [← ho]
        exact hcmd
      · intro hc hnw hf
        apply hnw
        apply hiff.1 hf
        have hmem : r.Comment ∈ buildIptablesArgs r := by
          rw [buildIptablesArgs_spec]
          unfold encodeSpec
          simp [emitIf, hc]
        simp [hmem]
  · intro hprof fuel
    rw [createRule_found B (fuel + 1) v6 table chainName r w host st hcli]
    obtain ⟨out, hout⟩ := iptables_returns B host fuel v6 table
      (placement chainName r.Num ++ buildIptablesArgs r) st hprof
    rw [hout]
    exact ⟨_, rfl⟩

set_option maxRecDepth 100000 in
/-- A rule with the comment `allow web` on a host with the root profile:
`CreateRule` returns, and the words of its line are not the arguments, the
comment is split in two. -/
theorem createRule_words_witness :
    ∃ o, CreateRule (scriptedBackend "root".toList) 1 false "filter".toList "INPUT".toList
        { Action := "ACCEPT".toList, Comment := "allow web".toList } [] = some o ∧
      ∃ (cap : Capabilities) (tp : List SessionRun) (st1 : ClientState (List RunOutcome))
        (line : Str),
        Client.ProbeCapabilities asciiLower (fun _ => true) scripted (fun _ => 0)
          { IP := "10.0.0.1".toList, LoginMethod := "root".toList } 1
          { world := [], cache := none } = some (cap, tp, st1) ∧
        o.2.1 = [{ Raw := line, Shell := true }] ∧
        fields line
          ≠ [iptablesBin cap false, "-t".toList, "filter".toList]
            ++ (placement "INPUT".toList none
              ++ buildIptablesArgs { Action := "ACCEPT".toList, Comment := "allow web".toList }) :=
  (fun T => (T.2 (by decide) 0).imp (fun o ho => ⟨ho, (T.1 1 o ho).imp
    (fun _ h => h.imp (fun _ h1 => h1.imp (fun _ h2 => h2.imp
      (fun _ h' => ⟨h'.1, h'.2.1, h'.2.2.2 (by decide)
        (fun hw => absurd (hw.2 ' ' (by decide)) (by decide))⟩))))⟩))
    (createRule_words (scriptedBackend "root".toList) false "filter".toList "INPUT".toList
      { Action := "ACCEPT".toList, Comment := "allow web".toList } []
      { IP := "10.0.0.1".toList, LoginMethod := "root".toList } { world := [], cache := none }
      rfl)

/-! ### Batches -/

/-- The result of `Client.Exec` carries the address of the host. -/
theorem clientExec_hostIP {W : Type} (lower : Char → Char) (printable : Char → Bool)
    (R : Remote W) (now : W → Int) (host : HostConfig) (fuel : Nat) (st : ClientState W)
    (cmd : Command) (res : Result) (t : List SessionRun) (st' : ClientState W)
    (h : Client.Exec lower printable R now host fuel st cmd = some (res, t, st')) :
    res.HostIP = host.IP := by
  rcases fuel with _ | fuel
  · simp [Client.Exec] at h
  · rw [Client.Exec] at h
    rcases hS : StrategyByHost lower host.LoginMethod with _ | _ | _
    · rw [hS] at h
      simp only [Option.some.injEq, Prod.mk.injEq] at h
      rw [← h.1]
    · rw [hS] at h
      simp only [] at h
      rcases hc : R.getOrConnect st.world with ⟨_ | e, w1⟩
      · rw [hc] at h
        simp only [] at h
        split at h
        · exact Option.noConfusion h
        · simp only [Option.some.injEq, Prod.mk.injEq] at h
          rw [← h.1]
      · rw [hc] at h
        simp only [Option.some.injEq, Prod.mk.injEq] at h
        rw [← h.1]
    · rw [hS] at h
      simp only [Option.some.injEq, Prod.mk.injEq] at h
      rw [← h.1]

theorem batchInv_init (workers : Nat) (hosts : List HostConfig) (c : Bool) :
    BatchInv workers hosts (batchInit hosts c) := by
  have h1 : (hosts.map (fun h => (h, Phase.waiting))).map Prod.fst = hosts := by
    induction hosts with
    | nil => rfl
    | cons a as ih => simp [ih]
  have h2 : holders (hosts.map (fun h => (h, Phase.waiting))) = 0 := by
    unfold holders
    induction hosts with
    | nil => rfl
    | cons a as ih => simp [ih]
  have h3 : reported (hosts.map (fun h => (h, Phase.waiting))) = [] := by
    unfold reported
    induction hosts with
    | nil => rfl
    | cons a as ih => simp [ih]
  unfold BatchInv batchInit
  simp only []
  rw [h2, h3]
  exact ⟨h1, rfl, Nat.zero_le _, List.Perm.refl _⟩

theorem batchInv_step {W : Type} (lower : Char → Char) (printable : Char → Bool)
    (R : Remote W) (now : W → Int) (cmd : Command) (workers : Nat) (ctxErr : GoError)
    (hosts : List HostConfig) (s s' : BatchState) (hs : BatchInv workers hosts s)
    (h : BatchStep lower printable R now cmd workers ctxErr s s') :
    BatchInv workers hosts s' := by
  obtain ⟨h1, h2, h3, h4⟩ := hs
  cases h with
  | acquire pre post h sem out c hlt =>
    refine ⟨?_, ?_, ?_, ?_⟩
    · simpa using h1
    · simp only [holders, List.filter_append, List.filter_cons, List.length_append] at h2 ⊢
      simp at h2 ⊢
      omega
    · exact hlt
    · simpa [reported, List.filter_append, List.filter_cons] using h4
  | cancel pre post h sem out =>
    refine ⟨?_, ?_, h3, ?_⟩
    · simpa using h1
    · simp only [holders, List.filter_append, List.filter_cons, List.length_append] at h2 ⊢
      simp at h2 ⊢
      omega
    · simp only [reported, List.filter_append, List.filter_cons, List.map_append] at h4 ⊢
      simp at h4 ⊢
      exact (h4.append_right [h.IP]).trans (by
        rw [List.append_assoc]
        exact List.Perm.append_left _ (List.perm_append_singleton _ _))
  | finish pre post h sem out c fuel w res t st' hres =>
    refine ⟨?_, ?_, h3, ?_⟩
    · simpa using h1
    · simp only [holders, List.filter_append, List.filter_cons, List.length_append] at h2 ⊢
      simp at h2 ⊢
      omega
    · simp only [reported, List.filter_append, List.filter_cons, List.map_append] at h4 ⊢
      simp at h4 ⊢
      rw [clientExec_hostIP lower printable R now h fuel _ cmd res t st' hres]
      exact (h4.append_right [h.IP]).trans (by
        rw [List.append_assoc]
        exact List.Perm.append_left _ (List.perm_append_singleton _ _))
  | release pre post h sem out c =>
    have h2' := h2
    simp only [holders, List.filter_append, List.filter_cons, List.length_append] at h2'
    simp at h2'
    refine ⟨?_, ?_, ?_, ?_⟩
    · simpa using h1
    · simp only [holders, List.filter_append, List.filter_cons, List.length_append]
      simp
      omega
    · show sem - 1 ≤ workers
      have : sem ≤ workers := h3
      omega
    · simpa [reported, List.filter_append, List.filter_cons] using h4
  | ctxEnd gs sem out => exact ⟨h1, h2, h3, h4⟩

theorem batchInv_reachable {W : Type} (lower : Char → Char) (printable : Char → Bool)
    (R : Remote W) (now : W → Int) (cmd : Command) (workers : Nat) (ctxErr : GoError)
    (hosts : List HostConfig) (c : Bool) (s : BatchState)
    (h : Relation.ReflTransGen (BatchStep lower printable R now cmd workers ctxErr)
      (batchInit hosts c) s) :
    BatchInv workers hosts s := by
  induction h with
  | refl => exact batchInv_init workers hosts c
  | tail _ hstep ih => exact batchInv_step lower printable R now cmd workers ctxErr hosts _ _ ih hstep

theorem inFlight_le_holders (gs : List (HostConfig × Phase)) : inFlight gs ≤ holders gs := by
  unfold inFlight holders
  induction gs with
  | nil => simp
  | cons g gs ih =>
    rcases g with ⟨h, p⟩
    cases p <;> simp [List.filter_cons] <;> omega

theorem reported_allDone (gs : List (HostConfig × Phase)) (h : allDone gs = true) :
    reported gs = (gs.map Prod.fst).map (fun h => h.IP) := by
  unfold allDone at h
  unfold reported
  induction gs with
  | nil => rfl
  | cons g gs ih =>
    simp only [List.all_cons, Bool.and_eq_true, decide_eq_true_eq] at h
    rw [List.filter_cons, if_pos (by simp [h.1]), List.map_cons, List.map_cons, List.map_cons,
      ih h.2]

theorem batchStep_weight {W : Type} (lower : Char → Char) (printable : Char → Bool)
    (R : Remote W) (now : W → Int) (cmd : Command) (workers : Nat) (ctxErr : GoError)
    (s s' : BatchState) (h : BatchStep lower printable R now cmd workers ctxErr s s') :
    s'.weight < s.weight := by
  cases h <;> simp [BatchState.weight, Phase.weight]

/-- A position of a list keeps its element when another element is replaced. -/
theorem getElem?_replace {α : Type} (pre post : List α) (a b x : α) (i : Nat)
    (h : (pre ++ a :: post)[i]? = some x) (hne : x ≠ a) : (pre ++ b :: post)[i]? = some x := by
  by_cases hi : i < pre.length
  · rw [List.getElem?_append_left hi] at h ⊢
    exact h
  · rw [List.getElem?_append_right (Nat.le_of_not_lt hi)] at h ⊢
    rcases hj : i - pre.length with _ | j
    · rw [hj] at h
      simp only [List.getElem?_cons_zero, Option.some.injEq] at h
      exact absurd h.symm hne
    · rw [hj] at h
      simpa using h

/-- A goroutine of a host with the sudo strategy that is inside `Client.Exec`
stays there: `Client.Exec` does not return. -/
theorem batchStep_sudo_running {W : Type} (lower : Char → Char) (printable : Char → Bool)
    (R : Remote W) (now : W → Int) (cmd : Command) (workers : Nat) (ctxErr : GoError)
    (hconn : ∀ w : W, (R.getOrConnect w).1 = none)
    (s s' : BatchState) (i : Nat) (h : HostConfig)
    (hsudo : StrategyByHost lower h.LoginMethod = .sudo)
    (hi : s.gs[i]? = some (h, Phase.running))
    (hstep : BatchStep lower printable R now cmd workers ctxErr s s') :
    s'.gs[i]? = some (h, Phase.running) := by
  cases hstep with
  | acquire pre post h0 sem out c hlt =>
    exact getElem?_replace pre post _ _ _ i hi (by simp)
  | cancel pre post h0 sem out =>
    exact getElem?_replace pre post _ _ _ i hi (by simp)
  | finish pre post h0 sem out c fuel w res t st' hres =>
    refine getElem?_replace pre post _ _ _ i hi ?_
    intro e
    simp only [Prod.mk.injEq, and_true] at e
    subst e
    rw [clientExec_sudo_none lower printable R now h none hsudo hconn (Or.inl rfl)] at hres
    exact Option.noConfusion hres
  | release pre post h0 sem out c =>
    exact getElem?_replace pre post _ _ _ i hi (by simp)
  | ctxEnd gs sem out => exact hi

theorem sudoInv_init (lower : Char → Char) (hosts : List HostConfig) (c : Bool) :
    SudoInv lower (batchInit hosts c) := by
  intro g hg _
  left
  unfold batchInit at hg
  simp only [List.mem_map] at hg
  obtain ⟨h, _, rfl⟩ := hg
  rfl

theorem sudoInv_step {W : Type} (lower : Char → Char) (printable : Char → Bool)
    (R : Remote W) (now : W → Int) (cmd : Command) (workers : Nat) (ctxErr : GoError)
    (hconn : ∀ w : W, (R.getOrConnect w).1 = none)
    (s s' : BatchState) (hs : SudoInv lower s)
    (h : BatchStep lower printable R now cmd workers ctxErr s s') : SudoInv lower s' := by
  have key : ∀ (pre post : List (HostConfig × Phase)) (h0 : HostConfig) (p p' : Phase)
      (sem sem' : Nat) (out out' : List Result) (c : Bool),
      SudoInv lower { gs := pre ++ (h0, p) :: post, sem := sem, out := out, ctxDone := c } →
      (StrategyByHost lower h0.LoginMethod = .sudo →
        p' = Phase.waiting ∨ p' = Phase.running ∨ (p' = Phase.done ∧ c = true)) →
      SudoInv lower { gs := pre ++ (h0, p') :: post, sem := sem', out := out', ctxDone := c } := by
    intro pre post h0 p p' sem sem' out out' c hinv hnew g hg hsudo
    simp only [List.mem_append, List.mem_cons] at hg
    rcases hg with hg | hg | hg
    · exact hinv g (by simp [hg]) hsudo
    · subst hg
      exact hnew hsudo
    · exact hinv g (by simp [hg]) hsudo
  cases h with
  | acquire pre post h0 sem out c hlt =>
    exact key pre post h0 _ _ _ _ _ _ c hs (fun _ => Or.inr (Or.inl rfl))
  | cancel pre post h0 sem out =>
    exact key pre post h0 _ _ _ _ _ _ true hs (fun _ => Or.inr (Or.inr ⟨rfl, rfl⟩))
  | finish pre post h0 sem out c fuel w res t st' hres =>
    refine key pre post h0 _ _ _ _ _ _ c hs (fun hsudo => ?_)
    rw [clientExec_sudo_none lower printable R now h0 none hsudo hconn (Or.inl rfl)] at hres
    exact Option.noConfusion hres
  | release pre post h0 sem out c =>
    refine key pre post h0 _ _ _ _ _ _ c hs (fun hsudo => ?_)
    rcases hs (h0, Phase.appended) (by simp) hsudo with e | e | e
    · exact Phase.noConfusion e
    · exact Phase.noConfusion e
    · exact Phase.noConfusion e.1
  | ctxEnd gs sem out =>
    intro g hg hsudo
    rcases hs g hg hsudo with e | e | e
    · exact Or.inl e
    · exact Or.inr (Or.inl e)
    · exact Or.inr (Or.inr ⟨e.1, rfl⟩)

/-- A goroutine that is not done can move when `sem` has room for it and
`Client.Exec` returns on its host. -/
theorem batchStep_enabled {W : Type} (lower : Char → Char) (printable : Char → Bool)
    (R : Remote W) (now : W → Int) (cmd : Command) (workers : Nat) (ctxErr : GoError)
    (hosts : List HostConfig) (s : BatchState) (w : W) (hw : 0 < workers)
    (hs : BatchInv workers hosts s)
    (hprof : ∀ h ∈ hosts, StrategyByHost lower h.LoginMethod ≠ .sudo)
    (hnd : allDone s.gs = false) :
    ∃ s', BatchStep lower printable R now cmd workers ctxErr s s' := by
  obtain ⟨h1, h2, h3, _⟩ := hs
  rcases s with ⟨gs, sem, out, c⟩
  simp only at h1 h2 h3 hnd
  by_cases hrun : ∃ g ∈ gs, g.2 = Phase.running
  · obtain ⟨g, hg, hp⟩ := hrun
    have hmem : g.1 ∈ hosts := by
      rw [← h1]
      exact List.mem_map_of_mem _ hg
    obtain ⟨pre, post, e⟩ := List.append_of_mem hg
    rcases g with ⟨h, p⟩
    simp only at hp
    subst hp
    subst e
    obtain ⟨res, t, w', hres⟩ := clientExec_returns lower printable R now h 0
      { world := w, cache := none } cmd (hprof h hmem)
    exact ⟨_, BatchStep.finish pre post h sem out c 1 w res t _ hres⟩
  · by_cases happ : ∃ g ∈ gs, g.2 = Phase.appended
    · obtain ⟨g, hg, hp⟩ := happ
      obtain ⟨pre, post, e⟩ := List.append_of_mem hg
      rcases g with ⟨h, p⟩
      simp only at hp
      subst hp
      subst e
      exact ⟨_, BatchStep.release pre post h sem out c⟩
    · have hsem : sem = 0 := by
        rw [h2]
        unfold holders
        rw [List.length_eq_zero, List.filter_eq_nil_iff]
        intro g hg
        simp only [Bool.or_eq_true, decide_eq_true_eq, not_or]
        exact ⟨fun e => hrun ⟨g, hg, e⟩, fun e => happ ⟨g, hg, e⟩⟩
      have hwait : ∃ g ∈ gs, g.2 = Phase.waiting := by
        unfold allDone at hnd
        rw [Bool.eq_false_iff, Ne, List.all_eq_true] at hnd
        push_neg at hnd
        obtain ⟨g, hg, hp⟩ := hnd
        refine ⟨g, hg, ?_⟩
        rcases g with ⟨h, p⟩
        cases p
        · rfl
        · exact absurd ⟨_, hg, rfl⟩ hrun
        · exact absurd ⟨_, hg, rfl⟩ happ
        · simp at hp
      obtain ⟨g, hg, hp⟩ := hwait
      obtain ⟨pre, post, e⟩ := List.append_of_mem hg
      rcases g with ⟨h, p⟩
      simp only at hp
      subst hp
      subst e
      exact ⟨_, BatchStep.acquire pre post h sem out c (by omega)⟩

theorem newExecutorPool_pos (n : Int) : 0 < NewExecutorPool n := by
  unfold NewExecutorPool
  split_ifs with h
  · decide
  · omega

theorem batch_weight_init (hosts : List HostConfig) (c : Bool) :
    (batchInit hosts c).weight ≤ 3 * hosts.length + 1 := by
  unfold BatchState.weight batchInit
  simp only [List.map_map]
  have : (hosts.map ((fun g : HostConfig × Phase => g.2.weight) ∘ fun h => (h, Phase.waiting))).sum
      = 3 * hosts.length := by
    induction hosts with
    | nil => rfl
    | cons a as ih =>
      simp only [List.map_cons, List.sum_cons, List.length_cons, ih]
      simp only [Function.comp, Phase.weight]
      omega
  rw [this]
  split_ifs <;> omega

theorem sudoInv_reachable {W : Type} (lower : Char → Char) (printable : Char → Bool)
    (R : Remote W) (now : W → Int) (cmd : Command) (workers : Nat) (ctxErr : GoError)
    (hosts : List HostConfig) (c : Bool) (s : BatchState)
    (hconn : ∀ w : W, (R.getOrConnect w).1 = none)
    (h : Relation.ReflTransGen (BatchStep lower printable R now cmd workers ctxErr)
      (batchInit hosts c) s) :
    SudoInv lower s := by
  induction h with
  | refl => exact sudoInv_init lower hosts c
  | tail _ hstep ih =>
    exact sudoInv_step lower printable R now cmd workers ctxErr hconn _ _ ih hstep

theorem batch_weight_reachable {W : Type} (lower : Char → Char) (printable : Char → Bool)
    (R : Remote W) (now : W → Int) (cmd : Command) (workers : Nat) (ctxErr : GoError)
    (hosts : List HostConfig) (c : Bool) (s : BatchState)
    (h : Relation.ReflTransGen (BatchStep lower printable R now cmd workers ctxErr)
      (batchInit hosts c) s) :
    s.weight ≤ 3 * hosts.length + 1 := by
  induction h with
  | refl => exact batch_weight_init hosts c
  | tail _ hstep ih =>
    have := batchStep_weight lower printable R now cmd workers ctxErr _ _ hstep
    omega

theorem batch_sudo_running {W : Type} (lower : Char → Char) (printable : Char → Bool)
    (R : Remote W) (now : W → Int) (cmd : Command) (workers : Nat) (ctxErr : GoError)
    (hconn : ∀ w : W, (R.getOrConnect w).1 = none)
    (s s' : BatchState) (i : Nat) (h : HostConfig)
    (hsudo : StrategyByHost lower h.LoginMethod = .sudo)
    (hi : s.gs[i]? = some (h, Phase.running))
    (hreach : Relation.ReflTransGen (BatchStep lower printable R now cmd workers ctxErr) s s') :
    s'.gs[i]? = some (h, Phase.running) := by
  induction hreach with
  | refl => exact hi
  | tail _ hstep ih =>
    exact batchStep_sudo_running lower printable R now cmd workers ctxErr hconn _ _ i h hsudo
      ih hstep

theorem allDone_running (gs : List (HostConfig × Phase)) (i : Nat) (h : HostConfig)
    (hi : gs[i]? = some (h, Phase.running)) : allDone gs = false := by
  rw [Bool.eq_false_iff]
  intro hd
  unfold allDone at hd
  rw [List.all_eq_true] at hd
  have := hd _ (List.getElem?_mem hi)
  simp at this

/-- C25: in every state that a run of `ExecBatch` over a list of hosts
reaches, with the pool of `NewExecutorPool`, the number of commands in flight
is at most the worker count of the pool, and the results appended so far are,
up to their order, one for each goroutine that has appended, so that there is
one result for each host if ever all goroutines are done.  But not every host
yields a result: when the connection is established whenever it is asked for,
the goroutine of a host with the sudo strategy, whose new client has no
capability cache, never appends the result of its command; it waits, or is
inside `Client.Exec`, or has taken the branch of the done context; once it is
inside `Client.Exec` it stays there in every later state, and `ExecBatch` does
not return.  Over hosts with the root or the user profile some step can be
made as long as a goroutine is not done; every step brings the end nearer. -/
theorem execBatch_bound {W : Type} (lower : Char → Char) (printable : Char → Bool)
    (R : Remote W) (now : W → Int) (cmd : Command) (n : Int) (ctxErr : GoError)
    (hosts : List HostConfig) (c : Bool) (s : BatchState)
    (hreach : Relation.ReflTransGen
      (BatchStep lower printable R now cmd (NewExecutorPool n) ctxErr) (batchInit hosts c) s) :
    inFlight s.gs ≤ NewExecutorPool n ∧
    (s.out.map (fun r => r.HostIP)).Perm (reported s.gs) ∧
    (allDone s.gs = true →
      (s.out.map (fun r => r.HostIP)).Perm (hosts.map (fun h => h.IP)) ∧
      s.out.length = hosts.length) ∧
    ((∀ w : W, (R.getOrConnect w).1 = none) →
      (∀ g ∈ s.gs, StrategyByHost lower g.1.LoginMethod = .sudo →
        g.2 = Phase.waiting ∨ g.2 = Phase.running ∨ (g.2 = Phase.done ∧ s.ctxDone = true)) ∧
      (∀ (i : Nat) (h : HostConfig), StrategyByHost lower h.LoginMethod = .sudo →
        s.gs[i]? = some (h, Phase.running) →
        ∀ s' : BatchState, Relation.ReflTransGen
          (BatchStep lower printable R now cmd (NewExecutorPool n) ctxErr) s s' →
          s'.gs[i]? = some (h, Phase.running) ∧ allDone s'.gs = false)) ∧
    ((∀ h ∈ hosts, StrategyByHost lower h.LoginMethod ≠ .sudo) → W → allDone s.gs = false →
      ∃ s', BatchStep lower printable R now cmd (NewExecutorPool n) ctxErr s s') ∧
    (∀ s', BatchStep lower printable R now cmd (NewExecutorPool n) ctxErr s s' →
      s'.weight < s.weight) ∧
    s.weight ≤ 3 * hosts.length + 1 := by
  have hinv := batchInv_reachable lower printable R now cmd (NewExecutorPool n) ctxErr hosts c s
    hreach
  obtain ⟨h1, h2, h3, h4⟩ := hinv
  refine ⟨?_, h4, ?_, ?_, ?_, ?_,
    batch_weight_reachable lower printable R now cmd _ ctxErr hosts c s hreach⟩
  · have := inFlight_le_holders s.gs
    omega
  · intro hd
    have hp : (s.out.map (fun r => r.HostIP)).Perm (hosts.map (fun h => h.IP)) := by
      rw [reported_allDone s.gs hd, h1] at h4
      exact h4
    refine ⟨hp, ?_⟩
    have := hp.length_eq
    rw [List.length_map, List.length_map] at this
    exact this
  · intro hconn
    refine ⟨sudoInv_reachable lower printable R now cmd (NewExecutorPool n) ctxErr hosts c s
      hconn hreach, ?_⟩
    intro i h hsudo hi s' hs'
    have := batch_sudo_running lower printable R now cmd (NewExecutorPool n) ctxErr hconn s s'
      i h hsudo hi hs'
    exact ⟨this, allDone_running s'.gs i h this⟩
  · intro hprof w hnd
    exact batchStep_enabled lower printable R now cmd (NewExecutorPool n) ctxErr hosts s w
      (newExecutorPool_pos n) ⟨h1, h2, h3, h4⟩ hprof hnd
  · intro s' hs'
    exact batchStep_weight _ _ _ _ _ _ _ _ _ hs'

/-- A run over one host with the sudo strategy and the default pool: the
goroutine sends on `sem` and calls `Client.Exec`; in every later state the
command is still in flight and `ExecBatch` has not returned. -/
theorem execBatch_bound_witness :
    inFlight [(({ IP := "10.0.0.1".toList, LoginMethod := "sudo".toList } : HostConfig),
      Phase.running)] ≤ NewExecutorPool 0 ∧
    ∀ s' : BatchState, Relation.ReflTransGen
        (BatchStep asciiLower (fun _ => true) scripted (fun _ => 0)
          { Raw := "iptables -L".toList, Shell := true } (NewExecutorPool 0)
          (.other "context canceled".toList))
        { gs := [({ IP := "10.0.0.1".toList, LoginMethod := "sudo".toList }, Phase.running)],
          sem := 1, out := [], ctxDone := false } s' →
      s'.gs[0]? = some ({ IP := "10.0.0.1".toList, LoginMethod := "sudo".toList }, Phase.running) ∧
      allDone s'.gs = false :=
  (fun h => ⟨h.1, (h.2.2.2.1 (fun _ => rfl)).2 0
      { IP := "10.0.0.1".toList, LoginMethod := "sudo".toList } (by decide) rfl⟩)
    (execBatch_bound asciiLower (fun _ => true) scripted (fun _ => 0)
      { Raw := "iptables -L".toList, Shell := true } 0 (.other "context canceled".toList)
      [{ IP := "10.0.0.1".toList, LoginMethod := "sudo".toList }] false
      { gs := [({ IP := "10.0.0.1".toList, LoginMethod := "sudo".toList }, Phase.running)],
        sem := 1, out := [], ctxDone := false }
      (Relation.ReflTransGen.refl.tail
        (BatchStep.acquire [] [] { IP := "10.0.0.1".toList, LoginMethod := "sudo".toList } 0 []
          false (by decide))))

end IptablesWeb
